import Mathlib

/-!
# Hailstorm: the fixed-timestep game loop of `GameClient`

A shallow embedding of `src/DesktopClient/gameclient.cpp`, and of the input and
wave generation of `src/Demos/src/WaterLandscapeDemoScene.cpp`.

* Time values (`TimeT`, and the `double` interpolation factor) are rationals,
  and the loop is embedded twice. In `beginFrame`, `stepBody`, `stepLoop`,
  `endFrame`, `outerIteration` and `runIterations` every sum, difference and
  quotient is exact; they carry the statements that do not depend on rounding:
  the order and the kind of the calls, the flags, the error paths, the clamp,
  the sign and the range of the accumulator and of the interpolation. The
  closed examples stated on them are runs whose comparisons the rounding does
  not change. In `beginFrameRounded`, `stepBodyRounded`, `stepLoopRounded`,
  `endFrameRounded`, `outerIterationRounded` and `runIterationsRounded` the
  result of every operation is rounded to `double` (`roundTimeT`), as in the
  source; they carry the statements on the number of `Update` calls and on the
  values of the running sums. On a run on which no operation rounds (`GridRun`)
  the two do the same, up to the interpolation passed to `Draw`.
* The constructor's constants are the single-precision values the source
  stores, held exactly.
* The collaborators (window, camera, scene, renderer, the host scheduler) are
  observed through the list of calls the client makes on them, in
  chronological order (`GameClient.calls`).
* `size_t numUpdates` is a natural number reduced modulo `2^64`.
* The inner `while` loop is bounded by a fuel argument: `none` means that the
  fuel ran out before the loop condition became false.
* What the caller and the platform supply to `Run` is a `Host`: the scene
  pointer, the answers of the two timer queries and of the window. An
  exception or a failed assertion ends `Run` with a `Failure`, and the
  `RunResult` keeps the client as it is at that point.
-/

namespace Hailstorm

/-- Calls made by the client on its collaborators. -/
inductive Event where
  /-- The call `mWindow->ProcessMessages()`. -/
  | ProcessMessages
  /-- The call `GameClient::Update(simulationTime, deltaTime)`, which forwards
  to the camera and to the scene. -/
  | Update (simulationTime deltaTime : ℚ)
  /-- The call `GameClient::Draw(simulationTime, interpolation)`, which forwards
  to `mDemoScene->Render`. -/
  | Draw (simulationTime interpolation : ℚ)
  /-- The call `mRenderer->Update(scene, simulationTime, frameTime)`. -/
  | RendererUpdate (simulationTime frameTime : ℚ)
  /-- The call `Sleep(ms)`. -/
  | Sleep (ms : Nat)
  /-- The call `mRenderer->Initialize()`. -/
  | RendererInitialize
  /-- The call `mDemoScene->Initialize(renderer)`. -/
  | SceneInitialize
  /-- The call `mDemoScene->LoadContent(renderer)`. -/
  | LoadContent
  /-- The call `mDemoScene->UnloadContent(renderer)`. -/
  | UnloadContent
  /-- The call `QueryPerformanceFrequency` made by
  `CalculateSystemTimerFrequency`. -/
  | QueryFrequency
  deriving DecidableEq, Repr

/-- The member variables of `GameClient` that `Run` and the loop read or
write, together with the calls made so far. `mDemoScene` is the stored scene
pointer, `none` for a null pointer. -/
structure GameClient where
  mDemoScene : Option Nat
  mIsGameRunning : Bool
  mIsRunningSlowly : Bool
  mTimerFrequency : ℚ
  mUpdateFrequency : ℚ
  mMaximumSleepSkew : ℚ
  calls : List Event
  deriving DecidableEq, Repr

/-- The constructor `GameClient::GameClient`: the initialiser list. The update
step is the single-precision quotient `1.0f / 50.0f = 5368709 / 2^28` and the
sleep skew the single-precision literal `0.01f = 5368709 / 2^29`, each the
`float` nearest to `1/50` and to `1/100`. -/
def GameClient.new : GameClient :=
  { mDemoScene := none
    mIsGameRunning := false
    mIsRunningSlowly := false
    mTimerFrequency := 0
    mUpdateFrequency := 5368709 / 268435456
    mMaximumSleepSkew := 5368709 / 536870912
    calls := [] }

/-- Record one collaborator call. -/
def GameClient.call (c : GameClient) (e : Event) : GameClient :=
  { c with calls := c.calls ++ [e] }

/-- The method `GameClient::Update`: forward to the camera and the scene. -/
def GameClient.Update (c : GameClient) (simulationTime deltaTime : ℚ) : GameClient :=
  c.call (Event.Update simulationTime deltaTime)

/-- The method `GameClient::Draw`: forward to the scene's `Render`. -/
def GameClient.Draw (c : GameClient) (simulationTime interpolation : ℚ) : GameClient :=
  c.call (Event.Draw simulationTime interpolation)

/-- The modulus of `size_t` arithmetic, for a 64-bit build. -/
def sizeModulus : Nat := 2 ^ 64

/-- The client together with the local variables of `RunMainGameLoop`.
`frameTime` and `numUpdates` are declared inside the loop body; they hold the
values of the most recent outer iteration. -/
structure LoopState where
  client : GameClient
  simulationTime : ℚ
  systemTime : ℚ
  accumulatedTime : ℚ
  frameTime : ℚ
  numUpdates : Nat
  deriving DecidableEq, Repr

/-- The part of `RunMainGameLoop` up to the first evaluation of the loop
condition (lines 104-109): `mIsGameRunning = true`, `simulationTime = 0`,
`systemTime = GetCurrentTime()` (here `startTime`), `accumulatedTime = 0`.
The assertion `mTimerFrequency > 0` of line 103 is not evaluated here. -/
def loopEntry (c : GameClient) (startTime : ℚ) : LoopState :=
  { client := { c with mIsGameRunning := true }
    simulationTime := 0
    systemTime := startTime
    accumulatedTime := 0
    frameTime := 0
    numUpdates := 0 }

/-- Lines 127-130: `if (frameTime > 0.25f) frameTime = 0.25f;` -/
def clampFrameTime (frameTime : ℚ) : ℚ :=
  if frameTime > 1 / 4 then 1 / 4 else frameTime

/-- Lines 115-135 of an outer iteration: poll the window, read the clock
(`newTime`), compute and clamp the frame time, reset `numUpdates` and add the
frame time to the accumulator. The difference and the sum are exact; the
source rounds both to `TimeT`, as `beginFrameRounded` does. -/
def beginFrame (s : LoopState) (newTime : ℚ) : LoopState :=
  let frameTime := clampFrameTime (newTime - s.systemTime)
  { s with
    client := s.client.call Event.ProcessMessages
    systemTime := newTime
    frameTime := frameTime
    numUpdates := 0
    accumulatedTime := s.accumulatedTime + frameTime }

/-- Lines 141-151: the body of the inner stepping loop. The sum and the
difference are exact; the source rounds both to `TimeT`, as `stepBodyRounded`
does. -/
def stepBody (s : LoopState) : LoopState :=
  let c := { s.client with mIsRunningSlowly := decide (s.numUpdates > 0) }
  let c := c.Update s.simulationTime c.mUpdateFrequency
  { s with
    client := c
    numUpdates := (s.numUpdates + 1) % sizeModulus
    simulationTime := s.simulationTime + c.mUpdateFrequency
    accumulatedTime := s.accumulatedTime - c.mUpdateFrequency }

/-- Lines 137-152: `while (accumulatedTime >= mUpdateFrequency) { ... }`, at
most `fuel` iterations. -/
def stepLoop : Nat → LoopState → Option LoopState
  | 0, s => if s.accumulatedTime ≥ s.client.mUpdateFrequency then none else some s
  | fuel + 1, s =>
    if s.accumulatedTime ≥ s.client.mUpdateFrequency then stepLoop fuel (stepBody s)
    else some s

/-- Line 156: `interpolation = 1.0f - (accumulatedTime / mUpdateFrequency)`.
For `mUpdateFrequency = 0` the rational quotient is 0, where the floating
point quotient is infinite or not a number; the statements below assume a
positive update step. -/
def interpolation (s : LoopState) : ℚ :=
  1 - s.accumulatedTime / s.client.mUpdateFrequency

/-- Lines 156-168: compute the interpolation, draw, update the renderer and
sleep when far ahead of the next simulation step. -/
def endFrame (s : LoopState) : LoopState :=
  let c := s.client.Draw s.simulationTime (interpolation s)
  let c := c.call (Event.RendererUpdate s.simulationTime s.frameTime)
  let c := if s.accumulatedTime + c.mMaximumSleepSkew < c.mUpdateFrequency
    then c.call (Event.Sleep 2) else c
  { s with client := c }

/-- One outer iteration of `RunMainGameLoop` (lines 115-168) in which the clock
reads `newTime`. -/
def outerIteration (fuel : Nat) (s : LoopState) (newTime : ℚ) : Option LoopState :=
  (stepLoop fuel (beginFrame s newTime)).map endFrame

/-- Successive outer iterations of `RunMainGameLoop` (lines 112-169), one per
clock reading: the iterations made while the loop condition
`mIsGameRunning && !mWindow->IsClosing()` holds. -/
def runIterations (fuel : Nat) (s : LoopState) : List ℚ → Option LoopState
  | [] => some s
  | t :: ts => (outerIteration fuel s t).bind fun s' => runIterations fuel s' ts

/-- The clock readings of the successive frames when the loop is entered at
time `start` and the frames have the deltas `ds`. -/
def clockReadings (start : ℚ) : List ℚ → List ℚ
  | [] => []
  | d :: ds => (start + d) :: clockReadings (start + d) ds

/-- The `Update` calls among a list of calls. -/
def updateCalls (calls : List Event) : List Event :=
  calls.filter fun e => match e with
    | Event.Update _ _ => true
    | _ => false

/-- The `Draw` calls among a list of calls. -/
def drawCalls (calls : List Event) : List Event :=
  calls.filter fun e => match e with
    | Event.Draw _ _ => true
    | _ => false

/-- The sum of the frame deltas, each clamped to `maxFrameTime = 0.25`. -/
def clampedTotal (ds : List ℚ) : ℚ :=
  (ds.map fun d => min d (1 / 4)).sum

/-- A client whose update step is `u`, otherwise freshly constructed. -/
def clientWithStep (u : ℚ) : GameClient :=
  { GameClient.new with mUpdateFrequency := u }

/-- The calls made since the client was in the state `c`. -/
def callsSince (c : GameClient) (s : LoopState) : List Event :=
  s.client.calls.drop c.calls.length

/-- The interpolation arguments of the `Draw` calls among a list of calls. -/
def drawInterpolations (calls : List Event) : List ℚ :=
  calls.filterMap fun e => match e with
    | Event.Draw _ x => some x
    | _ => none

/-- The number of inner iterations owed by the accumulator: `⌊a / u⌋`,
and none when that is negative. -/
def stepsOwed (s : LoopState) : Nat :=
  ⌊s.accumulatedTime / s.client.mUpdateFrequency⌋.toNat

/-- The state at the end of an outer iteration whose inner loop runs
`stepsOwed` times. -/
def frameResult (s : LoopState) (newTime : ℚ) : LoopState :=
  endFrame (stepBody^[stepsOwed (beginFrame s newTime)] (beginFrame s newTime))

/-- The calls of an outer iteration with `k` inner iterations, started in `s`
with clock reading `newTime`. -/
def frameCalls (s : LoopState) (newTime : ℚ) (k : Nat) : List Event :=
  let u := s.client.mUpdateFrequency
  let f := clampFrameTime (newTime - s.systemTime)
  let a := s.accumulatedTime + f - k * u
  let t := s.simulationTime + k * u
  Event.ProcessMessages ::
    ((List.range k).map fun (i : Nat) => Event.Update (s.simulationTime + (i : ℚ) * u) u) ++
    [Event.Draw t (1 - a / u), Event.RendererUpdate t f] ++
    (if a + s.client.mMaximumSleepSkew < u then [Event.Sleep 2] else [])

/-- The state after the outer iterations with the clock readings `ts`, each
inner loop running `stepsOwed` times. -/
def framesResult (s : LoopState) (ts : List ℚ) : LoopState :=
  ts.foldl frameResult s

/-- Fuel on which every inner loop of the outer iterations with the clock
readings `ts` runs to completion. -/
def fuelNeeded (s : LoopState) : List ℚ → Nat
  | [] => 0
  | t :: ts => max (stepsOwed (beginFrame s t)) (fuelNeeded (frameResult s t) ts)

/-- The `Update` calls made since loop entry with client `c` are the calls
`Update(i * u, u)` for `i = 0, 1, ..., n - 1`, and the simulation time is
`n * u`. -/
def UpdateTrace (c : GameClient) (s : LoopState) : Prop :=
  s.client.mUpdateFrequency = c.mUpdateFrequency ∧
  c.calls.length ≤ s.client.calls.length ∧
  ∃ n : Nat,
    updateCalls (callsSince c s) = ((List.range n).map fun (i : Nat) =>
      Event.Update ((i : ℚ) * c.mUpdateFrequency) c.mUpdateFrequency) ∧
    s.simulationTime = (n : ℚ) * c.mUpdateFrequency

/-- The calls that `RunMainGameLoop` makes: message poll, `Update`, `Draw`,
renderer update and `Sleep`. -/
def isLoopEvent : Event → Bool
  | Event.ProcessMessages => true
  | Event.Update _ _ => true
  | Event.Draw _ _ => true
  | Event.RendererUpdate _ _ => true
  | Event.Sleep _ => true
  | _ => false

/-- The ways in which `Run` ends other than by returning. -/
inductive Failure where
  /-- The scene pointer passed to `Run` is null. -/
  | invalidArgument
  /-- The exception "Unable to query performance frequency". -/
  | queryFrequency
  /-- The exception "Failed to query processor frequency (quad part == 0)". -/
  | zeroFrequency
  /-- The exception "Unable to query performance counter for time". -/
  | queryCounter
  /-- A failed `assert`. -/
  | assertion
  deriving DecidableEq, Repr

/-- What the host answers in one outer iteration of `RunMainGameLoop`. -/
structure FrameInput where
  /-- The answer of `mWindow->IsClosing()` in the loop condition. -/
  closing : Bool
  /-- The value returned by `mWindow->ProcessMessages()`. -/
  messages : Bool
  /-- The counter read by `QueryPerformanceCounter`, `none` when it fails. -/
  counter : Option Int
  deriving DecidableEq, Repr

/-- What the caller and the host supply to one call of `Run`. Collaborator
calls other than the two timer queries return normally. Once `frames` is
exhausted the window reports that it is closing. -/
structure Host where
  /-- The argument `pDemoScene`, `none` for a null pointer. -/
  scene : Option Nat
  /-- The answer of `QueryPerformanceFrequency`. -/
  frequencyOk : Bool
  /-- The signed 64-bit value `procFreq.QuadPart`. -/
  frequency : Int
  /-- The counter read by the `GetCurrentTime` call of line 108. -/
  startCounter : Option Int
  /-- The answers in the successive evaluations of the loop condition and
  iterations of the loop. -/
  frames : List FrameInput
  deriving DecidableEq, Repr

/-- The client when `Run` ends, and the failure it ended with, if any. -/
structure RunResult where
  client : GameClient
  failure : Option Failure
  deriving DecidableEq, Repr

/-- Modelled from the spec: `VerifyNotNull` of `runtime/debugging.h`, which is
not among the sources. "`Run(target)` fails with `InvalidArgument` if `target`
is null." -/
def VerifyNotNull (p : Option Nat) : Option Failure :=
  match p with
  | none => some Failure.invalidArgument
  | some _ => none

/-- The method `GameClient::CalculateSystemTimerFrequency` (lines 274-294), as
a function of the answer of `QueryPerformanceFrequency`. -/
def CalculateSystemTimerFrequency (result : Bool) (quadPart : Int) : Except Failure ℚ :=
  if !result then Except.error Failure.queryFrequency
  else if quadPart = 0 then Except.error Failure.zeroFrequency
  else Except.ok (quadPart : ℚ)

/-- The method `GameClient::GetCurrentTime` (lines 299-316), as a function of
the answer of `QueryPerformanceCounter`. -/
def GetCurrentTime (c : GameClient) (counter : Option Int) : Except Failure ℚ :=
  match counter with
  | none => Except.error Failure.queryCounter
  | some now => Except.ok ((now : ℚ) / c.mTimerFrequency)

/-- The method `GameClient::InitializeClient` (lines 181-186). -/
def InitializeClient (c : GameClient) (h : Host) : RunResult :=
  let c := c.call Event.QueryFrequency
  match CalculateSystemTimerFrequency h.frequencyOk h.frequency with
  | Except.error e => { client := c, failure := some e }
  | Except.ok f =>
    { client := ({ c with mTimerFrequency := f }).call Event.RendererInitialize
      failure := none }

/-- The method `GameClient::Initialize` (lines 195-200). -/
def Initialize (c : GameClient) : GameClient :=
  c.call Event.SceneInitialize

/-- The method `GameClient::LoadContent` (lines 205-210). -/
def LoadContent (c : GameClient) : GameClient :=
  c.call Event.LoadContent

/-- The method `GameClient::UnloadContent` (lines 212-217). -/
def UnloadContent (c : GameClient) : GameClient :=
  c.call Event.UnloadContent

/-- The `while` loop of `RunMainGameLoop` (lines 112-169). An exception of
`GetCurrentTime` leaves the loop and the method at once. -/
def mainLoop (fuel : Nat) (s : LoopState) : List FrameInput → Option RunResult
  | [] => some { client := s.client, failure := none }
  | f :: fs =>
    if s.client.mIsGameRunning && !f.closing then
      match GetCurrentTime s.client f.counter with
      | Except.error e =>
        some { client := s.client.call Event.ProcessMessages, failure := some e }
      | Except.ok newTime =>
        match outerIteration fuel s newTime with
        | none => none
        | some s' => mainLoop fuel s' fs
    else some { client := s.client, failure := none }

/-- The method `GameClient::RunMainGameLoop` (lines 99-173), with the
assertion of line 103 evaluated. -/
def RunMainGameLoop (fuel : Nat) (c : GameClient) (h : Host) : Option RunResult :=
  if ¬ (c.mTimerFrequency > 0) then some { client := c, failure := some Failure.assertion }
  else
    match GetCurrentTime c h.startCounter with
    | Except.error e =>
      some { client := { c with mIsGameRunning := true }, failure := some e }
    | Except.ok startTime => mainLoop fuel (loopEntry c startTime) h.frames

/-- The method `GameClient::Run` (lines 77-94). There is no handler between the
steps: a failure of one step ends `Run` with that failure. -/
def Run (fuel : Nat) (c : GameClient) (h : Host) : Option RunResult :=
  match VerifyNotNull h.scene with
  | some e => some { client := c, failure := some e }
  | none =>
    let c := { c with mDemoScene := h.scene }
    let r := InitializeClient c h
    match r.failure with
    | some e => some { client := r.client, failure := some e }
    | none =>
      let c := Initialize r.client
      let c := LoadContent c
      match RunMainGameLoop fuel c h with
      | none => none
      | some r =>
        match r.failure with
        | some e => some { client := r.client, failure := some e }
        | none => some { client := UnloadContent r.client, failure := none }

/-- The result of the `while` loop of `RunMainGameLoop` when every inner loop
runs `stepsOwed` times. -/
def mainLoopResult (s : LoopState) : List FrameInput → RunResult
  | [] => { client := s.client, failure := none }
  | f :: fs =>
    if s.client.mIsGameRunning && !f.closing then
      match GetCurrentTime s.client f.counter with
      | Except.error e =>
        { client := s.client.call Event.ProcessMessages, failure := some e }
      | Except.ok newTime => mainLoopResult (frameResult s newTime) fs
    else { client := s.client, failure := none }

/-- Fuel on which every inner loop of the `while` loop of `RunMainGameLoop`
runs to completion. -/
def mainLoopFuel (s : LoopState) : List FrameInput → Nat
  | [] => 0
  | f :: fs =>
    if s.client.mIsGameRunning && !f.closing then
      match GetCurrentTime s.client f.counter with
      | Except.error _ => 0
      | Except.ok newTime =>
        max (stepsOwed (beginFrame s newTime)) (mainLoopFuel (frameResult s newTime) fs)
    else 0

/-- The client with which `Run` calls `RunMainGameLoop`, when the scene is
not null and the frequency query succeeds with a non-zero answer: the scene is
stored, the timer frequency is the platform's, and the frequency query, the
renderer's and the scene's `Initialize` and `LoadContent` have been called. -/
def loadedClient (c : GameClient) (h : Host) : GameClient :=
  LoadContent (Initialize
    (({ ({ c with mDemoScene := h.scene }).call Event.QueryFrequency with
      mTimerFrequency := (h.frequency : ℚ) }).call Event.RendererInitialize))

/-- What `Run` makes of the result of `RunMainGameLoop`: `UnloadContent` after
a normal return, nothing more after a failure. -/
def finishRun (r : RunResult) : RunResult :=
  match r.failure with
  | some e => { client := r.client, failure := some e }
  | none => { client := UnloadContent r.client, failure := none }

/-- The client `c'` arises from `c` by calls of the main loop only: the
fields other than `mIsRunningSlowly` are those of `c`, and the calls of `c'`
are those of `c` followed by calls that `RunMainGameLoop` makes. -/
def LoopExtends (c c' : GameClient) : Prop :=
  c'.mDemoScene = c.mDemoScene ∧ c'.mIsGameRunning = c.mIsGameRunning ∧
  c'.mTimerFrequency = c.mTimerFrequency ∧ c'.mUpdateFrequency = c.mUpdateFrequency ∧
  c'.mMaximumSleepSkew = c.mMaximumSleepSkew ∧
  ∃ L, c'.calls = c.calls ++ L ∧ ∀ e ∈ L, isLoopEvent e = true

/-- The answers of the host that `RunMainGameLoop` can observe in one outer
iteration, namely all but the value returned by `ProcessMessages`. -/
def FrameInput.observed (f : FrameInput) : Bool × Option Int :=
  (f.closing, f.counter)

/-- The state of `WaterLandscapeDemoScene` that `OnUpdate` and `UpdateInput`
read or write: the light selection `mLightType`, the static local `t_base` of
`OnUpdate`, and the values of `currentTime` at which `GenerateRandomWave` has
been called so far. -/
structure SceneState where
  mLightType : Int
  t_base : ℚ
  waves : List ℚ
  deriving DecidableEq, Repr

/-- The constructor of `WaterLandscapeDemoScene` (lines 35-44), with the
initial value `0.0f` of the static local `t_base` (line 66). -/
def SceneState.new : SceneState :=
  { mLightType := 0
    t_base := 0
    waves := [] }

/-- The argument of a key query of `UpdateInput`: `ch & 0x8000` for the
character code `ch`. -/
def keyQueryArgument (ch : Nat) : Nat :=
  ch &&& 0x8000

/-- The method `WaterLandscapeDemoScene::UpdateInput` (lines 90-96), for the
key states that `GetKeyState` reports; 49, 50 and 51 are the codes of the
characters 1, 2 and 3. The log messages are left out. -/
def UpdateInput (getKeyState : Nat → Int) (s : SceneState) : SceneState :=
  let s := if getKeyState (keyQueryArgument 49) ≠ 0 then { s with mLightType := 0 } else s
  let s := if getKeyState (keyQueryArgument 50) ≠ 0 then { s with mLightType := 1 } else s
  if getKeyState (keyQueryArgument 51) ≠ 0 then { s with mLightType := 2 } else s

/-- The method `WaterLandscapeDemoScene::GenerateRandomWave` (lines 98-105),
called at `currentTime`: the call is recorded, the perturbation of the water
mesh is left out. -/
def GenerateRandomWave (s : SceneState) (currentTime : ℚ) : SceneState :=
  { s with waves := s.waves ++ [currentTime] }

/-- Lines 63-71 of `WaterLandscapeDemoScene::OnUpdate`: the input update and
the wave generation. The updates of the water mesh, of the camera and of the
lights (lines 73-87) are left out. -/
def OnUpdate (getKeyState : Nat → Int) (s : SceneState) (currentTime _deltaTime : ℚ) :
    SceneState :=
  let s := UpdateInput getKeyState s
  if currentTime - s.t_base ≥ 1 / 4 then GenerateRandomWave s currentTime else s

/-- The differences of consecutive entries of a list of times. -/
def gaps : List ℚ → List ℚ
  | a :: b :: rest => (b - a) :: gaps (b :: rest)
  | _ => []

/-- Round to the nearest integer, a tie going to the even neighbour. -/
def roundHalfEven (y : ℚ) : ℤ :=
  if y - ⌊y⌋ < 1 / 2 then ⌊y⌋
  else if 1 / 2 < y - ⌊y⌋ then ⌊y⌋ + 1
  else if ⌊y⌋ % 2 = 0 then ⌊y⌋ else ⌊y⌋ + 1

/-- The number of halvings that bring `n` below 2, at most `fuel` of them. -/
def log2Fuel : Nat → Nat → Nat
  | 0, _ => 0
  | fuel + 1, n => if 2 ≤ n then log2Fuel fuel (n / 2) + 1 else 0

/-- The binary exponent of a rational `x ≠ 0`: the integer `e` with
`2^e ≤ |x| < 2^(e + 1)`, from the bit lengths of the numerator and of the
denominator. -/
def binaryExponent (x : ℚ) : ℤ :=
  if x.den * 2 ^ log2Fuel x.num.natAbs x.num.natAbs ≤
      x.num.natAbs * 2 ^ log2Fuel x.den x.den then
    (log2Fuel x.num.natAbs x.num.natAbs : ℤ) - log2Fuel x.den x.den
  else (log2Fuel x.num.natAbs x.num.natAbs : ℤ) - log2Fuel x.den x.den - 1

/-- The spacing of the `double` values around `x`: `2^(e - 52)` for
`2^e ≤ |x| < 2^(e + 1)`, and `2^(-1074)` below the normal range. -/
def binaryQuantum (x : ℚ) : ℚ :=
  2 ^ (max (binaryExponent x) (-1022) - 52)

/-- The value that a `TimeT` variable stores for the real number `x`. `TimeT`
is declared in `runtime/gametime.h`, which is not among the sources; it is
taken to be `double`, the type of the interpolation of line 156, with the
arithmetic of IEEE 754 binary64: a 53-bit significand, round to nearest, ties
to even. Overflow to infinity is not represented. -/
def roundTimeT (x : ℚ) : ℚ :=
  if x = 0 then 0 else roundHalfEven (x / binaryQuantum x) * binaryQuantum x

/-- Lines 115-135 of an outer iteration with the rounding of `TimeT`: the
difference `newTime - systemTime` and the sum `accumulatedTime + frameTime`
are each rounded. The comparison with `0.25f` and the assignment of `0.25f`
are exact. -/
def beginFrameRounded (s : LoopState) (newTime : ℚ) : LoopState :=
  let frameTime := clampFrameTime (roundTimeT (newTime - s.systemTime))
  { s with
    client := s.client.call Event.ProcessMessages
    systemTime := newTime
    frameTime := frameTime
    numUpdates := 0
    accumulatedTime := roundTimeT (s.accumulatedTime + frameTime) }

/-- Lines 141-151 with the rounding of `TimeT`: the body of the inner stepping
loop, where `simulationTime += mUpdateFrequency` and
`accumulatedTime -= mUpdateFrequency` each round their result. -/
def stepBodyRounded (s : LoopState) : LoopState :=
  let c := { s.client with mIsRunningSlowly := decide (s.numUpdates > 0) }
  let c := c.Update s.simulationTime c.mUpdateFrequency
  { s with
    client := c
    numUpdates := (s.numUpdates + 1) % sizeModulus
    simulationTime := roundTimeT (s.simulationTime + c.mUpdateFrequency)
    accumulatedTime := roundTimeT (s.accumulatedTime - c.mUpdateFrequency) }

/-- Lines 137-152 with the rounding of `TimeT`:
`while (accumulatedTime >= mUpdateFrequency) { ... }`, at most `fuel`
iterations. -/
def stepLoopRounded : Nat → LoopState → Option LoopState
  | 0, s => if s.accumulatedTime ≥ s.client.mUpdateFrequency then none else some s
  | fuel + 1, s =>
    if s.accumulatedTime ≥ s.client.mUpdateFrequency then
      stepLoopRounded fuel (stepBodyRounded s)
    else some s

/-- Line 156 with the rounding of `double`: the quotient
`accumulatedTime / mUpdateFrequency` is rounded, and so is its difference
from 1. -/
def interpolationRounded (s : LoopState) : ℚ :=
  roundTimeT (1 - roundTimeT (s.accumulatedTime / s.client.mUpdateFrequency))

/-- Lines 156-168 with the rounding of `TimeT`: compute the interpolation,
draw, update the renderer and sleep when the rounded sum
`accumulatedTime + mMaximumSleepSkew` is below the update step. -/
def endFrameRounded (s : LoopState) : LoopState :=
  let c := s.client.Draw s.simulationTime (interpolationRounded s)
  let c := c.call (Event.RendererUpdate s.simulationTime s.frameTime)
  let c := if roundTimeT (s.accumulatedTime + c.mMaximumSleepSkew) < c.mUpdateFrequency
    then c.call (Event.Sleep 2) else c
  { s with client := c }

/-- One outer iteration of `RunMainGameLoop` (lines 115-168) with the rounding
of `TimeT`, in which the clock reads `newTime`. -/
def outerIterationRounded (fuel : Nat) (s : LoopState) (newTime : ℚ) : Option LoopState :=
  (stepLoopRounded fuel (beginFrameRounded s newTime)).map endFrameRounded

/-- Successive outer iterations of `RunMainGameLoop` (lines 112-169) with the
rounding of `TimeT`, one per clock reading. -/
def runIterationsRounded (fuel : Nat) (s : LoopState) : List ℚ → Option LoopState
  | [] => some s
  | t :: ts =>
    (outerIterationRounded fuel s t).bind fun s' => runIterationsRounded fuel s' ts

/-- The value `x` is a multiple of `2^(-k)`. -/
@[reducible] def onGrid (k : Nat) (x : ℚ) : Prop :=
  (x * 2 ^ k).den = 1

/-- An event without the interpolation argument of `Draw`. -/
def eraseInterpolation : Event → Event
  | Event.Draw simulationTime _ => Event.Draw simulationTime 0
  | e => e

/-- A loop state without the interpolation arguments of the `Draw` calls made
so far. -/
def LoopState.erased (s : LoopState) : LoopState :=
  { s with client := { s.client with calls := s.client.calls.map eraseInterpolation } }

/-- The loop state `s` lies on the grid of the multiples of `2^(-k)`: the
update step is positive, the step, the sleep skew, the simulation time and the
accumulator are on the grid, and the sleep skew and the simulation time are
not negative. -/
@[reducible] def GridState (k : Nat) (s : LoopState) : Prop :=
  0 < s.client.mUpdateFrequency ∧ onGrid k s.client.mUpdateFrequency ∧
  0 ≤ s.client.mMaximumSleepSkew ∧ onGrid k s.client.mMaximumSleepSkew ∧
  0 ≤ s.simulationTime ∧ onGrid k s.simulationTime ∧ onGrid k s.accumulatedTime

/-- A bound on the absolute value of every sum and difference that the loop
computes from the state `s` before the next clock reading. -/
def timeBudget (s : LoopState) : ℚ :=
  |s.accumulatedTime| + s.simulationTime + s.client.mMaximumSleepSkew

/-- A run of the client `c` with the frame deltas `ds` on which no sum or
difference of the loop rounds: the update step, the sleep skew and the deltas
are multiples of `2^(-k)`, and the step, the skew and the absolute values of
the deltas add up to less than `2^(53 - k)`, so that every value the loop
computes is a multiple of `2^(-k)` with a significand of at most 53 bits. -/
@[reducible] def GridRun (k : Nat) (c : GameClient) (ds : List ℚ) : Prop :=
  2 ≤ k ∧ k ≤ 1074 ∧ onGrid k c.mUpdateFrequency ∧
  0 ≤ c.mMaximumSleepSkew ∧ onGrid k c.mMaximumSleepSkew ∧ (∀ d ∈ ds, onGrid k d) ∧
  (c.mUpdateFrequency + c.mMaximumSleepSkew + (ds.map fun d => |d|).sum) * 2 ^ k < 2 ^ 53

/-- An outer iteration from the state `s` with the clock reading `t` on which
no sum or difference rounds: the state is on the grid of the multiples of
`2^(-k)`, so is the frame delta `t - systemTime`, and the step, the values of
the state and the absolute value of the delta add up to less than
`2^(53 - k)`. -/
@[reducible] def GridFrame (k : Nat) (s : LoopState) (t : ℚ) : Prop :=
  2 ≤ k ∧ k ≤ 1074 ∧ GridState k s ∧ onGrid k (t - s.systemTime) ∧
  (s.client.mUpdateFrequency + timeBudget s + |t - s.systemTime|) * 2 ^ k < 2 ^ 53

/-! ## The inner stepping loop -/

@[simp] theorem stepBody_updateFrequency (s : LoopState) :
    (stepBody s).client.mUpdateFrequency = s.client.mUpdateFrequency := rfl

@[simp] theorem stepBody_sleepSkew (s : LoopState) :
    (stepBody s).client.mMaximumSleepSkew = s.client.mMaximumSleepSkew := rfl

@[simp] theorem stepBody_systemTime (s : LoopState) :
    (stepBody s).systemTime = s.systemTime := rfl

@[simp] theorem stepBody_frameTime (s : LoopState) :
    (stepBody s).frameTime = s.frameTime := rfl

@[simp] theorem stepBody_simulationTime (s : LoopState) :
    (stepBody s).simulationTime = s.simulationTime + s.client.mUpdateFrequency := rfl

@[simp] theorem stepBody_accumulatedTime (s : LoopState) :
    (stepBody s).accumulatedTime = s.accumulatedTime - s.client.mUpdateFrequency := rfl

@[simp] theorem stepBody_calls (s : LoopState) :
    (stepBody s).client.calls =
      s.client.calls ++ [Event.Update s.simulationTime s.client.mUpdateFrequency] := rfl

theorem iterate_updateFrequency (k : Nat) (s : LoopState) :
    (stepBody^[k] s).client.mUpdateFrequency = s.client.mUpdateFrequency := by
  induction k with
  | zero => rfl
  | succ k ih => rw [Function.iterate_succ_apply', stepBody_updateFrequency, ih]

theorem iterate_sleepSkew (k : Nat) (s : LoopState) :
    (stepBody^[k] s).client.mMaximumSleepSkew = s.client.mMaximumSleepSkew := by
  induction k with
  | zero => rfl
  | succ k ih => rw [Function.iterate_succ_apply', stepBody_sleepSkew, ih]

theorem iterate_systemTime (k : Nat) (s : LoopState) :
    (stepBody^[k] s).systemTime = s.systemTime := by
  induction k with
  | zero => rfl
  | succ k ih => rw [Function.iterate_succ_apply', stepBody_systemTime, ih]

theorem iterate_frameTime (k : Nat) (s : LoopState) :
    (stepBody^[k] s).frameTime = s.frameTime := by
  induction k with
  | zero => rfl
  | succ k ih => rw [Function.iterate_succ_apply', stepBody_frameTime, ih]

theorem iterate_simulationTime (k : Nat) (s : LoopState) :
    (stepBody^[k] s).simulationTime = s.simulationTime + k * s.client.mUpdateFrequency := by
  induction k with
  | zero => simp
  | succ k ih =>
    rw [Function.iterate_succ_apply', stepBody_simulationTime, ih, iterate_updateFrequency]
    push_cast
    ring

theorem iterate_accumulatedTime (k : Nat) (s : LoopState) :
    (stepBody^[k] s).accumulatedTime = s.accumulatedTime - k * s.client.mUpdateFrequency := by
  induction k with
  | zero => simp
  | succ k ih =>
    rw [Function.iterate_succ_apply', stepBody_accumulatedTime, ih, iterate_updateFrequency]
    push_cast
    ring

theorem iterate_calls (k : Nat) (s : LoopState) :
    (stepBody^[k] s).client.calls = s.client.calls ++ (List.range k).map fun (i : Nat) =>
      Event.Update (s.simulationTime + (i : ℚ) * s.client.mUpdateFrequency) s.client.mUpdateFrequency := by
  induction k with
  | zero => simp
  | succ k ih =>
    rw [Function.iterate_succ_apply', stepBody_calls, ih, iterate_updateFrequency,
      iterate_simulationTime, List.range_succ, List.map_append, List.append_assoc]
    rfl

theorem stepsOwed_eq_zero (s : LoopState) (hu : 0 < s.client.mUpdateFrequency)
    (h : s.accumulatedTime < s.client.mUpdateFrequency) : stepsOwed s = 0 := by
  unfold stepsOwed
  rw [Int.toNat_eq_zero]
  have h1 : s.accumulatedTime / s.client.mUpdateFrequency < 1 := (div_lt_one hu).mpr h
  have h2 : ⌊s.accumulatedTime / s.client.mUpdateFrequency⌋ < 1 := by
    rw [Int.floor_lt]
    exact_mod_cast h1
  omega

theorem stepsOwed_stepBody (s : LoopState) (hu : 0 < s.client.mUpdateFrequency)
    (h : s.client.mUpdateFrequency ≤ s.accumulatedTime) :
    stepsOwed s = stepsOwed (stepBody s) + 1 := by
  unfold stepsOwed
  rw [stepBody_accumulatedTime, stepBody_updateFrequency, sub_div, div_self hu.ne',
    Int.floor_sub_one]
  have h1 : (1 : ℚ) ≤ s.accumulatedTime / s.client.mUpdateFrequency := (one_le_div hu).mpr h
  have h2 : 1 ≤ ⌊s.accumulatedTime / s.client.mUpdateFrequency⌋ := by
    rw [Int.le_floor]
    exact_mod_cast h1
  omega

/-- With a positive update step the inner loop terminates: any fuel of at
least `stepsOwed s` yields the state after exactly `stepsOwed s` iterations. -/
theorem stepLoop_eq (fuel : Nat) (s : LoopState) (hu : 0 < s.client.mUpdateFrequency)
    (hf : stepsOwed s ≤ fuel) : stepLoop fuel s = some (stepBody^[stepsOwed s] s) := by
  induction fuel generalizing s with
  | zero =>
    have h0 : stepsOwed s = 0 := by omega
    have hlt : ¬ s.accumulatedTime ≥ s.client.mUpdateFrequency := by
      intro hge
      have := stepsOwed_stepBody s hu hge
      omega
    simp [stepLoop, hlt, h0]
  | succ fuel ih =>
    by_cases hge : s.accumulatedTime ≥ s.client.mUpdateFrequency
    · have hs := stepsOwed_stepBody s hu hge
      have := ih (stepBody s) (by simpa using hu) (by omega)
      simp only [stepLoop, hge, if_true, this, hs, Function.iterate_succ_apply]
    · have h0 := stepsOwed_eq_zero s hu (not_le.mp hge)
      simp [stepLoop, hge, h0]

/-! ## One outer iteration -/

@[simp] theorem beginFrame_updateFrequency (s : LoopState) (t : ℚ) :
    (beginFrame s t).client.mUpdateFrequency = s.client.mUpdateFrequency := rfl

@[simp] theorem beginFrame_sleepSkew (s : LoopState) (t : ℚ) :
    (beginFrame s t).client.mMaximumSleepSkew = s.client.mMaximumSleepSkew := rfl

@[simp] theorem beginFrame_systemTime (s : LoopState) (t : ℚ) :
    (beginFrame s t).systemTime = t := rfl

@[simp] theorem beginFrame_frameTime (s : LoopState) (t : ℚ) :
    (beginFrame s t).frameTime = clampFrameTime (t - s.systemTime) := rfl

@[simp] theorem beginFrame_simulationTime (s : LoopState) (t : ℚ) :
    (beginFrame s t).simulationTime = s.simulationTime := rfl

@[simp] theorem beginFrame_accumulatedTime (s : LoopState) (t : ℚ) :
    (beginFrame s t).accumulatedTime =
      s.accumulatedTime + clampFrameTime (t - s.systemTime) := rfl

@[simp] theorem beginFrame_calls (s : LoopState) (t : ℚ) :
    (beginFrame s t).client.calls = s.client.calls ++ [Event.ProcessMessages] := rfl

@[simp] theorem endFrame_updateFrequency (s : LoopState) :
    (endFrame s).client.mUpdateFrequency = s.client.mUpdateFrequency := by
  unfold endFrame
  dsimp only
  split <;> rfl

@[simp] theorem endFrame_sleepSkew (s : LoopState) :
    (endFrame s).client.mMaximumSleepSkew = s.client.mMaximumSleepSkew := by
  unfold endFrame
  dsimp only
  split <;> rfl

@[simp] theorem endFrame_runningSlowly (s : LoopState) :
    (endFrame s).client.mIsRunningSlowly = s.client.mIsRunningSlowly := by
  unfold endFrame
  dsimp only
  split <;> rfl

@[simp] theorem endFrame_systemTime (s : LoopState) :
    (endFrame s).systemTime = s.systemTime := rfl

@[simp] theorem endFrame_frameTime (s : LoopState) :
    (endFrame s).frameTime = s.frameTime := rfl

@[simp] theorem endFrame_simulationTime (s : LoopState) :
    (endFrame s).simulationTime = s.simulationTime := rfl

@[simp] theorem endFrame_accumulatedTime (s : LoopState) :
    (endFrame s).accumulatedTime = s.accumulatedTime := rfl

theorem endFrame_calls (s : LoopState) :
    (endFrame s).client.calls = s.client.calls ++
      ([Event.Draw s.simulationTime (1 - s.accumulatedTime / s.client.mUpdateFrequency),
        Event.RendererUpdate s.simulationTime s.frameTime] ++
      (if s.accumulatedTime + s.client.mMaximumSleepSkew < s.client.mUpdateFrequency
        then [Event.Sleep 2] else [])) := by
  unfold endFrame
  dsimp only [GameClient.Draw, GameClient.call, interpolation]
  split <;> simp

/-- With a positive update step an outer iteration completes on any fuel of
at least the number of steps owed after accumulation. -/
theorem outerIteration_eq (fuel : Nat) (s : LoopState) (t : ℚ)
    (hu : 0 < s.client.mUpdateFrequency) (hf : stepsOwed (beginFrame s t) ≤ fuel) :
    outerIteration fuel s t = some (frameResult s t) := by
  unfold outerIteration frameResult
  rw [stepLoop_eq fuel (beginFrame s t) (by simpa using hu) hf]
  rfl

@[simp] theorem frameResult_updateFrequency (s : LoopState) (t : ℚ) :
    (frameResult s t).client.mUpdateFrequency = s.client.mUpdateFrequency := by
  simp [frameResult, iterate_updateFrequency]

@[simp] theorem frameResult_sleepSkew (s : LoopState) (t : ℚ) :
    (frameResult s t).client.mMaximumSleepSkew = s.client.mMaximumSleepSkew := by
  simp [frameResult, iterate_sleepSkew]

@[simp] theorem frameResult_systemTime (s : LoopState) (t : ℚ) :
    (frameResult s t).systemTime = t := by
  simp [frameResult, iterate_systemTime]

theorem frameResult_simulationTime (s : LoopState) (t : ℚ) :
    (frameResult s t).simulationTime =
      s.simulationTime + stepsOwed (beginFrame s t) * s.client.mUpdateFrequency := by
  simp [frameResult, iterate_simulationTime]

theorem frameResult_accumulatedTime (s : LoopState) (t : ℚ) :
    (frameResult s t).accumulatedTime =
      s.accumulatedTime + clampFrameTime (t - s.systemTime) -
        stepsOwed (beginFrame s t) * s.client.mUpdateFrequency := by
  simp [frameResult, iterate_accumulatedTime]

theorem frameResult_calls (s : LoopState) (t : ℚ) :
    (frameResult s t).client.calls =
      s.client.calls ++ frameCalls s t (stepsOwed (beginFrame s t)) := by
  simp [frameResult, endFrame_calls, iterate_calls, iterate_updateFrequency,
    iterate_simulationTime, iterate_accumulatedTime, iterate_frameTime, iterate_sleepSkew,
    frameCalls]

/-- The accumulator after an outer iteration is below the update step. -/
theorem frameResult_accumulatedTime_lt (s : LoopState) (t : ℚ)
    (hu : 0 < s.client.mUpdateFrequency) :
    (frameResult s t).accumulatedTime < s.client.mUpdateFrequency := by
  rw [frameResult_accumulatedTime]
  have hb : (beginFrame s t).accumulatedTime =
      s.accumulatedTime + clampFrameTime (t - s.systemTime) := rfl
  rw [← hb]
  set a := (beginFrame s t).accumulatedTime with ha
  have hk : ((stepsOwed (beginFrame s t) : ℕ) : ℚ) =
      ((⌊a / s.client.mUpdateFrequency⌋.toNat : ℕ) : ℚ) := rfl
  rw [hk]
  have h1 : a / s.client.mUpdateFrequency < ⌊a / s.client.mUpdateFrequency⌋ + 1 :=
    Int.lt_floor_add_one _
  have h2 : ((⌊a / s.client.mUpdateFrequency⌋ : ℤ) : ℚ) ≤
      ((⌊a / s.client.mUpdateFrequency⌋.toNat : ℕ) : ℚ) := by
    have := Int.self_le_toNat ⌊a / s.client.mUpdateFrequency⌋
    exact_mod_cast this
  have h3 : a / s.client.mUpdateFrequency <
      ((⌊a / s.client.mUpdateFrequency⌋.toNat : ℕ) : ℚ) + 1 := by linarith
  rw [div_lt_iff₀ hu] at h3
  linarith

/-- A non-negative accumulator stays non-negative through a frame with a
non-negative delta. -/
theorem frameResult_accumulatedTime_nonneg (s : LoopState) (t : ℚ)
    (hu : 0 < s.client.mUpdateFrequency) (ha : 0 ≤ (beginFrame s t).accumulatedTime) :
    0 ≤ (frameResult s t).accumulatedTime := by
  rw [frameResult_accumulatedTime]
  have hb : (beginFrame s t).accumulatedTime =
      s.accumulatedTime + clampFrameTime (t - s.systemTime) := rfl
  rw [← hb]
  set a := (beginFrame s t).accumulatedTime with haa
  have hk : ((stepsOwed (beginFrame s t) : ℕ) : ℚ) =
      ((⌊a / s.client.mUpdateFrequency⌋.toNat : ℕ) : ℚ) := rfl
  rw [hk]
  have h0 : 0 ≤ ⌊a / s.client.mUpdateFrequency⌋ := Int.floor_nonneg.mpr (div_nonneg ha hu.le)
  have h2 : ((⌊a / s.client.mUpdateFrequency⌋.toNat : ℕ) : ℚ) =
      ((⌊a / s.client.mUpdateFrequency⌋ : ℤ) : ℚ) := by
    have := Int.toNat_of_nonneg h0
    exact_mod_cast this
  rw [h2]
  have h1 : ((⌊a / s.client.mUpdateFrequency⌋ : ℤ) : ℚ) ≤ a / s.client.mUpdateFrequency :=
    Int.floor_le _
  rw [le_div_iff₀ hu] at h1
  linarith

theorem clampFrameTime_eq_min (d : ℚ) : clampFrameTime d = min d (1 / 4) := by
  unfold clampFrameTime
  split
  · rw [min_eq_right]; linarith
  · rw [min_eq_left]; linarith

theorem clampFrameTime_nonneg (d : ℚ) (h : 0 ≤ d) : 0 ≤ clampFrameTime d := by
  unfold clampFrameTime
  split
  · norm_num
  · exact h

theorem clampFrameTime_le (d : ℚ) : clampFrameTime d ≤ 1 / 4 := by
  unfold clampFrameTime
  split
  · exact le_refl _
  · linarith

/-! ## Successive outer iterations -/

/-- With a positive update step every run of outer iterations completes, on
any fuel of at least `fuelNeeded`. -/
theorem runIterations_eq (fuel : Nat) (s : LoopState) (ts : List ℚ)
    (hu : 0 < s.client.mUpdateFrequency) (hf : fuelNeeded s ts ≤ fuel) :
    runIterations fuel s ts = some (framesResult s ts) := by
  induction ts generalizing s with
  | nil => rfl
  | cons t ts ih =>
    simp only [fuelNeeded, max_le_iff] at hf
    simp only [runIterations, outerIteration_eq fuel s t hu hf.1, Option.some_bind]
    rw [ih (frameResult s t) (by simpa using hu) hf.2]
    rfl

theorem framesResult_cons (s : LoopState) (t : ℚ) (ts : List ℚ) :
    framesResult s (t :: ts) = framesResult (frameResult s t) ts := rfl

/-- Induction over the frames of a run given by its frame deltas. -/
theorem framesResult_induction (Q : ℚ → Prop) (P : LoopState → Prop)
    (h : ∀ s d, Q d → P s → P (frameResult s (s.systemTime + d)))
    (s : LoopState) (ds : List ℚ) (hds : ∀ d ∈ ds, Q d) (hs : P s) :
    P (framesResult s (clockReadings s.systemTime ds)) := by
  induction ds generalizing s with
  | nil => exact hs
  | cons d ds ih =>
    simp only [clockReadings, framesResult_cons]
    have h1 := h s d (hds d (List.mem_cons_self _ _)) hs
    have h2 := ih (frameResult s (s.systemTime + d))
      (fun x hx => hds x (List.mem_cons_of_mem _ hx)) h1
    simpa using h2

theorem framesResult_updateFrequency (s : LoopState) (ds : List ℚ) :
    (framesResult s (clockReadings s.systemTime ds)).client.mUpdateFrequency =
      s.client.mUpdateFrequency :=
  framesResult_induction (fun _ => True)
    (fun x => x.client.mUpdateFrequency = s.client.mUpdateFrequency)
    (fun x d _ hx => by simpa using hx) s ds (fun _ _ => trivial) rfl

/-- Time conservation: simulated time plus accumulated time grows by the
clamped frame deltas. -/
theorem framesResult_conservation (s : LoopState) (ds : List ℚ) :
    (framesResult s (clockReadings s.systemTime ds)).simulationTime +
      (framesResult s (clockReadings s.systemTime ds)).accumulatedTime =
      s.simulationTime + s.accumulatedTime + clampedTotal ds := by
  induction ds generalizing s with
  | nil => simp [framesResult, clockReadings, clampedTotal]
  | cons d ds ih =>
    simp only [clockReadings, framesResult_cons]
    have h := ih (frameResult s (s.systemTime + d))
    simp only [frameResult_systemTime] at h
    rw [h, frameResult_simulationTime, frameResult_accumulatedTime]
    simp only [clampedTotal, List.map_cons, List.sum_cons, add_sub_cancel_left,
      clampFrameTime_eq_min]
    ring

/-- The bounds on the accumulator at the head of the outer loop. -/
theorem framesResult_accumulatedTime_bounds (s : LoopState) (ds : List ℚ)
    (hu : 0 < s.client.mUpdateFrequency) (hds : ∀ d ∈ ds, 0 ≤ d)
    (h0 : 0 ≤ s.accumulatedTime) (h1 : s.accumulatedTime < s.client.mUpdateFrequency) :
    0 ≤ (framesResult s (clockReadings s.systemTime ds)).accumulatedTime ∧
      (framesResult s (clockReadings s.systemTime ds)).accumulatedTime <
        s.client.mUpdateFrequency := by
  have := framesResult_induction (fun d => 0 ≤ d)
    (fun x => x.client.mUpdateFrequency = s.client.mUpdateFrequency ∧
      0 ≤ x.accumulatedTime ∧ x.accumulatedTime < s.client.mUpdateFrequency)
    (fun x d hd hx => by
      have hux : 0 < x.client.mUpdateFrequency := by rw [hx.1]; exact hu
      refine ⟨by simpa using hx.1, ?_, ?_⟩
      · apply frameResult_accumulatedTime_nonneg x _ hux
        have := clampFrameTime_nonneg d hd
        simp only [beginFrame_accumulatedTime, add_sub_cancel_left]
        linarith [hx.2.1]
      · rw [← hx.1]
        exact frameResult_accumulatedTime_lt x _ hux)
    s ds hds ⟨rfl, h0, h1⟩
  exact this.2

/-! ## The calls of a run -/

theorem updateCalls_append (xs ys : List Event) :
    updateCalls (xs ++ ys) = updateCalls xs ++ updateCalls ys := by
  simp [updateCalls]

theorem drawCalls_append (xs ys : List Event) :
    drawCalls (xs ++ ys) = drawCalls xs ++ drawCalls ys := by
  simp [drawCalls]

theorem drawInterpolations_append (xs ys : List Event) :
    drawInterpolations (xs ++ ys) = drawInterpolations xs ++ drawInterpolations ys := by
  simp [drawInterpolations]

theorem updateCalls_map_update (k : Nat) (f g : Nat → ℚ) :
    updateCalls ((List.range k).map fun i => Event.Update (f i) (g i)) =
      (List.range k).map fun i => Event.Update (f i) (g i) := by
  unfold updateCalls
  rw [List.filter_eq_self]
  intro e he
  rw [List.mem_map] at he
  obtain ⟨i, _, rfl⟩ := he
  rfl

theorem drawCalls_map_update (k : Nat) (f g : Nat → ℚ) :
    drawCalls ((List.range k).map fun i => Event.Update (f i) (g i)) = [] := by
  unfold drawCalls
  rw [List.filter_eq_nil_iff]
  intro e he
  rw [List.mem_map] at he
  obtain ⟨i, _, rfl⟩ := he
  simp

theorem drawInterpolations_map_update (k : Nat) (f g : Nat → ℚ) :
    drawInterpolations ((List.range k).map fun i => Event.Update (f i) (g i)) = [] := by
  unfold drawInterpolations
  rw [List.filterMap_eq_nil_iff]
  intro e he
  rw [List.mem_map] at he
  obtain ⟨i, _, rfl⟩ := he
  rfl

theorem updateCalls_frameCalls (s : LoopState) (t : ℚ) (k : Nat) :
    updateCalls (frameCalls s t k) = (List.range k).map fun (i : Nat) =>
      Event.Update (s.simulationTime + (i : ℚ) * s.client.mUpdateFrequency)
        s.client.mUpdateFrequency := by
  unfold frameCalls
  dsimp only
  rw [← List.singleton_append, List.append_assoc, List.append_assoc, updateCalls_append,
    updateCalls_append, updateCalls_append, updateCalls_map_update]
  split <;> simp [updateCalls]

theorem drawCalls_frameCalls (s : LoopState) (t : ℚ) (k : Nat) :
    (drawCalls (frameCalls s t k)).length = 1 := by
  unfold frameCalls
  dsimp only
  rw [← List.singleton_append, List.append_assoc, List.append_assoc, drawCalls_append,
    drawCalls_append, drawCalls_append, drawCalls_map_update]
  split <;> simp [drawCalls]

theorem drawInterpolations_frameCalls (s : LoopState) (t : ℚ) (k : Nat) :
    drawInterpolations (frameCalls s t k) =
      [1 - (s.accumulatedTime + clampFrameTime (t - s.systemTime) -
        k * s.client.mUpdateFrequency) / s.client.mUpdateFrequency] := by
  unfold frameCalls
  dsimp only
  rw [← List.singleton_append, List.append_assoc, List.append_assoc,
    drawInterpolations_append, drawInterpolations_append, drawInterpolations_append,
    drawInterpolations_map_update]
  split <;> simp [drawInterpolations]

theorem callsSince_frameResult (c : GameClient) (s : LoopState) (t : ℚ)
    (h : c.calls.length ≤ s.client.calls.length) :
    callsSince c (frameResult s t) =
      callsSince c s ++ frameCalls s t (stepsOwed (beginFrame s t)) := by
  unfold callsSince
  rw [frameResult_calls, List.drop_append_of_le_length h]

theorem callsSince_self (s : LoopState) : callsSince s.client s = [] := by
  simp [callsSince]

theorem calls_length_frameResult (s : LoopState) (t : ℚ) :
    s.client.calls.length ≤ (frameResult s t).client.calls.length := by
  rw [frameResult_calls, List.length_append]
  omega

theorem updateTrace_loopEntry (c : GameClient) (start : ℚ) :
    UpdateTrace c (loopEntry c start) := by
  refine ⟨rfl, le_refl _, 0, ?_, ?_⟩
  · simp [callsSince, loopEntry, updateCalls]
  · simp [loopEntry]

theorem updateTrace_frameResult (c : GameClient) (s : LoopState) (t : ℚ)
    (h : UpdateTrace c s) : UpdateTrace c (frameResult s t) := by
  obtain ⟨hu, hl, n, hc, hsim⟩ := h
  refine ⟨by simpa using hu, le_trans hl (calls_length_frameResult s t),
    n + stepsOwed (beginFrame s t), ?_, ?_⟩
  · rw [callsSince_frameResult c s t hl, updateCalls_append, hc, updateCalls_frameCalls,
      List.range_add, List.map_append, List.map_map, hsim, hu]
    congr 1
    apply List.map_congr_left
    intro i _
    simp only [Function.comp_apply]
    push_cast
    ring_nf
  · rw [frameResult_simulationTime, hsim, hu]
    push_cast
    ring

theorem updateTrace_framesResult (c : GameClient) (start : ℚ) (ds : List ℚ) :
    UpdateTrace c (framesResult (loopEntry c start) (clockReadings start ds)) :=
  framesResult_induction (fun _ => True) (UpdateTrace c)
    (fun s _ _ hs => updateTrace_frameResult c s _ hs) (loopEntry c start) ds
    (fun _ _ => trivial) (updateTrace_loopEntry c start)

/-- With a positive update step the run over any frame deltas completes. -/
theorem run_complete (c : GameClient) (start : ℚ) (ds : List ℚ) (fuel : Nat)
    (hu : 0 < c.mUpdateFrequency)
    (hf : fuelNeeded (loopEntry c start) (clockReadings start ds) ≤ fuel) :
    runIterations fuel (loopEntry c start) (clockReadings start ds) =
      some (framesResult (loopEntry c start) (clockReadings start ds)) :=
  runIterations_eq fuel (loopEntry c start) (clockReadings start ds) hu hf

/-- The number of `Update` calls after frames with non-negative deltas. -/
theorem updateCalls_length_framesResult (c : GameClient) (start : ℚ) (ds : List ℚ)
    (hu : 0 < c.mUpdateFrequency) (hds : ∀ d ∈ ds, 0 ≤ d) :
    ((updateCalls (callsSince c
      (framesResult (loopEntry c start) (clockReadings start ds)))).length : ℤ) =
      ⌊clampedTotal ds / c.mUpdateFrequency⌋ := by
  obtain ⟨_, _, n, hc, hsim⟩ := updateTrace_framesResult c start ds
  have hcons : (framesResult (loopEntry c start) (clockReadings start ds)).simulationTime +
      (framesResult (loopEntry c start) (clockReadings start ds)).accumulatedTime =
      0 + 0 + clampedTotal ds := framesResult_conservation (loopEntry c start) ds
  have hb : 0 ≤ (framesResult (loopEntry c start) (clockReadings start ds)).accumulatedTime ∧
      (framesResult (loopEntry c start) (clockReadings start ds)).accumulatedTime <
        c.mUpdateFrequency :=
    framesResult_accumulatedTime_bounds (loopEntry c start) ds hu hds (le_refl _) hu
  set r := framesResult (loopEntry c start) (clockReadings start ds)
  rw [hc, List.length_map, List.length_range]
  symm
  rw [Int.floor_eq_iff]
  rw [hsim] at hcons
  constructor
  · rw [le_div_iff₀ hu]
    push_cast
    linarith [hb.1]
  · rw [div_lt_iff₀ hu]
    push_cast
    linarith [hb.2]

/-- The accumulator and the interpolation values at the head of the outer
loop, for a run with non-negative frame deltas. -/
theorem interpolation_invariant (c : GameClient) (start : ℚ) (ds : List ℚ)
    (hu : 0 < c.mUpdateFrequency) (hds : ∀ d ∈ ds, 0 ≤ d) :
    ∀ x ∈ drawInterpolations (callsSince c
      (framesResult (loopEntry c start) (clockReadings start ds))), 0 < x ∧ x ≤ 1 := by
  have := framesResult_induction (fun d => 0 ≤ d)
    (fun s => s.client.mUpdateFrequency = c.mUpdateFrequency ∧
      c.calls.length ≤ s.client.calls.length ∧ 0 ≤ s.accumulatedTime ∧
      ∀ x ∈ drawInterpolations (callsSince c s), 0 < x ∧ x ≤ 1)
    (fun s d hd hs => by
      obtain ⟨h1, h2, h3, h4⟩ := hs
      have hus : 0 < s.client.mUpdateFrequency := by rw [h1]; exact hu
      have hb : 0 ≤ (beginFrame s (s.systemTime + d)).accumulatedTime := by
        have := clampFrameTime_nonneg d hd
        simp only [beginFrame_accumulatedTime, add_sub_cancel_left]
        linarith
      have hlt := frameResult_accumulatedTime_lt s (s.systemTime + d) hus
      have hge := frameResult_accumulatedTime_nonneg s (s.systemTime + d) hus hb
      refine ⟨by simpa using h1, le_trans h2 (calls_length_frameResult s _), hge, ?_⟩
      intro x hx
      rw [callsSince_frameResult c s _ h2, drawInterpolations_append, List.mem_append,
        drawInterpolations_frameCalls, ← frameResult_accumulatedTime] at hx
      rcases hx with hx | hx
      · exact h4 x hx
      · rw [List.mem_singleton] at hx
        subst hx
        have h5 : (frameResult s (s.systemTime + d)).accumulatedTime /
            s.client.mUpdateFrequency < 1 := (div_lt_one hus).mpr hlt
        have h6 : 0 ≤ (frameResult s (s.systemTime + d)).accumulatedTime /
            s.client.mUpdateFrequency := div_nonneg hge hus.le
        constructor <;> linarith)
    (loopEntry c start) ds hds
    ⟨rfl, le_refl _, le_refl _, by simp [callsSince, loopEntry, drawInterpolations]⟩
  exact this.2.2.2

/-- The steps owed consume no more than a non-negative accumulator holds. -/
theorem stepsOwed_mul_le (s : LoopState) (hu : 0 < s.client.mUpdateFrequency)
    (h : 0 ≤ s.accumulatedTime) :
    (stepsOwed s : ℚ) * s.client.mUpdateFrequency ≤ s.accumulatedTime := by
  have h0 : 0 ≤ ⌊s.accumulatedTime / s.client.mUpdateFrequency⌋ :=
    Int.floor_nonneg.mpr (div_nonneg h hu.le)
  have h2 : ((stepsOwed s : ℕ) : ℚ) =
      ((⌊s.accumulatedTime / s.client.mUpdateFrequency⌋ : ℤ) : ℚ) := by
    have := Int.toNat_of_nonneg h0
    unfold stepsOwed
    exact_mod_cast this
  rw [h2]
  have h1 : ((⌊s.accumulatedTime / s.client.mUpdateFrequency⌋ : ℤ) : ℚ) ≤
      s.accumulatedTime / s.client.mUpdateFrequency := Int.floor_le _
  rwa [le_div_iff₀ hu] at h1

/-- The number of `Update` calls of one outer iteration. -/
theorem updateCalls_length_frameResult (s : LoopState) (t : ℚ) :
    (updateCalls (callsSince s.client (frameResult s t))).length =
      stepsOwed (beginFrame s t) := by
  rw [callsSince_frameResult s.client s t (le_refl _), callsSince_self, List.nil_append,
    updateCalls_frameCalls, List.length_map, List.length_range]

/-- The `Update` calls of one outer iteration consume at most the carried
accumulator plus the clamp ceiling. -/
theorem stepsOwed_beginFrame_le (s : LoopState) (t : ℚ)
    (hu : 0 < s.client.mUpdateFrequency) (h : 0 ≤ s.accumulatedTime) :
    (stepsOwed (beginFrame s t) : ℚ) * s.client.mUpdateFrequency ≤
      s.accumulatedTime + 1 / 4 := by
  have hc := clampFrameTime_le (t - s.systemTime)
  by_cases hb : 0 ≤ (beginFrame s t).accumulatedTime
  · have := stepsOwed_mul_le (beginFrame s t) (by simpa using hu) hb
    simp only [beginFrame_updateFrequency, beginFrame_accumulatedTime] at this
    linarith
  · have h0 := stepsOwed_eq_zero (beginFrame s t) (by simpa using hu)
      (lt_trans (not_le.mp hb) (by simpa using hu))
    rw [h0]
    simp only [Nat.cast_zero, zero_mul]
    linarith

theorem frameResult_frameTime (s : LoopState) (t : ℚ) :
    (frameResult s t).frameTime = clampFrameTime (t - s.systemTime) := by
  simp [frameResult, iterate_frameTime]

/-- Every outer iteration makes exactly one `Draw` call. -/
theorem drawCalls_length_framesResult (c : GameClient) (s : LoopState) (ts : List ℚ)
    (h : c.calls.length ≤ s.client.calls.length) :
    (drawCalls (callsSince c (framesResult s ts))).length =
      (drawCalls (callsSince c s)).length + ts.length := by
  induction ts generalizing s with
  | nil => rfl
  | cons t ts ih =>
    rw [framesResult_cons, ih (frameResult s t) (le_trans h (calls_length_frameResult s t)),
      callsSince_frameResult c s t h, drawCalls_append, List.length_append,
      drawCalls_frameCalls, List.length_cons]
    ring

/-! ## The yield and the draw of one outer iteration -/

theorem loopExtends_refl (c : GameClient) : LoopExtends c c :=
  ⟨rfl, rfl, rfl, rfl, rfl, [], by simp, by simp⟩

theorem loopExtends_trans {a b c : GameClient} (h1 : LoopExtends a b)
    (h2 : LoopExtends b c) : LoopExtends a c := by
  obtain ⟨a1, a2, a3, a4, a5, L1, hL1, hl1⟩ := h1
  obtain ⟨b1, b2, b3, b4, b5, L2, hL2, hl2⟩ := h2
  refine ⟨b1.trans a1, b2.trans a2, b3.trans a3, b4.trans a4, b5.trans a5, L1 ++ L2, ?_, ?_⟩
  · rw [hL2, hL1, List.append_assoc]
  · intro e he
    rcases List.mem_append.mp he with h | h
    · exact hl1 e h
    · exact hl2 e h

theorem loopExtends_call (c : GameClient) (e : Event) (he : isLoopEvent e = true) :
    LoopExtends c (c.call e) :=
  ⟨rfl, rfl, rfl, rfl, rfl, [e], rfl, by simpa using he⟩

theorem loopExtends_stepBody (s : LoopState) : LoopExtends s.client (stepBody s).client :=
  ⟨rfl, rfl, rfl, rfl, rfl, [Event.Update s.simulationTime s.client.mUpdateFrequency], rfl,
    by simp [isLoopEvent]⟩

theorem loopExtends_iterate (k : Nat) (s : LoopState) :
    LoopExtends s.client (stepBody^[k] s).client := by
  induction k with
  | zero => exact loopExtends_refl _
  | succ k ih =>
    rw [Function.iterate_succ_apply']
    exact loopExtends_trans ih (loopExtends_stepBody _)

theorem loopExtends_endFrame (s : LoopState) : LoopExtends s.client (endFrame s).client := by
  refine ⟨?_, ?_, ?_, endFrame_updateFrequency s, endFrame_sleepSkew s, _, endFrame_calls s, ?_⟩
  · unfold endFrame
    dsimp only
    split <;> rfl
  · unfold endFrame
    dsimp only
    split <;> rfl
  · unfold endFrame
    dsimp only
    split <;> rfl
  · intro e he
    rw [List.mem_append] at he
    rcases he with he | he
    · simp only [List.mem_cons, List.mem_singleton, List.not_mem_nil, or_false] at he
      rcases he with he | he <;> rw [he] <;> rfl
    · split at he
      · rw [List.mem_singleton] at he
        rw [he]
        rfl
      · simp at he

theorem loopExtends_frameResult (s : LoopState) (t : ℚ) :
    LoopExtends s.client (frameResult s t).client := by
  unfold frameResult
  exact loopExtends_trans
    (loopExtends_trans (loopExtends_call s.client Event.ProcessMessages rfl)
      (loopExtends_iterate _ (beginFrame s t)))
    (loopExtends_endFrame _)

/-! ## The outer loop and `Run` -/

/-- With a positive update step the outer loop completes on any fuel of at
least `mainLoopFuel`. -/
theorem mainLoop_eq (fuel : Nat) (s : LoopState) (frames : List FrameInput)
    (hu : 0 < s.client.mUpdateFrequency) (hf : mainLoopFuel s frames ≤ fuel) :
    mainLoop fuel s frames = some (mainLoopResult s frames) := by
  induction frames generalizing s with
  | nil => rfl
  | cons f fs ih =>
    unfold mainLoop mainLoopResult
    unfold mainLoopFuel at hf
    by_cases hc : (s.client.mIsGameRunning && !f.closing) = true
    · rw [if_pos hc] at hf ⊢
      rw [if_pos hc]
      cases hg : GetCurrentTime s.client f.counter with
      | error e => rfl
      | ok newTime =>
        rw [hg] at hf
        simp only [max_le_iff] at hf
        simp only [outerIteration_eq fuel s newTime hu hf.1]
        exact ih (frameResult s newTime) (by simpa using hu) hf.2
    · rw [if_neg hc, if_neg hc]

theorem loopExtends_mainLoopResult (s : LoopState) (frames : List FrameInput) :
    LoopExtends s.client (mainLoopResult s frames).client := by
  induction frames generalizing s with
  | nil => exact loopExtends_refl _
  | cons f fs ih =>
    unfold mainLoopResult
    split
    · cases hg : GetCurrentTime s.client f.counter with
      | error e => exact loopExtends_call s.client Event.ProcessMessages rfl
      | ok newTime =>
        exact loopExtends_trans (loopExtends_frameResult s newTime) (ih _)
    · exact loopExtends_refl _

theorem getCurrentTime_error (c : GameClient) (counter : Option Int) (e : Failure)
    (h : GetCurrentTime c counter = Except.error e) :
    counter = none ∧ e = Failure.queryCounter := by
  cases counter with
  | none =>
    simp only [GetCurrentTime, Except.error.injEq] at h
    exact ⟨rfl, h.symm⟩
  | some n => simp [GetCurrentTime] at h

/-- The outer loop ends normally or with the failure of a counter read. -/
theorem mainLoopResult_failure (s : LoopState) (frames : List FrameInput) :
    (mainLoopResult s frames).failure = none ∨
      (mainLoopResult s frames).failure = some Failure.queryCounter := by
  induction frames generalizing s with
  | nil => exact Or.inl rfl
  | cons f fs ih =>
    unfold mainLoopResult
    split
    · cases hg : GetCurrentTime s.client f.counter with
      | error e =>
        right
        rw [(getCurrentTime_error _ _ _ hg).2]
      | ok newTime => exact ih _
    · exact Or.inl rfl

/-- When every counter read succeeds the outer loop ends normally. -/
theorem mainLoopResult_failure_none (s : LoopState) (frames : List FrameInput)
    (h : ∀ f ∈ frames, f.counter ≠ none) : (mainLoopResult s frames).failure = none := by
  induction frames generalizing s with
  | nil => rfl
  | cons f fs ih =>
    unfold mainLoopResult
    split
    · cases hg : GetCurrentTime s.client f.counter with
      | error e =>
        exact absurd (getCurrentTime_error _ _ _ hg).1 (h f (List.mem_cons_self _ _))
      | ok newTime => exact ih _ (fun x hx => h x (List.mem_cons_of_mem _ hx))
    · rfl

/-- The case of `Run` in which `RunMainGameLoop` is reached. -/
theorem run_of_initialized (fuel : Nat) (c : GameClient) (h : Host)
    (hs : h.scene ≠ none) (hq : h.frequencyOk = true) (hz : h.frequency ≠ 0) :
    Run fuel c h = (RunMainGameLoop fuel (loadedClient c h) h).map finishRun := by
  unfold Run
  cases hsc : h.scene with
  | none => exact absurd hsc hs
  | some p =>
    simp only [VerifyNotNull, InitializeClient, CalculateSystemTimerFrequency, hq, hz,
      Bool.not_true, Bool.false_eq_true, if_false]
    cases hr : RunMainGameLoop fuel (loadedClient c h) h with
    | none =>
      simp only [loadedClient, hsc] at hr
      simp only [hr, Option.map_none']
    | some r =>
      simp only [loadedClient, hsc] at hr
      simp only [hr, Option.map_some', finishRun]
      cases r.failure <;> rfl

/-- With a positive frequency, a successful first counter read and a positive
update step, `RunMainGameLoop` completes on any fuel of at least
`mainLoopFuel`. -/
theorem runMainGameLoop_eq (fuel : Nat) (c : GameClient) (h : Host) (n : Int)
    (hpos : 0 < c.mTimerFrequency) (hstart : h.startCounter = some n)
    (hu : 0 < c.mUpdateFrequency)
    (hf : mainLoopFuel (loopEntry c ((n : ℚ) / c.mTimerFrequency)) h.frames ≤ fuel) :
    RunMainGameLoop fuel c h =
      some (mainLoopResult (loopEntry c ((n : ℚ) / c.mTimerFrequency)) h.frames) := by
  unfold RunMainGameLoop
  rw [if_neg (not_not.mpr hpos), hstart]
  exact mainLoop_eq fuel _ h.frames hu hf

theorem loadedClient_calls (c : GameClient) (h : Host) :
    (loadedClient c h).calls = c.calls ++ [Event.QueryFrequency, Event.RendererInitialize,
      Event.SceneInitialize, Event.LoadContent] := by
  simp [loadedClient, LoadContent, Initialize, GameClient.call]

/-- The complete run: for a non-null scene, a successful frequency query with
a positive answer, a successful first counter read and a positive update step,
`Run` completes, with the result of the outer loop followed by
`UnloadContent` when the loop returned normally. -/
theorem run_eq (fuel : Nat) (c : GameClient) (h : Host) (n : Int)
    (hs : h.scene ≠ none) (hq : h.frequencyOk = true) (hpos : 0 < h.frequency)
    (hstart : h.startCounter = some n) (hu : 0 < c.mUpdateFrequency)
    (hf : mainLoopFuel (loopEntry (loadedClient c h) ((n : ℚ) / (h.frequency : ℚ)))
      h.frames ≤ fuel) :
    Run fuel c h = some (finishRun
      (mainLoopResult (loopEntry (loadedClient c h) ((n : ℚ) / (h.frequency : ℚ)))
        h.frames)) := by
  have hposq : (0 : ℚ) < (loadedClient c h).mTimerFrequency := by
    change (0 : ℚ) < (h.frequency : ℚ)
    exact_mod_cast hpos
  rw [run_of_initialized fuel c h hs hq (ne_of_gt hpos),
    runMainGameLoop_eq fuel (loadedClient c h) h n hposq hstart hu hf]
  rfl

/-- The calls and the running flag at the end of the outer loop of a run. -/
theorem mainLoopResult_loadedClient (c : GameClient) (h : Host) (t : ℚ) :
    (mainLoopResult (loopEntry (loadedClient c h) t) h.frames).client.mIsGameRunning = true ∧
    (mainLoopResult (loopEntry (loadedClient c h) t) h.frames).client.mTimerFrequency =
      (h.frequency : ℚ) ∧
    ∃ L, (mainLoopResult (loopEntry (loadedClient c h) t) h.frames).client.calls =
        c.calls ++ [Event.QueryFrequency, Event.RendererInitialize, Event.SceneInitialize,
          Event.LoadContent] ++ L ∧
      ∀ e ∈ L, isLoopEvent e = true := by
  obtain ⟨_, h2, h3, _, _, L, hL, hl⟩ :=
    loopExtends_mainLoopResult (loopEntry (loadedClient c h) t) h.frames
  refine ⟨h2, h3, L, ?_, hl⟩
  rw [hL]
  change (loadedClient c h).calls ++ L = _
  rw [loadedClient_calls]

/-- A failed counter read in an iteration that the loop reaches ends the loop
with that failure. -/
theorem mainLoopResult_failure_some (s : LoopState) (pre rest : List FrameInput)
    (f : FrameInput) (hrun : s.client.mIsGameRunning = true)
    (hpre : ∀ x ∈ pre, x.closing = false ∧ x.counter ≠ none)
    (hf : f.closing = false) (hc : f.counter = none) :
    (mainLoopResult s (pre ++ f :: rest)).failure = some Failure.queryCounter := by
  induction pre generalizing s with
  | nil =>
    simp [mainLoopResult, hrun, hf, hc, GetCurrentTime]
  | cons x xs ih =>
    have hx := hpre x (List.mem_cons_self _ _)
    obtain ⟨m, hm⟩ := Option.ne_none_iff_exists'.mp hx.2
    simp only [List.cons_append, mainLoopResult, hrun, hx.1, hm, GetCurrentTime,
      Bool.not_false, Bool.and_self, if_true]
    apply ih
    · rw [(loopExtends_frameResult s _).2.1]
      exact hrun
    · exact fun y hy => hpre y (List.mem_cons_of_mem _ hy)

theorem framesResult_running (c : GameClient) (start : ℚ) (ds : List ℚ) :
    (framesResult (loopEntry c start) (clockReadings start ds)).client.mIsGameRunning =
      true :=
  framesResult_induction (fun _ => True) (fun s => s.client.mIsGameRunning = true)
    (fun s _ _ hs => ((loopExtends_frameResult s _).2.1).trans hs)
    (loopEntry c start) ds (fun _ _ => trivial) rfl

/-! ## What the outer loop does not read -/

/-- The outer loop depends on the host's answers only through the closing
flags and the counter reads. -/
theorem mainLoop_congr (fuel : Nat) (s : LoopState) (frames frames' : List FrameInput)
    (h : frames'.map FrameInput.observed = frames.map FrameInput.observed) :
    mainLoop fuel s frames' = mainLoop fuel s frames := by
  induction frames generalizing frames' s with
  | nil =>
    cases frames' with
    | nil => rfl
    | cons f' fs' => simp at h
  | cons f fs ih =>
    cases frames' with
    | nil => simp at h
    | cons f' fs' =>
      simp only [List.map_cons, List.cons.injEq, FrameInput.observed, Prod.mk.injEq] at h
      obtain ⟨⟨h1, h2⟩, h3⟩ := h
      unfold mainLoop
      rw [h1, h2]
      split
      · cases GetCurrentTime s.client f.counter with
        | error e => rfl
        | ok newTime =>
          dsimp only
          cases outerIteration fuel s newTime with
          | none => rfl
          | some s' => exact ih s' fs' h3
      · rfl

theorem runMainGameLoop_congr (fuel : Nat) (c : GameClient) (h h' : Host)
    (hstart : h'.startCounter = h.startCounter)
    (hframes : h'.frames.map FrameInput.observed = h.frames.map FrameInput.observed) :
    RunMainGameLoop fuel c h' = RunMainGameLoop fuel c h := by
  unfold RunMainGameLoop
  rw [hstart]
  split
  · rfl
  · cases GetCurrentTime c h.startCounter with
    | error e => rfl
    | ok t => exact mainLoop_congr fuel _ _ _ hframes

/-! ## The slow-running flag and the inner loop for any step -/

theorem iterate_numUpdates (k : Nat) (s : LoopState) (h : s.numUpdates < sizeModulus) :
    (stepBody^[k] s).numUpdates = (s.numUpdates + k) % sizeModulus := by
  induction k with
  | zero => exact (Nat.mod_eq_of_lt h).symm
  | succ k ih =>
    rw [Function.iterate_succ_apply']
    change ((stepBody^[k] s).numUpdates + 1) % sizeModulus = _
    rw [ih]
    simp only [sizeModulus]
    omega

theorem iterate_runningSlowly (k : Nat) (s : LoopState) :
    (stepBody^[k + 1] s).client.mIsRunningSlowly = decide ((stepBody^[k] s).numUpdates > 0) := by
  rw [Function.iterate_succ_apply']
  rfl

/-- The flag after an outer iteration with at least one `Update` call. -/
theorem frameResult_runningSlowly (s : LoopState) (t : ℚ) (k : Nat)
    (hk : stepsOwed (beginFrame s t) = k + 1) :
    (frameResult s t).client.mIsRunningSlowly = decide (0 < k % sizeModulus) := by
  unfold frameResult
  rw [endFrame_runningSlowly, hk, iterate_runningSlowly,
    iterate_numUpdates k (beginFrame s t) (by simp [beginFrame, sizeModulus])]
  simp [beginFrame]

/-- The flag after an outer iteration without `Update` call. -/
theorem frameResult_runningSlowly_zero (s : LoopState) (t : ℚ)
    (hk : stepsOwed (beginFrame s t) = 0) :
    (frameResult s t).client.mIsRunningSlowly = s.client.mIsRunningSlowly := by
  unfold frameResult
  rw [endFrame_runningSlowly, hk]
  rfl

theorem updateCalls_length_iterate (k : Nat) (s : LoopState) :
    (updateCalls (callsSince s.client (stepBody^[k] s))).length = k := by
  unfold callsSince
  rw [iterate_calls, List.drop_left, updateCalls_map_update, List.length_map,
    List.length_range]

theorem stepsOwed_eq_floor (s : LoopState) (hu : 0 < s.client.mUpdateFrequency)
    (h : 0 ≤ s.accumulatedTime) :
    (stepsOwed s : ℤ) = ⌊s.accumulatedTime / s.client.mUpdateFrequency⌋ :=
  Int.toNat_of_nonneg (Int.floor_nonneg.mpr (div_nonneg h hu.le))

theorem clampedTotal_append_singleton (ds : List ℚ) (d : ℚ) :
    clampedTotal (ds ++ [d]) = clampedTotal ds + min d (1 / 4) := by
  simp [clampedTotal]

/-- With a positive step the inner loop runs out of any fuel below the number
of steps owed. -/
theorem stepLoop_none_of_lt (fuel : Nat) (s : LoopState)
    (hu : 0 < s.client.mUpdateFrequency) (hf : fuel < stepsOwed s) :
    stepLoop fuel s = none := by
  have hge : s.accumulatedTime ≥ s.client.mUpdateFrequency := by
    by_contra hlt
    have := stepsOwed_eq_zero s hu (not_le.mp hlt)
    omega
  induction fuel generalizing s with
  | zero => simp [stepLoop, hge]
  | succ fuel ih =>
    unfold stepLoop
    rw [if_pos hge]
    have hs := stepsOwed_stepBody s hu hge
    have hf' : fuel < stepsOwed (stepBody s) := by omega
    have hge' : (stepBody s).accumulatedTime ≥ (stepBody s).client.mUpdateFrequency := by
      by_contra hlt
      have := stepsOwed_eq_zero (stepBody s) (by simpa using hu) (not_le.mp hlt)
      omega
    exact ih (stepBody s) (by simpa using hu) hf' hge'

/-! ## The rounding of `TimeT` -/

theorem log2Fuel_eq (fuel n : Nat) (h : n ≤ fuel) : log2Fuel fuel n = Nat.log2 n := by
  induction fuel generalizing n with
  | zero =>
    have h0 : n = 0 := by omega
    subst h0
    simp [log2Fuel, Nat.log2]
  | succ fuel ih =>
    unfold log2Fuel
    rw [Nat.log2]
    split
    · rw [ih (n / 2) (by omega)]
    · rfl

theorem pow_log2Fuel_le (n : Nat) (h : n ≠ 0) : 2 ^ log2Fuel n n ≤ n := by
  rw [log2Fuel_eq n n (le_refl n)]
  exact Nat.log2_self_le h

theorem lt_pow_log2Fuel (n : Nat) : n < 2 ^ (log2Fuel n n + 1) := by
  rw [log2Fuel_eq n n (le_refl n)]
  exact Nat.lt_log2_self

theorem int_log_eq {r : ℚ} (hr : 0 < r) (e : ℤ) (h1 : (2 : ℚ) ^ e ≤ r)
    (h2 : r < (2 : ℚ) ^ (e + 1)) : Int.log 2 r = e := by
  have h3 : e ≤ Int.log 2 r :=
    (Int.zpow_le_iff_le_log (R := ℚ) (b := 2) (by norm_num) hr).mp (by exact_mod_cast h1)
  have h4 : Int.log 2 r < e + 1 :=
    (Int.lt_zpow_iff_log_lt (R := ℚ) (b := 2) (by norm_num) hr).mp (by exact_mod_cast h2)
  omega

/-- The binary exponent is the integer logarithm to the base 2. -/
theorem binaryExponent_eq_log (x : ℚ) (hx : x ≠ 0) : binaryExponent x = Int.log 2 |x| := by
  have hp : x.num.natAbs ≠ 0 := Int.natAbs_ne_zero.mpr (Rat.num_ne_zero.mpr hx)
  have hq : x.den ≠ 0 := x.den_nz
  have ha1 := pow_log2Fuel_le x.num.natAbs hp
  have ha2 := lt_pow_log2Fuel x.num.natAbs
  have hb1 := pow_log2Fuel_le x.den hq
  have hb2 := lt_pow_log2Fuel x.den
  have habs : |x| = (x.num.natAbs : ℚ) / (x.den : ℚ) := by
    conv_lhs => rw [← Rat.num_div_den x]
    rw [abs_div, Nat.abs_cast, Nat.cast_natAbs, Int.cast_abs]
  have hqpos : (0 : ℚ) < x.den := by exact_mod_cast Nat.pos_of_ne_zero hq
  have hpos : 0 < |x| := abs_pos.mpr hx
  set a := log2Fuel x.num.natAbs x.num.natAbs with ha
  set b := log2Fuel x.den x.den with hb
  set p := x.num.natAbs with hpdef
  set q := x.den with hqdef
  have ha1' : ((2 : ℚ) ^ a) ≤ p := by exact_mod_cast ha1
  have ha2' : (p : ℚ) < 2 ^ (a + 1) := by exact_mod_cast ha2
  have hb1' : ((2 : ℚ) ^ b) ≤ q := by exact_mod_cast hb1
  have hb2' : (q : ℚ) < 2 ^ (b + 1) := by exact_mod_cast hb2
  have h2a : (0 : ℚ) < 2 ^ a := by positivity
  have h2b : (0 : ℚ) < 2 ^ b := by positivity
  symm
  unfold binaryExponent
  simp only [← ha, ← hb, ← hpdef, ← hqdef]
  split
  · rename_i hc
    have hc' : (q : ℚ) * 2 ^ a ≤ p * 2 ^ b := by exact_mod_cast hc
    apply int_log_eq hpos
    · rw [habs, zpow_sub₀ (by norm_num), zpow_natCast, zpow_natCast, div_le_div_iff₀ h2b hqpos]
      linarith
    · rw [habs, show ((a : ℤ) - b + 1) = ((a + 1 : ℕ) : ℤ) - b by push_cast; ring,
        zpow_sub₀ (by norm_num), zpow_natCast, zpow_natCast, div_lt_div_iff₀ hqpos h2b]
      calc (p : ℚ) * 2 ^ b < 2 ^ (a + 1) * 2 ^ b := by
            exact mul_lt_mul_of_pos_right ha2' h2b
        _ ≤ 2 ^ (a + 1) * q := by
            exact mul_le_mul_of_nonneg_left hb1' (by positivity)
  · rename_i hc
    have hc' : (p : ℚ) * 2 ^ b < q * 2 ^ a := by
      rw [not_le] at hc
      exact_mod_cast hc
    apply int_log_eq hpos
    · rw [habs, show ((a : ℤ) - b - 1) = (a : ℤ) - ((b + 1 : ℕ) : ℤ) by push_cast; ring,
        zpow_sub₀ (by norm_num), zpow_natCast, zpow_natCast,
        div_le_div_iff₀ (by positivity) hqpos]
      calc (2 : ℚ) ^ a * q ≤ 2 ^ a * 2 ^ (b + 1) := by
            exact mul_le_mul_of_nonneg_left hb2'.le (by positivity)
        _ ≤ p * 2 ^ (b + 1) := by
            exact mul_le_mul_of_nonneg_right ha1' (by positivity)
    · rw [habs, show ((a : ℤ) - b - 1 + 1) = (a : ℤ) - b by ring,
        zpow_sub₀ (by norm_num), zpow_natCast, zpow_natCast, div_lt_div_iff₀ hqpos h2b]
      linarith

theorem binaryQuantum_eq (x : ℚ) (hx : x ≠ 0) :
    binaryQuantum x = 2 ^ (max (Int.log 2 |x|) (-1022) - 52) := by
  unfold binaryQuantum
  rw [binaryExponent_eq_log x hx]

theorem onGrid_iff (k : Nat) (x : ℚ) : onGrid k x ↔ ∃ n : ℤ, x = n / 2 ^ k := by
  constructor
  · intro h
    refine ⟨(x * 2 ^ k).num, ?_⟩
    rw [Rat.coe_int_num_of_den_eq_one h]
    field_simp
  · rintro ⟨n, rfl⟩
    have h : (n : ℚ) / 2 ^ k * 2 ^ k = n := by field_simp
    show ((n : ℚ) / 2 ^ k * 2 ^ k).den = 1
    rw [h]
    exact Rat.intCast_den n

theorem onGrid_zero (k : Nat) : onGrid k 0 :=
  (onGrid_iff k 0).mpr ⟨0, by simp⟩

theorem onGrid_add {k : Nat} {x y : ℚ} (hx : onGrid k x) (hy : onGrid k y) :
    onGrid k (x + y) := by
  obtain ⟨n, rfl⟩ := (onGrid_iff k x).mp hx
  obtain ⟨m, rfl⟩ := (onGrid_iff k y).mp hy
  exact (onGrid_iff k _).mpr ⟨n + m, by push_cast; ring⟩

theorem onGrid_sub {k : Nat} {x y : ℚ} (hx : onGrid k x) (hy : onGrid k y) :
    onGrid k (x - y) := by
  obtain ⟨n, rfl⟩ := (onGrid_iff k x).mp hx
  obtain ⟨m, rfl⟩ := (onGrid_iff k y).mp hy
  exact (onGrid_iff k _).mpr ⟨n - m, by push_cast; ring⟩

theorem onGrid_quarter {k : Nat} (hk : 2 ≤ k) : onGrid k (1 / 4) := by
  obtain ⟨j, rfl⟩ : ∃ j, k = j + 2 := ⟨k - 2, by omega⟩
  exact (onGrid_iff _ _).mpr ⟨2 ^ j, by push_cast; rw [pow_add]; field_simp; ring⟩

theorem onGrid_clampFrameTime {k : Nat} (hk : 2 ≤ k) {x : ℚ} (hx : onGrid k x) :
    onGrid k (clampFrameTime x) := by
  unfold clampFrameTime
  split
  · exact onGrid_quarter hk
  · exact hx

theorem roundHalfEven_intCast (m : ℤ) : roundHalfEven (m : ℚ) = m := by
  unfold roundHalfEven
  rw [Int.floor_intCast, sub_self, if_pos (by norm_num)]

theorem roundTimeT_zero : roundTimeT 0 = 0 := by
  simp [roundTimeT]

/-- A multiple of `2^(-k)` below `2^(53 - k)` in absolute value is a `double`:
storing it in a `TimeT` does not change it. -/
theorem roundTimeT_of_onGrid (k : Nat) (x : ℚ) (hk : k ≤ 1074) (hx : onGrid k x)
    (hb : |x| * 2 ^ k < 2 ^ 53) : roundTimeT x = x := by
  by_cases h0 : x = 0
  · rw [h0, roundTimeT_zero]
  obtain ⟨n, hn⟩ := (onGrid_iff k x).mp hx
  have hpos : 0 < |x| := abs_pos.mpr h0
  have hlt : |x| < (2 : ℚ) ^ ((53 : ℤ) - k) := by
    rw [zpow_sub₀ (by norm_num), zpow_natCast, lt_div_iff₀ (by positivity)]
    exact_mod_cast hb
  have hlog : Int.log 2 |x| < (53 : ℤ) - k :=
    (Int.lt_zpow_iff_log_lt (R := ℚ) (b := 2) (by norm_num) hpos).mp (by exact_mod_cast hlt)
  have he : max (Int.log 2 |x|) (-1022) - 52 ≤ -(k : ℤ) := by
    have : max (Int.log 2 |x|) (-1022) ≤ 52 - k := max_le (by omega) (by omega)
    omega
  obtain ⟨j, hj⟩ : ∃ j : ℕ, (j : ℤ) = -(k : ℤ) - (max (Int.log 2 |x|) (-1022) - 52) :=
    ⟨(-(k : ℤ) - (max (Int.log 2 |x|) (-1022) - 52)).toNat, Int.toNat_of_nonneg (by omega)⟩
  have hq : binaryQuantum x = 2 ^ (-(k : ℤ) - j) := by
    rw [binaryQuantum_eq x h0]
    congr 1
    omega
  have hdiv : x / binaryQuantum x = ((n * 2 ^ j : ℤ) : ℚ) := by
    rw [hq, hn, zpow_sub₀ (by norm_num), zpow_neg, zpow_natCast, zpow_natCast]
    push_cast
    field_simp
    ring
  unfold roundTimeT
  rw [if_neg h0, hdiv, roundHalfEven_intCast, hq, hn, zpow_sub₀ (by norm_num), zpow_neg,
    zpow_natCast, zpow_natCast]
  push_cast
  field_simp
  ring

/-- Storing in a `TimeT` a value on the grid that is within the bound `B`. -/
theorem roundTimeT_of_le (k : Nat) (B x : ℚ) (hk : k ≤ 1074) (hB : B * 2 ^ k < 2 ^ 53)
    (hx : onGrid k x) (hxB : |x| ≤ B) : roundTimeT x = x :=
  roundTimeT_of_onGrid k x hk hx
    (lt_of_le_of_lt (mul_le_mul_of_nonneg_right hxB (by positivity)) hB)

/-! ## The rounded loop against the exact one -/

theorem erased_beginFrameRounded (s s' : LoopState) (t : ℚ) (h : s.erased = s'.erased)
    (h1 : roundTimeT (t - s'.systemTime) = t - s'.systemTime)
    (h2 : roundTimeT (s'.accumulatedTime + clampFrameTime (t - s'.systemTime)) =
      s'.accumulatedTime + clampFrameTime (t - s'.systemTime)) :
    (beginFrameRounded s t).erased = (beginFrame s' t).erased := by
  obtain ⟨⟨a1, a2, a3, a4, a5, a6, a7⟩, b1, b2, b3, b4, b5⟩ := s
  obtain ⟨⟨c1, c2, c3, c4, c5, c6, c7⟩, d1, d2, d3, d4, d5⟩ := s'
  simp only [LoopState.erased, LoopState.mk.injEq, GameClient.mk.injEq] at h
  obtain ⟨⟨rfl, rfl, rfl, rfl, rfl, rfl, hc⟩, rfl, rfl, rfl, rfl, rfl⟩ := h
  simp only [beginFrameRounded, beginFrame, LoopState.erased, GameClient.call] at h1 h2 ⊢
  rw [h1, h2]
  simp only [List.map_append, hc]

theorem erased_stepBodyRounded (s s' : LoopState) (h : s.erased = s'.erased)
    (h1 : roundTimeT (s'.simulationTime + s'.client.mUpdateFrequency) =
      s'.simulationTime + s'.client.mUpdateFrequency)
    (h2 : roundTimeT (s'.accumulatedTime - s'.client.mUpdateFrequency) =
      s'.accumulatedTime - s'.client.mUpdateFrequency) :
    (stepBodyRounded s).erased = (stepBody s').erased := by
  obtain ⟨⟨a1, a2, a3, a4, a5, a6, a7⟩, b1, b2, b3, b4, b5⟩ := s
  obtain ⟨⟨c1, c2, c3, c4, c5, c6, c7⟩, d1, d2, d3, d4, d5⟩ := s'
  simp only [LoopState.erased, LoopState.mk.injEq, GameClient.mk.injEq] at h
  obtain ⟨⟨rfl, rfl, rfl, rfl, rfl, rfl, hc⟩, rfl, rfl, rfl, rfl, rfl⟩ := h
  simp only [stepBodyRounded, stepBody, LoopState.erased, GameClient.call, GameClient.Update]
    at h1 h2 ⊢
  rw [h1, h2]
  simp only [List.map_append, hc]

theorem erased_endFrameRounded (s s' : LoopState) (h : s.erased = s'.erased)
    (h1 : roundTimeT (s'.accumulatedTime + s'.client.mMaximumSleepSkew) =
      s'.accumulatedTime + s'.client.mMaximumSleepSkew) :
    (endFrameRounded s).erased = (endFrame s').erased := by
  obtain ⟨⟨a1, a2, a3, a4, a5, a6, a7⟩, b1, b2, b3, b4, b5⟩ := s
  obtain ⟨⟨c1, c2, c3, c4, c5, c6, c7⟩, d1, d2, d3, d4, d5⟩ := s'
  simp only [LoopState.erased, LoopState.mk.injEq, GameClient.mk.injEq] at h
  obtain ⟨⟨rfl, rfl, rfl, rfl, rfl, rfl, hc⟩, rfl, rfl, rfl, rfl, rfl⟩ := h
  simp only [endFrameRounded, endFrame, LoopState.erased, GameClient.call, GameClient.Draw]
    at h1 ⊢
  rw [h1]
  split <;> simp [hc, eraseInterpolation]

theorem erased_accumulatedTime {s s' : LoopState} (h : s.erased = s'.erased) :
    s.accumulatedTime = s'.accumulatedTime :=
  show s.erased.accumulatedTime = s'.erased.accumulatedTime from congrArg LoopState.accumulatedTime h

theorem erased_simulationTime {s s' : LoopState} (h : s.erased = s'.erased) :
    s.simulationTime = s'.simulationTime :=
  show s.erased.simulationTime = s'.erased.simulationTime from congrArg LoopState.simulationTime h

theorem erased_systemTime {s s' : LoopState} (h : s.erased = s'.erased) :
    s.systemTime = s'.systemTime :=
  show s.erased.systemTime = s'.erased.systemTime from congrArg LoopState.systemTime h

theorem erased_frameTime {s s' : LoopState} (h : s.erased = s'.erased) :
    s.frameTime = s'.frameTime :=
  show s.erased.frameTime = s'.erased.frameTime from congrArg LoopState.frameTime h

theorem erased_updateFrequency {s s' : LoopState} (h : s.erased = s'.erased) :
    s.client.mUpdateFrequency = s'.client.mUpdateFrequency :=
  show s.erased.client.mUpdateFrequency = s'.erased.client.mUpdateFrequency from
    congrArg (fun x => x.client.mUpdateFrequency) h

theorem erased_calls {s s' : LoopState} (h : s.erased = s'.erased) :
    s.client.calls.map eraseInterpolation = s'.client.calls.map eraseInterpolation :=
  show s.erased.client.calls = s'.erased.client.calls from
    congrArg (fun x => x.client.calls) h

theorem abs_clampFrameTime_le (d : ℚ) : |clampFrameTime d| ≤ |d| := by
  unfold clampFrameTime
  split
  · rename_i h
    rw [abs_of_pos (by norm_num : (0 : ℚ) < 1 / 4), abs_of_pos (by linarith)]
    exact h.le
  · exact le_refl _

theorem gridState_stepBody {k : Nat} {s : LoopState} (hg : GridState k s)
    (hge : s.accumulatedTime ≥ s.client.mUpdateFrequency) :
    GridState k (stepBody s) ∧ timeBudget (stepBody s) = timeBudget s ∧
    |s.simulationTime + s.client.mUpdateFrequency| ≤ timeBudget s ∧
    |s.accumulatedTime - s.client.mUpdateFrequency| ≤ timeBudget s := by
  obtain ⟨hu, hgu, hk0, hgk, hs0, hgs, hga⟩ := hg
  have ha : 0 ≤ s.accumulatedTime := le_trans hu.le hge
  refine ⟨⟨hu, hgu, hk0, hgk, ?_, ?_, ?_⟩, ?_, ?_, ?_⟩
  · show 0 ≤ s.simulationTime + s.client.mUpdateFrequency
    linarith
  · exact onGrid_add hgs hgu
  · exact onGrid_sub hga hgu
  · show |s.accumulatedTime - s.client.mUpdateFrequency| +
      (s.simulationTime + s.client.mUpdateFrequency) + s.client.mMaximumSleepSkew =
      |s.accumulatedTime| + s.simulationTime + s.client.mMaximumSleepSkew
    rw [abs_of_nonneg ha, abs_of_nonneg (by linarith)]
    ring
  · unfold timeBudget
    rw [abs_of_nonneg ha, abs_of_nonneg (by linarith)]
    linarith
  · unfold timeBudget
    rw [abs_of_nonneg ha, abs_of_nonneg (by linarith)]
    linarith

theorem gridState_beginFrame {k : Nat} (hk : 2 ≤ k) {s : LoopState} (t : ℚ)
    (hg : GridState k s) (hd : onGrid k (t - s.systemTime)) :
    GridState k (beginFrame s t) ∧
    timeBudget (beginFrame s t) ≤ timeBudget s + |t - s.systemTime| ∧
    |s.accumulatedTime + clampFrameTime (t - s.systemTime)| ≤
      timeBudget s + |t - s.systemTime| := by
  obtain ⟨hu, hgu, hk0, hgk, hs0, hgs, hga⟩ := hg
  have h1 : |s.accumulatedTime + clampFrameTime (t - s.systemTime)| ≤
      |s.accumulatedTime| + |t - s.systemTime| :=
    le_trans (abs_add _ _) (add_le_add_left (abs_clampFrameTime_le _) _)
  refine ⟨⟨hu, hgu, hk0, hgk, hs0, hgs, ?_⟩, ?_, ?_⟩
  · exact onGrid_add hga (onGrid_clampFrameTime hk hd)
  · show |s.accumulatedTime + clampFrameTime (t - s.systemTime)| + s.simulationTime +
      s.client.mMaximumSleepSkew ≤ _
    unfold timeBudget
    linarith
  · unfold timeBudget
    linarith

theorem gridState_endFrame {k : Nat} {s : LoopState} (hg : GridState k s) :
    GridState k (endFrame s) ∧ timeBudget (endFrame s) = timeBudget s ∧
    |s.accumulatedTime + s.client.mMaximumSleepSkew| ≤ timeBudget s := by
  obtain ⟨hu, hgu, hk0, hgk, hs0, hgs, hga⟩ := hg
  refine ⟨⟨?_, ?_, ?_, ?_, hs0, hgs, hga⟩, ?_, ?_⟩
  · rw [endFrame_updateFrequency]; exact hu
  · rw [endFrame_updateFrequency]; exact hgu
  · rw [endFrame_sleepSkew]; exact hk0
  · rw [endFrame_sleepSkew]; exact hgk
  · unfold timeBudget
    rw [endFrame_sleepSkew]
    rfl
  · unfold timeBudget
    have := abs_add s.accumulatedTime s.client.mMaximumSleepSkew
    rw [abs_of_nonneg hk0] at this
    linarith

/-- On a grid state within the bound, the rounded stepping loop does what the
exact one does. -/
theorem stepLoopRounded_agree (k : Nat) (B : ℚ) (hk : k ≤ 1074) (hB : B * 2 ^ k < 2 ^ 53) :
    ∀ (fuel : Nat) (s s' : LoopState), s.erased = s'.erased → GridState k s' →
      timeBudget s' ≤ B → ∀ r', stepLoop fuel s' = some r' →
      ∃ r, stepLoopRounded fuel s = some r ∧ r.erased = r'.erased ∧ GridState k r' ∧
        timeBudget r' = timeBudget s' ∧ r'.systemTime = s'.systemTime := by
  intro fuel
  induction fuel with
  | zero =>
    intro s s' h hg _ r' hr
    unfold stepLoop at hr
    split at hr
    · cases hr
    · rename_i hc
      cases hr
      refine ⟨s, ?_, h, hg, rfl, rfl⟩
      unfold stepLoopRounded
      rw [erased_accumulatedTime h, erased_updateFrequency h, if_neg hc]
  | succ fuel ih =>
    intro s s' h hg hb r' hr
    unfold stepLoop at hr
    split at hr
    · rename_i hc
      obtain ⟨hg1, hb1, hr1, hr2⟩ := gridState_stepBody hg hc
      have hs : (stepBodyRounded s).erased = (stepBody s').erased :=
        erased_stepBodyRounded s s' h
          (roundTimeT_of_le k B _ hk hB (onGrid_add hg.2.2.2.2.2.1 hg.2.1)
            (le_trans hr1 hb))
          (roundTimeT_of_le k B _ hk hB (onGrid_sub hg.2.2.2.2.2.2 hg.2.1)
            (le_trans hr2 hb))
      obtain ⟨r, h1, h2, h3, h4, h5⟩ := ih (stepBodyRounded s) (stepBody s') hs hg1
        (by rw [hb1]; exact hb) r' hr
      refine ⟨r, ?_, h2, h3, by rw [h4, hb1], by rw [h5]; rfl⟩
      unfold stepLoopRounded
      rw [erased_accumulatedTime h, erased_updateFrequency h, if_pos hc]
      exact h1
    · rename_i hc
      cases hr
      refine ⟨s, ?_, h, hg, rfl, rfl⟩
      unfold stepLoopRounded
      rw [erased_accumulatedTime h, erased_updateFrequency h, if_neg hc]

/-- On a grid state, an outer iteration of the rounded loop does what the
exact one does, up to the interpolation passed to `Draw`. -/
theorem outerIterationRounded_agree (k : Nat) (B : ℚ) (hk2 : 2 ≤ k) (hk : k ≤ 1074)
    (hB : B * 2 ^ k < 2 ^ 53) (fuel : Nat) (s s' : LoopState) (t : ℚ)
    (h : s.erased = s'.erased) (hg : GridState k s') (hd : onGrid k (t - s'.systemTime))
    (hb : timeBudget s' + |t - s'.systemTime| ≤ B) (r' : LoopState)
    (hr : outerIteration fuel s' t = some r') :
    ∃ r, outerIterationRounded fuel s t = some r ∧ r.erased = r'.erased ∧ GridState k r' ∧
      timeBudget r' ≤ timeBudget s' + |t - s'.systemTime| ∧ r'.systemTime = t := by
  obtain ⟨hg1, hb1, hr1⟩ := gridState_beginFrame hk2 t hg hd
  have hs : (beginFrameRounded s t).erased = (beginFrame s' t).erased :=
    erased_beginFrameRounded s s' t h
      (roundTimeT_of_le k B _ hk hB hd
        (le_trans (le_add_of_nonneg_left (by
          unfold timeBudget
          have := abs_nonneg s'.accumulatedTime
          linarith [hg.2.2.1, hg.2.2.2.2.1])) hb))
      (roundTimeT_of_le k B _ hk hB
        (onGrid_add hg.2.2.2.2.2.2 (onGrid_clampFrameTime hk2 hd)) (le_trans hr1 hb))
  unfold outerIteration at hr
  cases he : stepLoop fuel (beginFrame s' t) with
  | none => rw [he] at hr; cases hr
  | some e' =>
    rw [he] at hr
    cases hr
    obtain ⟨e, h1, h2, h3, h4, h5⟩ := stepLoopRounded_agree k B hk hB fuel _ _ hs hg1
      (le_trans hb1 hb) e' he
    obtain ⟨hg2, hb2, hr2⟩ := gridState_endFrame h3
    refine ⟨endFrameRounded e, ?_, ?_, hg2, ?_, ?_⟩
    · unfold outerIterationRounded
      rw [h1]
      rfl
    · exact erased_endFrameRounded e e' h2
        (roundTimeT_of_le k B _ hk hB (onGrid_add h3.2.2.2.2.2.2 h3.2.2.2.1)
          (le_trans hr2 (by rw [h4]; exact le_trans hb1 hb)))
    · show timeBudget (endFrame e') ≤ _
      rw [hb2, h4]
      exact hb1
    · show (endFrame e').systemTime = t
      rw [endFrame_systemTime, h5]
      rfl

/-- On the grid, a run of the rounded loop does what the exact one does, up to
the interpolation passed to `Draw`. -/
theorem runIterationsRounded_agree (k : Nat) (B : ℚ) (hk2 : 2 ≤ k) (hk : k ≤ 1074)
    (hB : B * 2 ^ k < 2 ^ 53) (fuel : Nat) :
    ∀ (ds : List ℚ) (s s' : LoopState), s.erased = s'.erased → GridState k s' →
      (∀ d ∈ ds, onGrid k d) → timeBudget s' + (ds.map abs).sum ≤ B →
      ∀ r', runIterations fuel s' (clockReadings s'.systemTime ds) = some r' →
      ∃ r, runIterationsRounded fuel s (clockReadings s.systemTime ds) = some r ∧
        r.erased = r'.erased ∧ GridState k r' ∧ timeBudget r' ≤ B := by
  intro ds
  induction ds with
  | nil =>
    intro s s' h hg _ hb r' hr
    cases hr
    exact ⟨s, rfl, h, hg, by simpa using hb⟩
  | cons d ds ih =>
    intro s s' h hg hds hb r' hr
    simp only [List.map_cons, List.sum_cons] at hb
    have hdd : s'.systemTime + d - s'.systemTime = d := add_sub_cancel_left _ _
    simp only [clockReadings, runIterations] at hr
    cases ho : outerIteration fuel s' (s'.systemTime + d) with
    | none => rw [ho] at hr; cases hr
    | some m' =>
      rw [ho, Option.some_bind] at hr
      obtain ⟨m, h1, h2, h3, h4, h5⟩ := outerIterationRounded_agree k B hk2 hk hB fuel s s'
        (s'.systemTime + d) h hg (by rw [hdd]; exact hds d (List.mem_cons_self _ _))
        (by rw [hdd]; have := List.sum_nonneg (l := ds.map abs)
              (by intro x hx; obtain ⟨y, _, rfl⟩ := List.mem_map.mp hx; exact abs_nonneg y)
            linarith) m' ho
      rw [hdd] at h4
      rw [← h5] at hr
      obtain ⟨r, h6, h7, h8, h9⟩ := ih m m' h2 h3
        (fun x hx => hds x (List.mem_cons_of_mem _ hx)) (by linarith) r' hr
      refine ⟨r, ?_, h7, h8, h9⟩
      simp only [clockReadings, runIterationsRounded]
      rw [erased_systemTime h, h1, Option.some_bind]
      rw [erased_systemTime h2, h5] at h6
      exact h6

theorem updateCalls_map_eraseInterpolation (L : List Event) :
    updateCalls (L.map eraseInterpolation) = updateCalls L := by
  induction L with
  | nil => rfl
  | cons e L ih =>
    cases e <;> simp_all [updateCalls, eraseInterpolation]

theorem erased_updateCalls {r r' : LoopState} (c : GameClient) (h : r.erased = r'.erased) :
    updateCalls (callsSince c r) = updateCalls (callsSince c r') := by
  unfold callsSince
  rw [← updateCalls_map_eraseInterpolation (List.drop _ r.client.calls),
    ← updateCalls_map_eraseInterpolation (List.drop _ r'.client.calls), List.map_drop,
    List.map_drop, erased_calls h]

theorem sum_abs_nonneg (ds : List ℚ) : 0 ≤ (ds.map fun d => |d|).sum :=
  List.sum_nonneg (by
    intro x hx
    obtain ⟨y, _, rfl⟩ := List.mem_map.mp hx
    exact abs_nonneg y)

theorem sum_abs_take_le (ds : List ℚ) (n : Nat) :
    ((ds.take n).map fun d => |d|).sum ≤ (ds.map fun d => |d|).sum := by
  conv_rhs => rw [← List.take_append_drop n ds]
  rw [List.map_append, List.sum_append]
  linarith [sum_abs_nonneg (ds.drop n)]

theorem gridRun_take {k : Nat} {c : GameClient} {ds : List ℚ}
    (h : GridRun k c ds) (n : Nat) : GridRun k c (ds.take n) := by
  obtain ⟨h1, h2, h3, h4, h5, h6, h7⟩ := h
  refine ⟨h1, h2, h3, h4, h5, fun d hd => h6 d (List.mem_of_mem_take hd), ?_⟩
  refine lt_of_le_of_lt (mul_le_mul_of_nonneg_right ?_ (by positivity)) h7
  linarith [sum_abs_take_le ds n]

/-- On a grid run the rounded loop completes on every fuel on which the exact
loop does, in the state that the exact loop ends in, up to the interpolation
passed to `Draw`. -/
theorem runIterationsRounded_of_gridRun (c : GameClient) (start : ℚ) (ds : List ℚ) (k : Nat)
    (hu : 0 < c.mUpdateFrequency) (hg : GridRun k c ds) (fuel : Nat)
    (hf : fuelNeeded (loopEntry c start) (clockReadings start ds) ≤ fuel) :
    ∃ r, runIterationsRounded fuel (loopEntry c start) (clockReadings start ds) = some r ∧
      r.erased = (framesResult (loopEntry c start) (clockReadings start ds)).erased ∧
      GridState k (framesResult (loopEntry c start) (clockReadings start ds)) ∧
      timeBudget (framesResult (loopEntry c start) (clockReadings start ds)) ≤
        c.mMaximumSleepSkew + (ds.map fun d => |d|).sum := by
  obtain ⟨h1, h2, h3, h4, h5, h6, h7⟩ := hg
  have hB : (c.mMaximumSleepSkew + (ds.map fun d => |d|).sum) * 2 ^ k < 2 ^ 53 := by
    refine lt_of_le_of_lt (mul_le_mul_of_nonneg_right ?_ (by positivity)) h7
    linarith
  exact runIterationsRounded_agree k _ h1 h2 hB fuel ds (loopEntry c start) (loopEntry c start)
    rfl ⟨hu, h3, h4, h5, le_refl _, onGrid_zero k, onGrid_zero k⟩ h6
    (by simp [timeBudget, loopEntry]) _ (run_complete c start ds fuel hu hf)

/-- On a grid frame the rounded outer iteration completes on every fuel on
which the exact one does, in the state that the exact one ends in, up to the
interpolation passed to `Draw`. -/
theorem outerIterationRounded_of_gridFrame (k : Nat) (s s' : LoopState) (t : ℚ)
    (h : s.erased = s'.erased) (hg : GridFrame k s' t) (fuel : Nat)
    (hf : stepsOwed (beginFrame s' t) ≤ fuel) :
    ∃ r, outerIterationRounded fuel s t = some r ∧ r.erased = (frameResult s' t).erased := by
  obtain ⟨h1, h2, h3, h4, h5⟩ := hg
  have hB : (timeBudget s' + |t - s'.systemTime|) * 2 ^ k < 2 ^ 53 := by
    refine lt_of_le_of_lt (mul_le_mul_of_nonneg_right ?_ (by positivity)) h5
    linarith [h3.1]
  obtain ⟨r, hr1, hr2, _⟩ := outerIterationRounded_agree k _ h1 h2 hB fuel s s' t h h3 h4
    (le_refl _) _ (outerIteration_eq fuel s' t h3.1 hf)
  exact ⟨r, hr1, hr2⟩

/-! ## Monotonicity of the rounding -/

theorem roundHalfEven_sub_le (y : ℚ) : |(roundHalfEven y : ℚ) - y| ≤ 1 / 2 := by
  have h1 : (⌊y⌋ : ℚ) ≤ y := Int.floor_le y
  have h2 : y < ⌊y⌋ + 1 := Int.lt_floor_add_one y
  unfold roundHalfEven
  split
  · rw [abs_le]; constructor <;> linarith
  · split
    · push_cast; rw [abs_le]; constructor <;> linarith
    · split
      · rw [abs_le]; constructor <;> linarith
      · push_cast; rw [abs_le]; constructor <;> linarith

theorem roundHalfEven_mono {y z : ℚ} (h : y ≤ z) : roundHalfEven y ≤ roundHalfEven z := by
  by_contra hlt
  rw [not_le] at hlt
  have h1 : (roundHalfEven z : ℚ) + 1 ≤ roundHalfEven y := by exact_mod_cast hlt
  have h2 := abs_le.mp (roundHalfEven_sub_le y)
  have h3 := abs_le.mp (roundHalfEven_sub_le z)
  have h4 : y = z := by linarith
  rw [h4] at hlt
  exact lt_irrefl _ hlt

theorem roundHalfEven_neg (y : ℚ) : roundHalfEven (-y) = -roundHalfEven y := by
  by_cases hy : (⌊y⌋ : ℚ) = y
  · rw [← hy, ← Int.cast_neg, roundHalfEven_intCast, roundHalfEven_intCast]
  · have h1 : (⌊y⌋ : ℚ) < y := lt_of_le_of_ne (Int.floor_le y) hy
    have h2 : y < ⌊y⌋ + 1 := Int.lt_floor_add_one y
    have hf : ⌊-y⌋ = -⌊y⌋ - 1 := by
      rw [Int.floor_eq_iff]
      push_cast
      constructor <;> linarith
    unfold roundHalfEven
    rw [hf]
    push_cast
    by_cases c1 : y - ⌊y⌋ < 1 / 2
    · rw [if_pos c1, if_neg (by linarith), if_pos (by linarith)]
      ring
    · by_cases c2 : 1 / 2 < y - ⌊y⌋
      · rw [if_neg c1, if_pos c2, if_pos (by linarith)]
        ring
      · have c3 : y - ⌊y⌋ = 1 / 2 := le_antisymm (not_lt.mp c2) (not_lt.mp c1)
        rw [if_neg c1, if_neg c2, if_neg (by linarith), if_neg (by linarith)]
        by_cases c4 : ⌊y⌋ % 2 = 0
        · rw [if_pos c4, if_neg (by omega)]
          ring
        · rw [if_neg c4, if_pos (by omega)]
          ring

theorem binaryQuantum_pos (x : ℚ) : 0 < binaryQuantum x := by
  unfold binaryQuantum
  positivity

theorem binaryQuantum_neg (x : ℚ) : binaryQuantum (-x) = binaryQuantum x := by
  unfold binaryQuantum binaryExponent
  simp only [Rat.neg_num, Rat.neg_den, Int.natAbs_neg]

theorem roundTimeT_neg (x : ℚ) : roundTimeT (-x) = -roundTimeT x := by
  unfold roundTimeT
  by_cases h : x = 0
  · simp [h]
  · rw [if_neg h, if_neg (neg_ne_zero.mpr h), binaryQuantum_neg, neg_div, roundHalfEven_neg]
    push_cast
    ring

theorem roundTimeT_nonneg {x : ℚ} (h : 0 ≤ x) : 0 ≤ roundTimeT x := by
  unfold roundTimeT
  split
  · exact le_refl _
  · have h1 : 0 ≤ x / binaryQuantum x := div_nonneg h (binaryQuantum_pos x).le
    have h2 : (0 : ℤ) ≤ roundHalfEven (x / binaryQuantum x) := by
      have := roundHalfEven_mono h1
      rwa [← Int.cast_zero (R := ℚ), roundHalfEven_intCast] at this
    exact mul_nonneg (by exact_mod_cast h2) (binaryQuantum_pos x).le

theorem roundTimeT_le_pow {x : ℚ} (hx : 0 < x) :
    roundTimeT x ≤ 2 ^ (max (Int.log 2 |x|) (-1022) + 1) := by
  have hq := binaryQuantum_pos x
  have h1 : x < (2 : ℚ) ^ (Int.log 2 |x| + 1) := by
    have := Int.lt_zpow_succ_log_self (R := ℚ) (b := 2) (by norm_num) |x|
    rw [abs_of_pos hx] at this ⊢
    exact_mod_cast this
  have h2 : (2 : ℚ) ^ (Int.log 2 |x| + 1) ≤ 2 ^ (max (Int.log 2 |x|) (-1022) + 1) :=
    zpow_le_zpow_right₀ (by norm_num) (by omega)
  have h3 : (2 : ℚ) ^ (max (Int.log 2 |x|) (-1022) + 1) = 2 ^ 53 * binaryQuantum x := by
    rw [binaryQuantum_eq x hx.ne', ← zpow_natCast, ← zpow_add₀ (by norm_num)]
    congr 1
    push_cast
    ring
  have h4 : x / binaryQuantum x ≤ ((2 ^ 53 : ℤ) : ℚ) := by
    rw [div_le_iff₀ hq]
    push_cast
    linarith
  have h5 : roundHalfEven (x / binaryQuantum x) ≤ 2 ^ 53 := by
    have := roundHalfEven_mono h4
    rwa [roundHalfEven_intCast] at this
  unfold roundTimeT
  rw [if_neg hx.ne', h3]
  exact mul_le_mul_of_nonneg_right (by exact_mod_cast h5) hq.le

theorem pow_le_roundTimeT {x : ℚ} (hx : 0 < x) (hn : -1022 ≤ Int.log 2 |x|) :
    2 ^ (Int.log 2 |x|) ≤ roundTimeT x := by
  have hq := binaryQuantum_pos x
  have h1 : (2 : ℚ) ^ (Int.log 2 |x|) ≤ x := by
    have := Int.zpow_log_le_self (R := ℚ) (b := 2) (by norm_num) (abs_pos.mpr hx.ne')
    rw [abs_of_pos hx] at this ⊢
    exact_mod_cast this
  have h3 : (2 : ℚ) ^ (Int.log 2 |x|) = 2 ^ 52 * binaryQuantum x := by
    rw [binaryQuantum_eq x hx.ne', max_eq_left hn, ← zpow_natCast, ← zpow_add₀ (by norm_num)]
    congr 1
    push_cast
    ring
  have h4 : ((2 ^ 52 : ℤ) : ℚ) ≤ x / binaryQuantum x := by
    rw [le_div_iff₀ hq]
    push_cast
    linarith
  have h5 : 2 ^ 52 ≤ roundHalfEven (x / binaryQuantum x) := by
    have := roundHalfEven_mono h4
    rwa [roundHalfEven_intCast] at this
  unfold roundTimeT
  rw [if_neg hx.ne', h3]
  exact mul_le_mul_of_nonneg_right (by exact_mod_cast h5) hq.le

theorem roundTimeT_mono_pos {x y : ℚ} (hx : 0 < x) (h : x ≤ y) :
    roundTimeT x ≤ roundTimeT y := by
  have hy : 0 < y := lt_of_lt_of_le hx h
  have hlog : Int.log 2 |x| ≤ Int.log 2 |y| := by
    rw [abs_of_pos hx, abs_of_pos hy]
    exact Int.log_mono_right hx h
  rcases lt_or_eq_of_le (max_le_max hlog (le_refl (-1022 : ℤ))) with hlt | heq
  · have hn : -1022 ≤ Int.log 2 |y| := by
      by_contra hc
      rw [not_le] at hc
      rw [max_eq_right hc.le] at hlt
      exact absurd hlt (not_lt.mpr (le_max_right _ _))
    have h1 := roundTimeT_le_pow hx
    have h2 := pow_le_roundTimeT hy hn
    have h3 : (2 : ℚ) ^ (max (Int.log 2 |x|) (-1022) + 1) ≤ 2 ^ (Int.log 2 |y|) := by
      apply zpow_le_zpow_right₀ (by norm_num)
      rw [max_eq_left hn] at hlt
      omega
    linarith
  · have hq : binaryQuantum y = binaryQuantum x := by
      rw [binaryQuantum_eq y hy.ne', binaryQuantum_eq x hx.ne', heq]
    unfold roundTimeT
    rw [if_neg hx.ne', if_neg hy.ne', hq]
    have h1 : x / binaryQuantum x ≤ y / binaryQuantum x :=
      div_le_div_of_nonneg_right h (binaryQuantum_pos x).le
    exact mul_le_mul_of_nonneg_right (by exact_mod_cast roundHalfEven_mono h1)
      (binaryQuantum_pos x).le

/-- Rounding to `TimeT` is monotone. -/
theorem roundTimeT_mono {x y : ℚ} (h : x ≤ y) : roundTimeT x ≤ roundTimeT y := by
  rcases lt_trichotomy 0 x with hx | hx | hx
  · exact roundTimeT_mono_pos hx h
  · rw [← hx, roundTimeT_zero]
    exact roundTimeT_nonneg (by rw [hx]; exact h)
  · rcases le_or_lt 0 y with hy | hy
    · have h1 : roundTimeT x ≤ 0 := by
        have := roundTimeT_nonneg (neg_nonneg.mpr hx.le)
        rw [roundTimeT_neg] at this
        linarith
      exact le_trans h1 (roundTimeT_nonneg hy)
    · have := roundTimeT_mono_pos (neg_pos.mpr hy) (neg_le_neg h)
      rw [roundTimeT_neg, roundTimeT_neg] at this
      linarith

theorem gridRun_of_append {k : Nat} {c : GameClient} {ds : List ℚ} {d : ℚ}
    (h : GridRun k c (ds ++ [d])) : GridRun k c ds := by
  obtain ⟨h1, h2, h3, h4, h5, h6, h7⟩ := h
  refine ⟨h1, h2, h3, h4, h5, fun x hx => h6 x (List.mem_append_left _ hx), ?_⟩
  refine lt_of_le_of_lt (mul_le_mul_of_nonneg_right ?_ (by positivity)) h7
  rw [List.map_append, List.sum_append]
  simp only [List.map_cons, List.map_nil, List.sum_cons, List.sum_nil, add_zero]
  linarith [abs_nonneg d]

/-- After a grid run, the outer iteration for the next delta of the run is a
grid frame. -/
theorem gridFrame_after_run {k : Nat} {c : GameClient} {ds : List ℚ} {d : ℚ} (start : ℚ)
    (hu : 0 < c.mUpdateFrequency) (h : GridRun k c (ds ++ [d])) (fuel : Nat)
    (hf : fuelNeeded (loopEntry c start) (clockReadings start ds) ≤ fuel) :
    ∃ r, runIterationsRounded fuel (loopEntry c start) (clockReadings start ds) = some r ∧
      r.erased = (framesResult (loopEntry c start) (clockReadings start ds)).erased ∧
      GridFrame k (framesResult (loopEntry c start) (clockReadings start ds))
        ((framesResult (loopEntry c start) (clockReadings start ds)).systemTime + d) := by
  obtain ⟨r, hr1, hr2, hr3, hr4⟩ :=
    runIterationsRounded_of_gridRun c start ds k hu (gridRun_of_append h) fuel hf
  obtain ⟨h1, h2, _, _, _, h6, h7⟩ := h
  refine ⟨r, hr1, hr2, h1, h2, hr3, ?_, ?_⟩
  · rw [add_sub_cancel_left]
    exact h6 d (List.mem_append_right _ (List.mem_singleton_self d))
  · have hus : (framesResult (loopEntry c start)
        (clockReadings start ds)).client.mUpdateFrequency = c.mUpdateFrequency :=
      framesResult_updateFrequency (loopEntry c start) ds
    rw [add_sub_cancel_left, hus]
    refine lt_of_le_of_lt (mul_le_mul_of_nonneg_right ?_ (by positivity)) h7
    rw [List.map_append, List.sum_append]
    simp only [List.map_cons, List.map_nil, List.sum_cons, List.sum_nil, add_zero]
    show c.mUpdateFrequency + timeBudget _ + |d| ≤ _
    linarith

theorem stepLoopRounded_frameTime (fuel : Nat) (s r : LoopState)
    (h : stepLoopRounded fuel s = some r) : r.frameTime = s.frameTime := by
  induction fuel generalizing s with
  | zero =>
    unfold stepLoopRounded at h
    split at h
    · cases h
    · cases h; rfl
  | succ fuel ih =>
    unfold stepLoopRounded at h
    split at h
    · exact ih (stepBodyRounded s) h
    · cases h; rfl

/-- The frame time of an outer iteration of the rounded loop is at most
`0.25`, whatever the state and the clock reading. -/
theorem outerIterationRounded_frameTime_le (fuel : Nat) (s r : LoopState) (t : ℚ)
    (h : outerIterationRounded fuel s t = some r) : r.frameTime ≤ 1 / 4 := by
  unfold outerIterationRounded at h
  cases he : stepLoopRounded fuel (beginFrameRounded s t) with
  | none => rw [he] at h; cases h
  | some e =>
    rw [he] at h
    cases h
    show e.frameTime ≤ 1 / 4
    rw [stepLoopRounded_frameTime fuel _ e he]
    exact clampFrameTime_le _

theorem stepLoopRounded_calls (fuel : Nat) (s e : LoopState)
    (h : stepLoopRounded fuel s = some e) :
    ∃ L, e.client.calls = s.client.calls ++ L ∧ drawCalls L = [] ∧
      drawInterpolations L = [] := by
  induction fuel generalizing s with
  | zero =>
    unfold stepLoopRounded at h
    split at h
    · cases h
    · cases h; exact ⟨[], by simp, rfl, rfl⟩
  | succ fuel ih =>
    unfold stepLoopRounded at h
    split at h
    · obtain ⟨L, h1, h2, h3⟩ := ih (stepBodyRounded s) h
      refine ⟨Event.Update s.simulationTime s.client.mUpdateFrequency :: L, ?_, ?_, ?_⟩
      · rw [h1]
        show (s.client.calls ++ [_]) ++ L = _
        simp
      · rw [← List.singleton_append, drawCalls_append, h2]; rfl
      · rw [← List.singleton_append, drawInterpolations_append, h3]; rfl
    · cases h; exact ⟨[], by simp, rfl, rfl⟩

theorem endFrameRounded_calls (s : LoopState) :
    (endFrameRounded s).client.calls = s.client.calls ++
      ([Event.Draw s.simulationTime (interpolationRounded s),
        Event.RendererUpdate s.simulationTime s.frameTime] ++
      (if roundTimeT (s.accumulatedTime + s.client.mMaximumSleepSkew) <
          s.client.mUpdateFrequency then [Event.Sleep 2] else [])) := by
  unfold endFrameRounded
  dsimp only [GameClient.Draw, GameClient.call]
  split <;> simp

/-- An outer iteration of the rounded loop that completes makes one `Draw`
call, with the simulation time and the rounded interpolation of the state in
which the stepping loop ended. -/
theorem outerIterationRounded_draw (fuel : Nat) (s r : LoopState) (t : ℚ)
    (h : outerIterationRounded fuel s t = some r) :
    ∃ e, stepLoopRounded fuel (beginFrameRounded s t) = some e ∧ r = endFrameRounded e ∧
      drawCalls (callsSince s.client r) =
        [Event.Draw e.simulationTime (interpolationRounded e)] ∧
      drawInterpolations (callsSince s.client r) = [interpolationRounded e] := by
  unfold outerIterationRounded at h
  cases he : stepLoopRounded fuel (beginFrameRounded s t) with
  | none => rw [he] at h; cases h
  | some e =>
    rw [he] at h
    cases h
    obtain ⟨L, h1, h2, h3⟩ := stepLoopRounded_calls fuel _ e he
    have hc : callsSince s.client (endFrameRounded e) =
        [Event.ProcessMessages] ++ L ++
          ([Event.Draw e.simulationTime (interpolationRounded e),
            Event.RendererUpdate e.simulationTime e.frameTime] ++
          (if roundTimeT (e.accumulatedTime + e.client.mMaximumSleepSkew) <
              e.client.mUpdateFrequency then [Event.Sleep 2] else [])) := by
      unfold callsSince
      rw [endFrameRounded_calls, h1]
      show List.drop _ ((s.client.calls ++ [Event.ProcessMessages]) ++ L ++ _) = _
      rw [List.append_assoc, List.append_assoc, List.drop_left, List.append_assoc]
    refine ⟨e, rfl, rfl, ?_, ?_⟩
    · rw [hc, drawCalls_append, drawCalls_append, drawCalls_append, h2]
      split <;> simp [drawCalls]
    · rw [hc, drawInterpolations_append, drawInterpolations_append,
        drawInterpolations_append, h3]
      split <;> simp [drawInterpolations]

theorem stepLoopRounded_fields (fuel : Nat) (s e : LoopState)
    (h : stepLoopRounded fuel s = some e) :
    e.client.mUpdateFrequency = s.client.mUpdateFrequency := by
  induction fuel generalizing s with
  | zero =>
    unfold stepLoopRounded at h
    split at h
    · cases h
    · cases h; rfl
  | succ fuel ih =>
    unfold stepLoopRounded at h
    split at h
    · exact ih (stepBodyRounded s) h
    · cases h; rfl

/-! ## The inner loop of the rounded loop -/

theorem stepLoopRounded_none_iff (k : Nat) (B : ℚ) (hk : k ≤ 1074) (hB : B * 2 ^ k < 2 ^ 53) :
    ∀ (fuel : Nat) (s s' : LoopState), s.erased = s'.erased → GridState k s' →
      timeBudget s' ≤ B → stepLoop fuel s' = none → stepLoopRounded fuel s = none := by
  intro fuel
  induction fuel with
  | zero =>
    intro s s' h _ _ hr
    unfold stepLoop at hr
    split at hr
    · rename_i hc
      unfold stepLoopRounded
      rw [erased_accumulatedTime h, erased_updateFrequency h, if_pos hc]
    · cases hr
  | succ fuel ih =>
    intro s s' h hg hb hr
    unfold stepLoop at hr
    split at hr
    · rename_i hc
      obtain ⟨hg1, hb1, hr1, hr2⟩ := gridState_stepBody hg hc
      have hs : (stepBodyRounded s).erased = (stepBody s').erased :=
        erased_stepBodyRounded s s' h
          (roundTimeT_of_le k B _ hk hB (onGrid_add hg.2.2.2.2.2.1 hg.2.1)
            (le_trans hr1 hb))
          (roundTimeT_of_le k B _ hk hB (onGrid_sub hg.2.2.2.2.2.2 hg.2.1)
            (le_trans hr2 hb))
      unfold stepLoopRounded
      rw [erased_accumulatedTime h, erased_updateFrequency h, if_pos hc]
      exact ih (stepBodyRounded s) (stepBody s') hs hg1 (by rw [hb1]; exact hb) hr
    · cases hr

theorem stepLoopRounded_succ (fuel : Nat) (s r : LoopState)
    (h : stepLoopRounded fuel s = some r) : stepLoopRounded (fuel + 1) s = some r := by
  induction fuel generalizing s with
  | zero =>
    unfold stepLoopRounded at h
    split at h
    · cases h
    · rename_i hc
      cases h
      unfold stepLoopRounded
      rw [if_neg hc]
  | succ fuel ih =>
    unfold stepLoopRounded at h
    split at h
    · rename_i hc
      have := ih (stepBodyRounded s) h
      rw [stepLoopRounded, if_pos hc]
      exact this
    · rename_i hc
      cases h
      unfold stepLoopRounded
      rw [if_neg hc]

theorem stepLoopRounded_of_le (fuel fuel' : Nat) (s r : LoopState) (hle : fuel ≤ fuel')
    (h : stepLoopRounded fuel s = some r) : stepLoopRounded fuel' s = some r := by
  induction hle with
  | refl => exact h
  | step _ ih => exact stepLoopRounded_succ _ s r ih

theorem stepLoopRounded_of_lt (fuel : Nat) (s : LoopState)
    (h : s.accumulatedTime < s.client.mUpdateFrequency) : stepLoopRounded fuel s = some s := by
  cases fuel <;> simp [stepLoopRounded, not_le.mpr h]

/-- With a stored step `u ≤ 0` and an accumulator `a ≥ u` the rounded inner
loop runs out of every fuel. -/
theorem stepLoopRounded_none_of_nonpos (fuel : Nat) (s : LoopState)
    (hr : roundTimeT s.client.mUpdateFrequency = s.client.mUpdateFrequency)
    (hu : s.client.mUpdateFrequency ≤ 0)
    (ha : s.client.mUpdateFrequency ≤ s.accumulatedTime) : stepLoopRounded fuel s = none := by
  induction fuel generalizing s with
  | zero => simp [stepLoopRounded, ha]
  | succ fuel ih =>
    unfold stepLoopRounded
    rw [if_pos ha]
    apply ih
    · exact hr
    · exact hu
    · show s.client.mUpdateFrequency ≤
        roundTimeT (s.accumulatedTime - s.client.mUpdateFrequency)
      have := roundTimeT_mono (show s.client.mUpdateFrequency ≤
        s.accumulatedTime - s.client.mUpdateFrequency by linarith)
      rw [hr] at this
      exact this

/-! ## The interpolation of the rounded loop -/

theorem onGrid_pos_ge {k : Nat} {x : ℚ} (hx : onGrid k x) (h : 0 < x) : 1 / 2 ^ k ≤ x := by
  obtain ⟨n, rfl⟩ := (onGrid_iff k x).mp hx
  have hn : 0 < (n : ℚ) := by
    have h2 : (0 : ℚ) < 2 ^ k := by positivity
    have := mul_pos h h2
    rwa [div_mul_cancel₀ _ h2.ne'] at this
  have hn1 : (1 : ℚ) ≤ n := by exact_mod_cast (by exact_mod_cast hn : (0 : ℤ) < n)
  exact div_le_div_of_nonneg_right hn1 (by positivity)

/-- On the grid, with `0 ≤ a < u`, the rounded interpolation lies in `(0, 1]`
and is 1 exactly when the accumulator is 0. -/
theorem interpolationRounded_on_grid (k : Nat) (s : LoopState)
    (hu : 0 < s.client.mUpdateFrequency) (hgu : onGrid k s.client.mUpdateFrequency)
    (hga : onGrid k s.accumulatedTime) (h0 : 0 ≤ s.accumulatedTime)
    (h1 : s.accumulatedTime < s.client.mUpdateFrequency)
    (hb : s.client.mUpdateFrequency * 2 ^ k < 2 ^ 53) :
    0 < interpolationRounded s ∧ interpolationRounded s ≤ 1 ∧
      (interpolationRounded s = 1 ↔ s.accumulatedTime = 0) := by
  have hone : roundTimeT 1 = 1 := by decide!
  have hlo : roundTimeT (1 / 2 ^ 53) = 1 / 2 ^ 53 := by decide!
  have hhi : roundTimeT (1 - 1 / 2 ^ 53) = 1 - 1 / 2 ^ 53 := by decide!
  have h2k : (0 : ℚ) < 2 ^ k := by positivity
  unfold interpolationRounded
  rcases eq_or_lt_of_le h0 with ha | ha
  · rw [← ha, zero_div, roundTimeT_zero, sub_zero, hone]
    exact ⟨by norm_num, le_refl _, by simp⟩
  · have hge := onGrid_pos_ge hga ha
    have hgap := onGrid_pos_ge (onGrid_sub hgu hga) (sub_pos.mpr h1)
    have hub : s.client.mUpdateFrequency / 2 ^ 53 < 1 / 2 ^ k := by
      rw [div_lt_div_iff₀ (by positivity) h2k]
      linarith
    have hq1 : 1 / 2 ^ 53 ≤ s.accumulatedTime / s.client.mUpdateFrequency := by
      rw [le_div_iff₀ hu]
      have : 1 / 2 ^ 53 * s.client.mUpdateFrequency = s.client.mUpdateFrequency / 2 ^ 53 := by
        ring
      linarith
    have hq2 : s.accumulatedTime / s.client.mUpdateFrequency ≤ 1 - 1 / 2 ^ 53 := by
      rw [div_le_iff₀ hu]
      have : (1 - 1 / 2 ^ 53) * s.client.mUpdateFrequency =
          s.client.mUpdateFrequency - s.client.mUpdateFrequency / 2 ^ 53 := by ring
      linarith
    have hw1 := roundTimeT_mono hq1
    have hw2 := roundTimeT_mono hq2
    rw [hlo] at hw1
    rw [hhi] at hw2
    have hx1 : roundTimeT (1 / 2 ^ 53) ≤
        roundTimeT (1 - roundTimeT (s.accumulatedTime / s.client.mUpdateFrequency)) :=
      roundTimeT_mono (by linarith)
    have hx2 : roundTimeT (1 - roundTimeT (s.accumulatedTime / s.client.mUpdateFrequency)) ≤
        roundTimeT (1 - 1 / 2 ^ 53) := roundTimeT_mono (by linarith)
    rw [hlo] at hx1
    rw [hhi] at hx2
    refine ⟨lt_of_lt_of_le (by positivity) hx1, le_trans hx2 (by norm_num), ?_⟩
    constructor
    · intro h
      rw [h] at hx2
      norm_num at hx2
    · intro h
      exact absurd h ha.ne'

/-- The accumulator of the exact loop is drained to 0 exactly when the clamped
total of the frame deltas is a multiple of the update step. -/
theorem accumulatedTime_eq_zero_iff (c : GameClient) (start : ℚ) (ds : List ℚ) (d : ℚ)
    (hu : 0 < c.mUpdateFrequency) (hds : ∀ x ∈ ds, 0 ≤ x) (hd : 0 ≤ d) :
    (frameResult (framesResult (loopEntry c start) (clockReadings start ds))
      ((framesResult (loopEntry c start) (clockReadings start ds)).systemTime +
        d)).accumulatedTime = 0 ↔
      ∃ m : ℕ, clampedTotal (ds ++ [d]) = m * c.mUpdateFrequency := by
  have hb : 0 ≤ (framesResult (loopEntry c start) (clockReadings start ds)).accumulatedTime ∧
      (framesResult (loopEntry c start) (clockReadings start ds)).accumulatedTime <
        c.mUpdateFrequency :=
    framesResult_accumulatedTime_bounds (loopEntry c start) ds hu hds (le_refl _) hu
  have hus : (framesResult (loopEntry c start) (clockReadings start ds)).client.mUpdateFrequency
      = c.mUpdateFrequency := framesResult_updateFrequency (loopEntry c start) ds
  have hcons : (framesResult (loopEntry c start) (clockReadings start ds)).simulationTime +
      (framesResult (loopEntry c start) (clockReadings start ds)).accumulatedTime =
      0 + 0 + clampedTotal ds := framesResult_conservation (loopEntry c start) ds
  have htr := updateTrace_frameResult c _
    ((framesResult (loopEntry c start) (clockReadings start ds)).systemTime + d)
    (updateTrace_framesResult c start ds)
  set s := framesResult (loopEntry c start) (clockReadings start ds) with hs
  have hus' : 0 < s.client.mUpdateFrequency := by rw [hus]; exact hu
  have hba : 0 ≤ (beginFrame s (s.systemTime + d)).accumulatedTime := by
    have := clampFrameTime_nonneg d hd
    simp only [beginFrame_accumulatedTime, add_sub_cancel_left]
    linarith [hb.1]
  have hlt := frameResult_accumulatedTime_lt s (s.systemTime + d) hus'
  have hge := frameResult_accumulatedTime_nonneg s (s.systemTime + d) hus' hba
  have hsim := frameResult_simulationTime s (s.systemTime + d)
  have hacc := frameResult_accumulatedTime s (s.systemTime + d)
  rw [hus] at hlt
  obtain ⟨_, _, n, _, hn⟩ := htr
  have hq0 : 0 ≤ (frameResult s (s.systemTime + d)).accumulatedTime / c.mUpdateFrequency :=
    div_nonneg hge hu.le
  have hq1 : (frameResult s (s.systemTime + d)).accumulatedTime / c.mUpdateFrequency < 1 :=
    (div_lt_one hu).mpr hlt
  have htot : clampedTotal (ds ++ [d]) =
      (n : ℚ) * c.mUpdateFrequency + (frameResult s (s.systemTime + d)).accumulatedTime := by
    rw [clampedTotal_append_singleton, ← hn, hsim, hacc, add_sub_cancel_left,
      clampFrameTime_eq_min]
    linarith
  constructor
  · intro h
    exact ⟨n, by rw [htot, h, add_zero]⟩
  · rintro ⟨m, hm⟩
    rw [htot] at hm
    have h1 : (frameResult s (s.systemTime + d)).accumulatedTime =
        ((m : ℚ) - n) * c.mUpdateFrequency := by linarith
    have h2 : (frameResult s (s.systemTime + d)).accumulatedTime / c.mUpdateFrequency =
        (m : ℚ) - n := by
      rw [h1, mul_div_assoc, div_self hu.ne', mul_one]
    rw [h2] at hq0 hq1
    have h3 : (n : ℚ) ≤ m := by linarith
    have h4 : (m : ℚ) < n + 1 := by linarith
    have h5 : n ≤ m := by exact_mod_cast h3
    have h6 : m < n + 1 := by exact_mod_cast h4
    have h7 : m = n := by omega
    rw [h1, h7, sub_self, zero_mul]

theorem gridState_frameResult (k : Nat) (s : LoopState) (t : ℚ) (hg : GridFrame k s t) :
    GridState k (frameResult s t) := by
  obtain ⟨h1, h2, h3, h4, h5⟩ := hg
  have hB : (timeBudget s + |t - s.systemTime|) * 2 ^ k < 2 ^ 53 := by
    refine lt_of_le_of_lt (mul_le_mul_of_nonneg_right ?_ (by positivity)) h5
    linarith [h3.1]
  obtain ⟨r, _, _, hr3, _⟩ := outerIterationRounded_agree k _ h1 h2 hB
    (stepsOwed (beginFrame s t)) s s t rfl h3 h4 (le_refl _) _
    (outerIteration_eq _ s t h3.1 (le_refl _))
  exact hr3

/-! ## The claims -/

/-- C3, refuted as stated: with the default client and a first frame of delta 0 the
accumulator is 0 when the frame is drawn, and `Draw` receives the
interpolation 1, which is not below 1. -/
theorem interpolation_lt_one_counterexample :
    ∃ s, runIterations 0 (loopEntry GameClient.new 0) (clockReadings 0 [0]) = some s ∧
      drawInterpolations (callsSince GameClient.new s) = [1] ∧
      ¬ ∀ x ∈ drawInterpolations (callsSince GameClient.new s), 0 ≤ x ∧ x < 1 := by
  refine ⟨framesResult (loopEntry GameClient.new 0) (clockReadings 0 [0]), by decide!,
    by decide!, ?_⟩
  intro h
  have h1 : (1 : ℚ) ∈ drawInterpolations (callsSince GameClient.new
      (framesResult (loopEntry GameClient.new 0) (clockReadings 0 [0]))) := by decide!
  exact absurd (h 1 h1).2 (lt_irrefl 1)

/-- C3, amended: for every update step `u > 0` and all frame deltas
`d_i ≥ 0`, the run completes and every interpolation value passed to `Draw`
lies in the half-open interval `(0, 1]`. -/
theorem interpolation_range (c : GameClient) (start : ℚ) (ds : List ℚ)
    (hu : 0 < c.mUpdateFrequency) (hds : ∀ d ∈ ds, 0 ≤ d) :
    ∃ fuel₀, ∀ fuel, fuel₀ ≤ fuel →
      ∃ s, runIterations fuel (loopEntry c start) (clockReadings start ds) = some s ∧
        ∀ x ∈ drawInterpolations (callsSince c s), 0 < x ∧ x ≤ 1 :=
  ⟨fuelNeeded (loopEntry c start) (clockReadings start ds), fun fuel hf =>
    ⟨_, run_complete c start ds fuel hu hf, interpolation_invariant c start ds hu hds⟩⟩

theorem interpolation_range_witness :
    (0 : ℚ) < GameClient.new.mUpdateFrequency ∧
    (∀ d ∈ ([0, 1 / 200, 1] : List ℚ), 0 ≤ d) ∧
    ∃ fuel₀, ∀ fuel, fuel₀ ≤ fuel →
      ∃ s, runIterations fuel (loopEntry GameClient.new 0)
          (clockReadings 0 [0, 1 / 200, 1]) = some s ∧
        ∀ x ∈ drawInterpolations (callsSince GameClient.new s), 0 < x ∧ x ≤ 1 :=
  ⟨by decide!, by decide!,
    interpolation_range GameClient.new 0 [0, 1 / 200, 1] (by decide!) (by decide!)⟩

/-- C4: for every update step `u > 0` and all frame deltas `d_i ≥ 0`, the
accumulator is non-negative at the head of every outer iteration, after the
frame time is added, and after each iteration of the inner stepping loop; when
the inner loop ends, and when the frame is drawn, it is below `u`. -/
theorem accumulator_bounds (c : GameClient) (start : ℚ) (ds : List ℚ) (d : ℚ)
    (hu : 0 < c.mUpdateFrequency) (hds : ∀ x ∈ ds, 0 ≤ x) (hd : 0 ≤ d) :
    ∃ fuel₀, ∀ fuel, fuel₀ ≤ fuel →
      ∃ s, runIterations fuel (loopEntry c start) (clockReadings start ds) = some s ∧
        0 ≤ s.accumulatedTime ∧
        0 ≤ (beginFrame s (s.systemTime + d)).accumulatedTime ∧
        ∃ k, stepLoop fuel (beginFrame s (s.systemTime + d)) =
            some (stepBody^[k] (beginFrame s (s.systemTime + d))) ∧
          (∀ j, j ≤ k →
            0 ≤ (stepBody^[j] (beginFrame s (s.systemTime + d))).accumulatedTime) ∧
          (stepBody^[k] (beginFrame s (s.systemTime + d))).accumulatedTime <
            c.mUpdateFrequency ∧
          outerIteration fuel s (s.systemTime + d) =
            some (endFrame (stepBody^[k] (beginFrame s (s.systemTime + d)))) ∧
          (endFrame (stepBody^[k] (beginFrame s (s.systemTime + d)))).accumulatedTime =
            (stepBody^[k] (beginFrame s (s.systemTime + d))).accumulatedTime := by
  have hb : 0 ≤ (framesResult (loopEntry c start) (clockReadings start ds)).accumulatedTime ∧
      (framesResult (loopEntry c start) (clockReadings start ds)).accumulatedTime <
        c.mUpdateFrequency :=
    framesResult_accumulatedTime_bounds (loopEntry c start) ds hu hds (le_refl _) hu
  have hus : (framesResult (loopEntry c start) (clockReadings start ds)).client.mUpdateFrequency
      = c.mUpdateFrequency := framesResult_updateFrequency (loopEntry c start) ds
  set s := framesResult (loopEntry c start) (clockReadings start ds) with hs
  have hus' : 0 < s.client.mUpdateFrequency := by rw [hus]; exact hu
  have hbu : 0 < (beginFrame s (s.systemTime + d)).client.mUpdateFrequency := hus'
  have hba : 0 ≤ (beginFrame s (s.systemTime + d)).accumulatedTime := by
    have := clampFrameTime_nonneg d hd
    simp only [beginFrame_accumulatedTime, add_sub_cancel_left]
    linarith [hb.1]
  refine ⟨max (fuelNeeded (loopEntry c start) (clockReadings start ds))
    (stepsOwed (beginFrame s (s.systemTime + d))), fun fuel hf => ?_⟩
  rw [max_le_iff] at hf
  refine ⟨s, run_complete c start ds fuel hu hf.1, hb.1, hba,
    stepsOwed (beginFrame s (s.systemTime + d)), stepLoop_eq fuel _ hbu hf.2, ?_, ?_,
    outerIteration_eq fuel s _ hus' hf.2, rfl⟩
  · intro j hj
    rw [iterate_accumulatedTime]
    have h1 := stepsOwed_mul_le (beginFrame s (s.systemTime + d)) hbu hba
    have h2 : (j : ℚ) ≤ (stepsOwed (beginFrame s (s.systemTime + d)) : ℚ) := by
      exact_mod_cast hj
    have h3 := mul_le_mul_of_nonneg_right h2 hbu.le
    linarith
  · have := frameResult_accumulatedTime_lt s (s.systemTime + d) hus'
    rw [hus] at this
    exact this

theorem accumulator_bounds_witness :
    (0 : ℚ) < GameClient.new.mUpdateFrequency ∧
    (∀ x ∈ ([1 / 200, 3 / 100] : List ℚ), 0 ≤ x) ∧ (0 : ℚ) ≤ 1 / 10 ∧
    ∃ fuel₀, ∀ fuel, fuel₀ ≤ fuel →
      ∃ s, runIterations fuel (loopEntry GameClient.new 0)
          (clockReadings 0 [1 / 200, 3 / 100]) = some s ∧
        0 ≤ s.accumulatedTime ∧
        0 ≤ (beginFrame s (s.systemTime + 1 / 10)).accumulatedTime ∧
        ∃ k, stepLoop fuel (beginFrame s (s.systemTime + 1 / 10)) =
            some (stepBody^[k] (beginFrame s (s.systemTime + 1 / 10))) ∧
          (∀ j, j ≤ k →
            0 ≤ (stepBody^[j] (beginFrame s (s.systemTime + 1 / 10))).accumulatedTime) ∧
          (stepBody^[k] (beginFrame s (s.systemTime + 1 / 10))).accumulatedTime <
            GameClient.new.mUpdateFrequency ∧
          outerIteration fuel s (s.systemTime + 1 / 10) =
            some (endFrame (stepBody^[k] (beginFrame s (s.systemTime + 1 / 10)))) ∧
          (endFrame (stepBody^[k] (beginFrame s (s.systemTime + 1 / 10)))).accumulatedTime =
            (stepBody^[k] (beginFrame s (s.systemTime + 1 / 10))).accumulatedTime :=
  ⟨by decide!, by decide!, by decide!,
    accumulator_bounds GameClient.new 0 [1 / 200, 3 / 100] (1 / 10) (by decide!) (by decide!)
      (by decide!)⟩

/-- C5, refuted as stated: with the default client and a clock that reads
`3/200` and then `203/200`, as rounded to `double`, the first frame makes no
`Update` call and leaves the accumulator at the first reading; the second
frame, whose delta is clamped to `1/4`, makes 13 `Update` calls, more than
`0.25 / u`, which is below 13. -/
theorem updates_per_frame_counterexample :
    ((runIterationsRounded 13 (loopEntry GameClient.new 0) [roundTimeT (3 / 200)]).bind fun s =>
      (outerIterationRounded 13 s (roundTimeT (203 / 200))).map fun s' =>
        (s.accumulatedTime, (updateCalls (callsSince s.client s')).length)) =
      some (roundTimeT (3 / 200), 13) ∧
    ¬ ((13 : ℚ) ≤ (1 / 4) / GameClient.new.mUpdateFrequency) := by
  decide!

/-- C7, refuted as stated: with the default client a single frame of delta
`10 * u` in the initial state, a `double` below the clamp ceiling `1/4`, makes
exactly 10 `Update` calls. -/
theorem ten_step_frame_counterexample :
    (runIterationsRounded 10 (loopEntry GameClient.new 0)
      (clockReadings 0 [10 * GameClient.new.mUpdateFrequency])).map
        (fun s => (updateCalls (callsSince GameClient.new s)).length) = some 10 ∧
    roundTimeT (10 * GameClient.new.mUpdateFrequency) = 10 * GameClient.new.mUpdateFrequency ∧
    10 * GameClient.new.mUpdateFrequency < 1 / 4 := by
  decide!

/-- C8, the code at the failing input: with the default client, a first frame of delta
`1/20` makes 2 `Update` calls and sets `mIsRunningSlowly`; the second frame,
of delta `1/200`, makes no `Update` call (the total stays 2) and the flag is
still `true` after it. -/
theorem running_slowly_after_idle_frame :
    (runIterations 2 (loopEntry GameClient.new 0) (clockReadings 0 [1 / 20])).map
        (fun s => ((updateCalls (callsSince GameClient.new s)).length,
          s.client.mIsRunningSlowly)) = some (2, true) ∧
    (runIterations 2 (loopEntry GameClient.new 0) (clockReadings 0 [1 / 20, 1 / 200])).map
        (fun s => ((updateCalls (callsSince GameClient.new s)).length,
          s.client.mIsRunningSlowly)) = some (2, true) := by
  constructor <;> decide!

/-- C9: for every update step `u > 0`, every outer iteration completes and its
calls are: the message poll, then its `Update` calls (none, one or many), then
exactly one `Draw`, then the renderer update and possibly a `Sleep`; a run of
`n` outer iterations contains exactly `n` `Draw` calls. -/
theorem one_draw_per_iteration (c : GameClient) (start : ℚ) (ds : List ℚ) (t : ℚ)
    (hu : 0 < c.mUpdateFrequency) :
    ∃ fuel₀, ∀ fuel, fuel₀ ≤ fuel →
      ∃ s s', runIterations fuel (loopEntry c start) (clockReadings start ds) = some s ∧
        (drawCalls (callsSince c s)).length = (clockReadings start ds).length ∧
        outerIteration fuel s t = some s' ∧
        ∃ (k : Nat) (rest : List Event),
          s'.client.calls = s.client.calls ++
            (Event.ProcessMessages ::
              ((List.range k).map fun (i : Nat) =>
                Event.Update (s.simulationTime + (i : ℚ) * c.mUpdateFrequency)
                  c.mUpdateFrequency) ++
              [Event.Draw s'.simulationTime (1 - s'.accumulatedTime / c.mUpdateFrequency)] ++
              rest) ∧
          (updateCalls (callsSince s.client s')).length = k ∧
          (drawCalls (callsSince s.client s')).length = 1 ∧
          (rest = [Event.RendererUpdate s'.simulationTime s'.frameTime] ∨
            rest = [Event.RendererUpdate s'.simulationTime s'.frameTime, Event.Sleep 2]) := by
  have hus : (framesResult (loopEntry c start) (clockReadings start ds)).client.mUpdateFrequency
      = c.mUpdateFrequency := framesResult_updateFrequency (loopEntry c start) ds
  have hdraw := drawCalls_length_framesResult c (loopEntry c start) (clockReadings start ds)
    (le_refl _)
  set s := framesResult (loopEntry c start) (clockReadings start ds) with hs
  have hus' : 0 < s.client.mUpdateFrequency := by rw [hus]; exact hu
  refine ⟨max (fuelNeeded (loopEntry c start) (clockReadings start ds))
    (stepsOwed (beginFrame s t)), fun fuel hf => ?_⟩
  rw [max_le_iff] at hf
  refine ⟨s, _, run_complete c start ds fuel hu hf.1, ?_, outerIteration_eq fuel s _ hus' hf.2,
    stepsOwed (beginFrame s t),
    Event.RendererUpdate (frameResult s t).simulationTime (frameResult s t).frameTime ::
      (if (frameResult s t).accumulatedTime + s.client.mMaximumSleepSkew <
        s.client.mUpdateFrequency then [Event.Sleep 2] else []), ?_,
    updateCalls_length_frameResult s t, ?_, ?_⟩
  · rw [hdraw]
    simp [callsSince, loopEntry, drawCalls]
  · rw [frameResult_calls, frameResult_simulationTime, frameResult_accumulatedTime,
      frameResult_frameTime, hus]
    simp [frameCalls, hus]
  · rw [callsSince_frameResult s.client s t (le_refl _), callsSince_self, List.nil_append,
      drawCalls_frameCalls]
  · split
    · right; rfl
    · left; rfl

theorem one_draw_per_iteration_witness :
    (0 : ℚ) < GameClient.new.mUpdateFrequency ∧
    ∃ fuel₀, ∀ fuel, fuel₀ ≤ fuel →
      ∃ s s', runIterations fuel (loopEntry GameClient.new 0)
          (clockReadings 0 [1 / 200, 1 / 20]) = some s ∧
        (drawCalls (callsSince GameClient.new s)).length =
          (clockReadings 0 [1 / 200, 1 / 20]).length ∧
        outerIteration fuel s 1 = some s' ∧
        ∃ (k : Nat) (rest : List Event),
          s'.client.calls = s.client.calls ++
            (Event.ProcessMessages ::
              ((List.range k).map fun (i : Nat) =>
                Event.Update (s.simulationTime + (i : ℚ) * GameClient.new.mUpdateFrequency)
                  GameClient.new.mUpdateFrequency) ++
              [Event.Draw s'.simulationTime
                (1 - s'.accumulatedTime / GameClient.new.mUpdateFrequency)] ++
              rest) ∧
          (updateCalls (callsSince s.client s')).length = k ∧
          (drawCalls (callsSince s.client s')).length = 1 ∧
          (rest = [Event.RendererUpdate s'.simulationTime s'.frameTime] ∨
            rest = [Event.RendererUpdate s'.simulationTime s'.frameTime, Event.Sleep 2]) :=
  ⟨by decide!, one_draw_per_iteration GameClient.new 0 [1 / 200, 1 / 20] 1 (by decide!)⟩

/-- C14: `Run` called with a null scene pointer fails with the invalid-argument
error, on any fuel, and leaves the client as it was: the timer frequency is not
calibrated, no scene is stored and no call is made on any collaborator. -/
theorem run_null_scene (fuel : Nat) (c : GameClient) (h : Host) (hs : h.scene = none) :
    Run fuel c h = some { client := c, failure := some Failure.invalidArgument } := by
  unfold Run
  rw [hs]
  rfl

theorem run_null_scene_witness :
    Run 0 GameClient.new
        { scene := none, frequencyOk := true, frequency := 1000, startCounter := some 0,
          frames := [] } =
      some { client := GameClient.new, failure := some Failure.invalidArgument } :=
  run_null_scene 0 GameClient.new _ rfl

/-- C16, the code at the failing input: `CalculateSystemTimerFrequency` fails
exactly when the query reports failure or the frequency 0, and returns the
platform's frequency otherwise; for the answer `(true, -1)` it returns `-1`,
which is not greater than 0. -/
theorem timer_frequency_negative :
    (∀ (result : Bool) (quadPart : Int),
      (∃ e, CalculateSystemTimerFrequency result quadPart = Except.error e) ↔
        (result = false ∨ quadPart = 0)) ∧
    CalculateSystemTimerFrequency true (-1) = Except.ok (-1) ∧
    ¬ (0 : ℚ) < -1 := by
  refine ⟨?_, ?_, by norm_num⟩
  · intro result quadPart
    unfold CalculateSystemTimerFrequency
    cases result <;> by_cases hq : quadPart = 0 <;> simp [hq]
  · simp [CalculateSystemTimerFrequency]

/-- C12: for a non-null scene, a successful frequency query with a positive
answer, successful counter reads and a positive update step, `Run` completes
normally and its calls are, in this order and each once: the frequency query
(whose answer becomes `mTimerFrequency`), the renderer's `Initialize`, the
scene's `Initialize`, `LoadContent`, the calls of `RunMainGameLoop` (message
polls, `Update`, `Draw`, renderer updates and `Sleep` only), `UnloadContent`. -/
theorem run_order (c : GameClient) (h : Host) (hs : h.scene ≠ none)
    (hq : h.frequencyOk = true) (hpos : 0 < h.frequency) (hstart : h.startCounter ≠ none)
    (hframes : ∀ f ∈ h.frames, f.counter ≠ none) (hu : 0 < c.mUpdateFrequency) :
    ∃ fuel₀, ∀ fuel, fuel₀ ≤ fuel →
      ∃ r L, Run fuel c h = some r ∧ r.failure = none ∧
        r.client.mTimerFrequency = (h.frequency : ℚ) ∧
        r.client.calls = c.calls ++ [Event.QueryFrequency, Event.RendererInitialize,
          Event.SceneInitialize, Event.LoadContent] ++ L ++ [Event.UnloadContent] ∧
        (∀ e ∈ L, isLoopEvent e = true) ∧
        ∃ r', RunMainGameLoop fuel (loadedClient c h) h = some r' ∧ r'.failure = none ∧
          r'.client.calls = (loadedClient c h).calls ++ L := by
  obtain ⟨n, hn⟩ := Option.ne_none_iff_exists'.mp hstart
  have hposq : (0 : ℚ) < (loadedClient c h).mTimerFrequency := by
    change (0 : ℚ) < (h.frequency : ℚ)
    exact_mod_cast hpos
  refine ⟨mainLoopFuel (loopEntry (loadedClient c h) ((n : ℚ) / (h.frequency : ℚ))) h.frames,
    fun fuel hf => ?_⟩
  obtain ⟨_, h2, L, hL, hl⟩ :=
    mainLoopResult_loadedClient c h ((n : ℚ) / (h.frequency : ℚ))
  have hnone := mainLoopResult_failure_none
    (loopEntry (loadedClient c h) ((n : ℚ) / (h.frequency : ℚ))) h.frames hframes
  refine ⟨_, L, run_eq fuel c h n hs hq hpos hn hu hf, ?_, ?_, ?_, hl, _,
    runMainGameLoop_eq fuel (loadedClient c h) h n hposq hn hu hf, hnone, ?_⟩
  · simp only [finishRun, hnone]
  · simp only [finishRun, hnone, UnloadContent, GameClient.call]
    exact h2
  · simp only [finishRun, hnone, UnloadContent, GameClient.call, hL]
  · change (mainLoopResult (loopEntry (loadedClient c h) ((n : ℚ) / (h.frequency : ℚ)))
      h.frames).client.calls = _
    rw [hL, loadedClient_calls]

theorem run_order_witness :
    ∃ fuel₀, ∀ fuel, fuel₀ ≤ fuel →
      ∃ r L, Run fuel GameClient.new
          { scene := some 1, frequencyOk := true, frequency := 1000, startCounter := some 0,
            frames := [⟨false, true, some 50⟩, ⟨false, false, some 55⟩,
              ⟨true, true, some 60⟩] } = some r ∧
        r.failure = none ∧
        r.client.mTimerFrequency = ((1000 : Int) : ℚ) ∧
        r.client.calls = GameClient.new.calls ++ [Event.QueryFrequency,
          Event.RendererInitialize, Event.SceneInitialize, Event.LoadContent] ++ L ++
          [Event.UnloadContent] ∧
        (∀ e ∈ L, isLoopEvent e = true) ∧
        ∃ r', RunMainGameLoop fuel
            (loadedClient GameClient.new
              { scene := some 1, frequencyOk := true, frequency := 1000,
                startCounter := some 0,
                frames := [⟨false, true, some 50⟩, ⟨false, false, some 55⟩,
                  ⟨true, true, some 60⟩] })
            { scene := some 1, frequencyOk := true, frequency := 1000, startCounter := some 0,
              frames := [⟨false, true, some 50⟩, ⟨false, false, some 55⟩,
                ⟨true, true, some 60⟩] } = some r' ∧
          r'.failure = none ∧
          r'.client.calls = (loadedClient GameClient.new
            { scene := some 1, frequencyOk := true, frequency := 1000,
              startCounter := some 0,
              frames := [⟨false, true, some 50⟩, ⟨false, false, some 55⟩,
                ⟨true, true, some 60⟩] }).calls ++ L :=
  run_order GameClient.new
    { scene := some 1, frequencyOk := true, frequency := 1000, startCounter := some 0,
      frames := [⟨false, true, some 50⟩, ⟨false, false, some 55⟩, ⟨true, true, some 60⟩] }
    (by decide) rfl (by decide) (by decide) (by decide) (by decide!)

/-- C13, refuted as stated: with the default client, a non-null scene and a
timer of frequency 1000, the counter read of the second outer iteration fails;
`Run` ends with that failure after `LoadContent` and two message polls, and
`UnloadContent` is not among its calls. -/
theorem unload_after_error_counterexample :
    ∃ r, Run 2 GameClient.new
        { scene := some 1, frequencyOk := true, frequency := 1000, startCounter := some 0,
          frames := [⟨false, true, some 50⟩, ⟨false, true, none⟩] } = some r ∧
      r.failure = some Failure.queryCounter ∧
      Event.LoadContent ∈ r.client.calls ∧
      Event.UnloadContent ∉ r.client.calls := by
  refine ⟨finishRun (mainLoopResult (loopEntry (loadedClient GameClient.new
    { scene := some 1, frequencyOk := true, frequency := 1000, startCounter := some 0,
      frames := [⟨false, true, some 50⟩, ⟨false, true, none⟩] }) 0)
    [⟨false, true, some 50⟩, ⟨false, true, none⟩]), by decide!, by decide!, by decide!,
    by decide!⟩

/-- C13, amended: when `GetCurrentTime` fails inside `RunMainGameLoop`, at
loop entry or in an outer iteration that the loop reaches, `Run` ends with
that failure at once: the calls it has made are the four start-up calls up to
`LoadContent` followed by calls of the main loop only, and `UnloadContent` is
not called. -/
theorem unload_skipped_on_clock_failure (c : GameClient) (h : Host) (hs : h.scene ≠ none)
    (hq : h.frequencyOk = true) (hpos : 0 < h.frequency) (hu : 0 < c.mUpdateFrequency)
    (hfail : h.startCounter = none ∨
      ∃ pre f rest, h.startCounter ≠ none ∧ h.frames = pre ++ f :: rest ∧
        (∀ x ∈ pre, x.closing = false ∧ x.counter ≠ none) ∧
        f.closing = false ∧ f.counter = none) :
    ∃ fuel₀, ∀ fuel, fuel₀ ≤ fuel →
      ∃ r L, Run fuel c h = some r ∧ r.failure = some Failure.queryCounter ∧
        r.client.calls = c.calls ++ [Event.QueryFrequency, Event.RendererInitialize,
          Event.SceneInitialize, Event.LoadContent] ++ L ∧
        (∀ e ∈ L, isLoopEvent e = true) ∧ Event.UnloadContent ∉ L := by
  have hposq : (0 : ℚ) < (loadedClient c h).mTimerFrequency := by
    change (0 : ℚ) < (h.frequency : ℚ)
    exact_mod_cast hpos
  rcases hfail with hnone | ⟨pre, f, rest, hstart, hfr, hpre, hf, hc⟩
  · refine ⟨0, fun fuel _ => ⟨⟨{ loadedClient c h with mIsGameRunning := true },
      some Failure.queryCounter⟩, [], ?_, ?_, ?_, by simp, by simp⟩⟩
    · rw [run_of_initialized fuel c h hs hq (ne_of_gt hpos)]
      unfold RunMainGameLoop
      rw [if_neg (not_not.mpr hposq), hnone]
      rfl
    · rfl
    · change (loadedClient c h).calls = _
      rw [loadedClient_calls, List.append_nil]
  · obtain ⟨n, hn⟩ := Option.ne_none_iff_exists'.mp hstart
    refine ⟨mainLoopFuel (loopEntry (loadedClient c h) ((n : ℚ) / (h.frequency : ℚ)))
      h.frames, fun fuel hfuel => ?_⟩
    obtain ⟨_, _, L, hL, hl⟩ :=
      mainLoopResult_loadedClient c h ((n : ℚ) / (h.frequency : ℚ))
    have hsome : (mainLoopResult (loopEntry (loadedClient c h)
        ((n : ℚ) / (h.frequency : ℚ))) h.frames).failure = some Failure.queryCounter := by
      rw [hfr]
      exact mainLoopResult_failure_some _ pre rest f rfl hpre hf hc
    refine ⟨_, L, run_eq fuel c h n hs hq hpos hn hu hfuel, ?_, ?_, hl, ?_⟩
    · simp only [finishRun, hsome]
    · simp only [finishRun, hsome, hL]
    · intro hmem
      have := hl _ hmem
      simp [isLoopEvent] at this

theorem unload_skipped_on_clock_failure_witness :
    ∃ fuel₀, ∀ fuel, fuel₀ ≤ fuel →
      ∃ r L, Run fuel GameClient.new
          { scene := some 1, frequencyOk := true, frequency := 1000, startCounter := some 0,
            frames := [⟨false, true, some 50⟩, ⟨false, true, none⟩] } = some r ∧
        r.failure = some Failure.queryCounter ∧
        r.client.calls = GameClient.new.calls ++ [Event.QueryFrequency,
          Event.RendererInitialize, Event.SceneInitialize, Event.LoadContent] ++ L ∧
        (∀ e ∈ L, isLoopEvent e = true) ∧ Event.UnloadContent ∉ L :=
  unload_skipped_on_clock_failure GameClient.new
    { scene := some 1, frequencyOk := true, frequency := 1000, startCounter := some 0,
      frames := [⟨false, true, some 50⟩, ⟨false, true, none⟩] }
    (by decide) rfl (by decide) (by decide!)
    (Or.inr ⟨[⟨false, true, some 50⟩], ⟨false, true, none⟩, [], by decide, rfl,
      by decide, rfl, rfl⟩)

/-- C15, refuted as stated: with the default client, a non-null scene, a
working timer and a window that is closing at the first evaluation of the loop
condition, `Run` returns normally and `mIsGameRunning` is `true` afterwards. -/
theorem running_flag_counterexample :
    (Run 0 GameClient.new
        { scene := some 1, frequencyOk := true, frequency := 1000, startCounter := some 0,
          frames := [] }).map (fun r => (r.failure, r.client.mIsGameRunning)) =
      some (none, true) := by
  decide!

/-- C15, amended: `mIsGameRunning` is `false` after construction and `true`
in every state of the main loop; for a non-null scene, a successful frequency
query with a positive answer and a positive update step, `Run` completes,
normally or with the failure of a counter read, and `mIsGameRunning` is still
`true` when it ends. -/
theorem running_flag_stays_set (c : GameClient) (h : Host) (hs : h.scene ≠ none)
    (hq : h.frequencyOk = true) (hpos : 0 < h.frequency) (hu : 0 < c.mUpdateFrequency) :
    GameClient.new.mIsGameRunning = false ∧
    (∀ start ds, ∃ fuel₀, ∀ fuel, fuel₀ ≤ fuel →
      ∃ s, runIterations fuel (loopEntry c start) (clockReadings start ds) = some s ∧
        s.client.mIsGameRunning = true) ∧
    ∃ fuel₀, ∀ fuel, fuel₀ ≤ fuel →
      ∃ r, Run fuel c h = some r ∧
        (r.failure = none ∨ r.failure = some Failure.queryCounter) ∧
        r.client.mIsGameRunning = true := by
  have hposq : (0 : ℚ) < (loadedClient c h).mTimerFrequency := by
    change (0 : ℚ) < (h.frequency : ℚ)
    exact_mod_cast hpos
  refine ⟨rfl, fun start ds => ⟨fuelNeeded (loopEntry c start) (clockReadings start ds),
    fun fuel hf => ⟨_, run_complete c start ds fuel hu hf, framesResult_running c start ds⟩⟩,
    ?_⟩
  cases hstart : h.startCounter with
  | none =>
    refine ⟨0, fun fuel _ => ⟨⟨{ loadedClient c h with mIsGameRunning := true },
      some Failure.queryCounter⟩, ?_, Or.inr rfl, ?_⟩⟩
    · rw [run_of_initialized fuel c h hs hq (ne_of_gt hpos)]
      unfold RunMainGameLoop
      rw [if_neg (not_not.mpr hposq), hstart]
      rfl
    · rfl
  | some n =>
    refine ⟨mainLoopFuel (loopEntry (loadedClient c h) ((n : ℚ) / (h.frequency : ℚ)))
      h.frames, fun fuel hfuel => ⟨_, run_eq fuel c h n hs hq hpos hstart hu hfuel, ?_, ?_⟩⟩
    · rcases mainLoopResult_failure
        (loopEntry (loadedClient c h) ((n : ℚ) / (h.frequency : ℚ))) h.frames with hr | hr
      · left; simp only [finishRun, hr]
      · right; simp only [finishRun, hr]
    · have h1 := (mainLoopResult_loadedClient c h ((n : ℚ) / (h.frequency : ℚ))).1
      rcases mainLoopResult_failure
        (loopEntry (loadedClient c h) ((n : ℚ) / (h.frequency : ℚ))) h.frames with hr | hr
      · simp only [finishRun, hr, UnloadContent, GameClient.call]
        exact h1
      · simp only [finishRun, hr]
        exact h1

theorem running_flag_stays_set_witness :
    GameClient.new.mIsGameRunning = false ∧
    (∀ start ds, ∃ fuel₀, ∀ fuel, fuel₀ ≤ fuel →
      ∃ s, runIterations fuel (loopEntry GameClient.new start) (clockReadings start ds) =
          some s ∧
        s.client.mIsGameRunning = true) ∧
    ∃ fuel₀, ∀ fuel, fuel₀ ≤ fuel →
      ∃ r, Run fuel GameClient.new
          { scene := some 1, frequencyOk := true, frequency := 1000, startCounter := some 0,
            frames := [⟨false, true, some 50⟩, ⟨true, true, some 60⟩] } = some r ∧
        (r.failure = none ∨ r.failure = some Failure.queryCounter) ∧
        r.client.mIsGameRunning = true :=
  running_flag_stays_set GameClient.new
    { scene := some 1, frequencyOk := true, frequency := 1000, startCounter := some 0,
      frames := [⟨false, true, some 50⟩, ⟨true, true, some 60⟩] }
    (by decide) rfl (by decide) (by decide!)

/-- C17, the code at the failing input: when `QueryPerformanceFrequency`
succeeds with the frequency `-1`, `Run` stores `mTimerFrequency = -1`, makes
the four start-up calls up to `LoadContent` and reaches `RunMainGameLoop`,
where the assertion `mTimerFrequency > 0` fails. -/
theorem timer_frequency_assertion_fails :
    (Run 0 GameClient.new
        { scene := some 1, frequencyOk := true, frequency := -1, startCounter := some 0,
          frames := [] }).map
        (fun r => (r.failure, r.client.mTimerFrequency, r.client.calls)) =
      some (some Failure.assertion, -1, [Event.QueryFrequency, Event.RendererInitialize,
        Event.SceneInitialize, Event.LoadContent]) ∧
    RunMainGameLoop 0
        (loadedClient GameClient.new
          { scene := some 1, frequencyOk := true, frequency := -1, startCounter := some 0,
            frames := [] })
        { scene := some 1, frequencyOk := true, frequency := -1, startCounter := some 0,
          frames := [] } =
      some ⟨loadedClient GameClient.new
          { scene := some 1, frequencyOk := true, frequency := -1, startCounter := some 0,
            frames := [] }, some Failure.assertion⟩ := by
  constructor <;> decide!

/-- C21: for every update step `u > 0`, an outer iteration that begins (the
running flag is set and the window is not closing at the loop condition) runs
to completion, with its message poll, the `Update` calls owed by the
accumulator, and one `Draw`; when the window reports closing at the next
evaluation of the loop condition, the loop ends there, normally, with exactly
the calls of the completed iteration. -/
theorem close_checked_between_frames (s : LoopState) (f g : FrameInput)
    (rest : List FrameInput) (n : Int) (hu : 0 < s.client.mUpdateFrequency)
    (hrun : s.client.mIsGameRunning = true) (hf : f.closing = false)
    (hc : f.counter = some n) (hg : g.closing = true) :
    ∃ fuel₀, ∀ fuel, fuel₀ ≤ fuel →
      ∃ s', outerIteration fuel s ((n : ℚ) / s.client.mTimerFrequency) = some s' ∧
        mainLoop fuel s (f :: g :: rest) = some ⟨s'.client, none⟩ ∧
        s'.client.calls = s.client.calls ++
          frameCalls s ((n : ℚ) / s.client.mTimerFrequency)
            (stepsOwed (beginFrame s ((n : ℚ) / s.client.mTimerFrequency))) ∧
        (updateCalls (callsSince s.client s')).length =
          stepsOwed (beginFrame s ((n : ℚ) / s.client.mTimerFrequency)) ∧
        (drawCalls (callsSince s.client s')).length = 1 := by
  refine ⟨stepsOwed (beginFrame s ((n : ℚ) / s.client.mTimerFrequency)), fun fuel hfuel =>
    ⟨frameResult s ((n : ℚ) / s.client.mTimerFrequency),
      outerIteration_eq fuel s _ hu hfuel, ?_, frameResult_calls s _,
      updateCalls_length_frameResult s _, ?_⟩⟩
  · simp only [mainLoop, hrun, hf, hc, hg, GetCurrentTime, outerIteration_eq fuel s _ hu hfuel,
      Bool.not_false, Bool.and_self, if_true, Bool.not_true, Bool.and_false,
      Bool.false_eq_true, if_false]
  · rw [callsSince_frameResult s.client s _ (le_refl _), callsSince_self, List.nil_append,
      drawCalls_frameCalls]

theorem close_checked_between_frames_witness :
    ∃ fuel₀, ∀ fuel, fuel₀ ≤ fuel →
      ∃ s', outerIteration fuel
          (loopEntry { GameClient.new with mTimerFrequency := 1000 } 0)
          (((50 : Int) : ℚ) /
            (loopEntry { GameClient.new with mTimerFrequency := 1000 } 0).client.mTimerFrequency)
          = some s' ∧
        mainLoop fuel (loopEntry { GameClient.new with mTimerFrequency := 1000 } 0)
          (⟨false, true, some 50⟩ :: ⟨true, true, some 60⟩ :: []) = some ⟨s'.client, none⟩ ∧
        s'.client.calls =
          (loopEntry { GameClient.new with mTimerFrequency := 1000 } 0).client.calls ++
          frameCalls (loopEntry { GameClient.new with mTimerFrequency := 1000 } 0)
            (((50 : Int) : ℚ) /
              (loopEntry { GameClient.new with mTimerFrequency := 1000 } 0).client.mTimerFrequency)
            (stepsOwed (beginFrame (loopEntry { GameClient.new with mTimerFrequency := 1000 } 0)
              (((50 : Int) : ℚ) /
                (loopEntry { GameClient.new with mTimerFrequency := 1000 }
                  0).client.mTimerFrequency))) ∧
        (updateCalls (callsSince
            (loopEntry { GameClient.new with mTimerFrequency := 1000 } 0).client s')).length =
          stepsOwed (beginFrame (loopEntry { GameClient.new with mTimerFrequency := 1000 } 0)
            (((50 : Int) : ℚ) /
              (loopEntry { GameClient.new with mTimerFrequency := 1000 }
                0).client.mTimerFrequency)) ∧
        (drawCalls (callsSince
            (loopEntry { GameClient.new with mTimerFrequency := 1000 } 0).client s')).length = 1 :=
  close_checked_between_frames (loopEntry { GameClient.new with mTimerFrequency := 1000 } 0)
    ⟨false, true, some 50⟩ ⟨true, true, some 60⟩ [] 50 (by decide!) rfl rfl rfl rfl

/-- C22: when the scene is not null, the timer works (a positive frequency, a
successful first counter read) and the window is closing at the first
evaluation of the loop condition, `Run` returns normally on any fuel and its
calls are the frequency query, the renderer's and the scene's `Initialize`,
`LoadContent` and `UnloadContent`, each once: no `ProcessMessages`, `Update`
or `Draw` call is made. -/
theorem run_window_closing_at_once (fuel : Nat) (c : GameClient) (h : Host)
    (hs : h.scene ≠ none) (hq : h.frequencyOk = true) (hpos : 0 < h.frequency)
    (hstart : h.startCounter ≠ none)
    (hclose : h.frames = [] ∨ ∃ f rest, h.frames = f :: rest ∧ f.closing = true) :
    ∃ r, Run fuel c h = some r ∧ r.failure = none ∧
      r.client.calls = c.calls ++ [Event.QueryFrequency, Event.RendererInitialize,
        Event.SceneInitialize, Event.LoadContent, Event.UnloadContent] := by
  obtain ⟨n, hn⟩ := Option.ne_none_iff_exists'.mp hstart
  have hposq : (0 : ℚ) < (loadedClient c h).mTimerFrequency := by
    change (0 : ℚ) < (h.frequency : ℚ)
    exact_mod_cast hpos
  have hloop : RunMainGameLoop fuel (loadedClient c h) h =
      some ⟨{ loadedClient c h with mIsGameRunning := true }, none⟩ := by
    unfold RunMainGameLoop
    rw [if_neg (not_not.mpr hposq), hn]
    rcases hclose with h0 | ⟨f, rest, h1, h2⟩
    · rw [h0]
      rfl
    · rw [h1]
      simp only [GetCurrentTime, mainLoop, h2, Bool.not_true, Bool.and_false,
        Bool.false_eq_true, if_false]
      rfl
  refine ⟨finishRun ⟨{ loadedClient c h with mIsGameRunning := true }, none⟩, ?_, rfl, ?_⟩
  · rw [run_of_initialized fuel c h hs hq (ne_of_gt hpos), hloop]
    rfl
  · change (loadedClient c h).calls ++ [Event.UnloadContent] = _
    rw [loadedClient_calls, List.append_assoc]
    rfl

theorem run_window_closing_at_once_witness :
    ∃ r, Run 0 GameClient.new
        { scene := some 1, frequencyOk := true, frequency := 1000, startCounter := some 0,
          frames := [⟨true, true, some 50⟩, ⟨false, true, some 60⟩] } = some r ∧
      r.failure = none ∧
      r.client.calls = GameClient.new.calls ++ [Event.QueryFrequency,
        Event.RendererInitialize, Event.SceneInitialize, Event.LoadContent,
        Event.UnloadContent] :=
  run_window_closing_at_once 0 GameClient.new
    { scene := some 1, frequencyOk := true, frequency := 1000, startCounter := some 0,
      frames := [⟨true, true, some 50⟩, ⟨false, true, some 60⟩] }
    (by decide) rfl (by decide) (by decide) (Or.inr ⟨_, _, rfl, rfl⟩)

/-- C28: two hosts that agree in everything but the values returned by
`ProcessMessages` give, on every fuel and for every client, the same result
of `RunMainGameLoop` and of `Run`: the same failure or normal end and the same
calls in the same order, hence the same `Update`, `Draw` and `Sleep` calls and
the same number of iterations. -/
theorem process_messages_ignored (fuel : Nat) (c : GameClient) (h h' : Host)
    (hscene : h'.scene = h.scene) (hq : h'.frequencyOk = h.frequencyOk)
    (hfreq : h'.frequency = h.frequency) (hstart : h'.startCounter = h.startCounter)
    (hframes : h'.frames.map FrameInput.observed = h.frames.map FrameInput.observed) :
    RunMainGameLoop fuel c h' = RunMainGameLoop fuel c h ∧ Run fuel c h' = Run fuel c h := by
  refine ⟨runMainGameLoop_congr fuel c h h' hstart hframes, ?_⟩
  have hinit : ∀ c, InitializeClient c h' = InitializeClient c h := by
    intro c
    unfold InitializeClient
    rw [hq, hfreq]
  unfold Run
  rw [hscene]
  cases VerifyNotNull h.scene with
  | some e => rfl
  | none =>
    dsimp only
    rw [hinit]
    cases (InitializeClient { c with mDemoScene := h.scene } h).failure with
    | some e => rfl
    | none =>
      dsimp only
      rw [runMainGameLoop_congr fuel _ h h' hstart hframes]

theorem process_messages_ignored_witness :
    RunMainGameLoop 3 { GameClient.new with mTimerFrequency := 1000 }
        { scene := some 1, frequencyOk := true, frequency := 1000, startCounter := some 0,
          frames := [⟨false, false, some 50⟩, ⟨false, true, some 55⟩] } =
      RunMainGameLoop 3 { GameClient.new with mTimerFrequency := 1000 }
        { scene := some 1, frequencyOk := true, frequency := 1000, startCounter := some 0,
          frames := [⟨false, true, some 50⟩, ⟨false, false, some 55⟩] } ∧
    Run 3 GameClient.new
        { scene := some 1, frequencyOk := true, frequency := 1000, startCounter := some 0,
          frames := [⟨false, false, some 50⟩, ⟨false, true, some 55⟩] } =
      Run 3 GameClient.new
        { scene := some 1, frequencyOk := true, frequency := 1000, startCounter := some 0,
          frames := [⟨false, true, some 50⟩, ⟨false, false, some 55⟩] } :=
  ⟨(process_messages_ignored 3 { GameClient.new with mTimerFrequency := 1000 }
      { scene := some 1, frequencyOk := true, frequency := 1000, startCounter := some 0,
        frames := [⟨false, true, some 50⟩, ⟨false, false, some 55⟩] }
      { scene := some 1, frequencyOk := true, frequency := 1000, startCounter := some 0,
        frames := [⟨false, false, some 50⟩, ⟨false, true, some 55⟩] }
      rfl rfl rfl rfl rfl).1,
    (process_messages_ignored 3 GameClient.new
      { scene := some 1, frequencyOk := true, frequency := 1000, startCounter := some 0,
        frames := [⟨false, true, some 50⟩, ⟨false, false, some 55⟩] }
      { scene := some 1, frequencyOk := true, frequency := 1000, startCounter := some 0,
        frames := [⟨false, false, some 50⟩, ⟨false, true, some 55⟩] }
      rfl rfl rfl rfl rfl).2⟩

/-- C25: `mIsRunningSlowly` is written only in the inner stepping loop. For
every update step `u > 0`, an outer iteration completes; when it makes no
`Update` call the flag keeps the value it had, and when it makes `k ≥ 1` calls
the flag is left equal to `k ≥ 2`, for every `k` up to `2 ^ 64`, the range in
which the `size_t` counter `numUpdates` does not wrap (in general the flag is
left equal to `0 < (k - 1) mod 2 ^ 64`). Hence an iteration with two or more
calls followed by an iteration without call leaves the flag `true`. -/
theorem running_slowly_frame_effect (s : LoopState) (t t' : ℚ)
    (hu : 0 < s.client.mUpdateFrequency) :
    ∃ fuel₀, ∀ fuel, fuel₀ ≤ fuel →
      ∃ s' s'', outerIteration fuel s t = some s' ∧ outerIteration fuel s' t' = some s'' ∧
        ((updateCalls (callsSince s.client s')).length = 0 →
          s'.client.mIsRunningSlowly = s.client.mIsRunningSlowly) ∧
        (1 ≤ (updateCalls (callsSince s.client s')).length →
          s'.client.mIsRunningSlowly =
            decide (0 < ((updateCalls (callsSince s.client s')).length - 1) % sizeModulus)) ∧
        (1 ≤ (updateCalls (callsSince s.client s')).length →
          (updateCalls (callsSince s.client s')).length ≤ sizeModulus →
          s'.client.mIsRunningSlowly =
            decide (2 ≤ (updateCalls (callsSince s.client s')).length)) ∧
        (2 ≤ (updateCalls (callsSince s.client s')).length →
          (updateCalls (callsSince s.client s')).length ≤ sizeModulus →
          (updateCalls (callsSince s'.client s'')).length = 0 →
          s''.client.mIsRunningSlowly = true) := by
  have hu' : 0 < (frameResult s t).client.mUpdateFrequency := by simpa using hu
  have key : ∀ k, stepsOwed (beginFrame s t) = k + 1 → k + 1 ≤ sizeModulus →
      (frameResult s t).client.mIsRunningSlowly = decide (2 ≤ k + 1) := by
    intro k hk hle
    rw [frameResult_runningSlowly s t k hk, Nat.mod_eq_of_lt (by omega)]
    congr 1
    apply propext
    omega
  refine ⟨max (stepsOwed (beginFrame s t)) (stepsOwed (beginFrame (frameResult s t) t')),
    fun fuel hf => ?_⟩
  rw [max_le_iff] at hf
  refine ⟨frameResult s t, frameResult (frameResult s t) t',
    outerIteration_eq fuel s t hu hf.1, outerIteration_eq fuel _ t' hu' hf.2, ?_, ?_, ?_, ?_⟩
  · rw [updateCalls_length_frameResult]
    exact frameResult_runningSlowly_zero s t
  · rw [updateCalls_length_frameResult]
    intro h1
    obtain ⟨k, hk⟩ := Nat.exists_eq_add_of_le' h1
    rw [hk, Nat.add_sub_cancel]
    exact frameResult_runningSlowly s t k hk
  · rw [updateCalls_length_frameResult]
    intro h1 hle
    obtain ⟨k, hk⟩ := Nat.exists_eq_add_of_le' h1
    rw [hk] at hle ⊢
    exact key k hk hle
  · rw [updateCalls_length_frameResult, updateCalls_length_frameResult]
    intro h2 hle h0
    rw [frameResult_runningSlowly_zero _ _ h0]
    obtain ⟨k, hk⟩ := Nat.exists_eq_add_of_le' (le_trans (by decide : 1 ≤ 2) h2)
    rw [hk] at hle h2
    rw [key k hk hle]
    exact decide_eq_true h2

theorem running_slowly_frame_effect_witness :
    ∃ fuel₀, ∀ fuel, fuel₀ ≤ fuel →
      ∃ s' s'', outerIteration fuel (loopEntry GameClient.new 0) (1 / 20) = some s' ∧
        outerIteration fuel s' (11 / 200) = some s'' ∧
        ((updateCalls (callsSince (loopEntry GameClient.new 0).client s')).length = 0 →
          s'.client.mIsRunningSlowly = (loopEntry GameClient.new 0).client.mIsRunningSlowly) ∧
        (1 ≤ (updateCalls (callsSince (loopEntry GameClient.new 0).client s')).length →
          s'.client.mIsRunningSlowly =
            decide (0 < ((updateCalls (callsSince (loopEntry GameClient.new 0).client
              s')).length - 1) % sizeModulus)) ∧
        (1 ≤ (updateCalls (callsSince (loopEntry GameClient.new 0).client s')).length →
          (updateCalls (callsSince (loopEntry GameClient.new 0).client s')).length ≤
            sizeModulus →
          s'.client.mIsRunningSlowly =
            decide (2 ≤ (updateCalls (callsSince (loopEntry GameClient.new 0).client
              s')).length)) ∧
        (2 ≤ (updateCalls (callsSince (loopEntry GameClient.new 0).client s')).length →
          (updateCalls (callsSince (loopEntry GameClient.new 0).client s')).length ≤
            sizeModulus →
          (updateCalls (callsSince s'.client s'')).length = 0 →
          s''.client.mIsRunningSlowly = true) :=
  running_slowly_frame_effect (loopEntry GameClient.new 0) (1 / 20) (11 / 200) (by decide!)

/-- C27: the frame time is clamped from above only. For every update step
`u > 0`, a clock reading below `systemTime` gives a negative frame time that
is added to the accumulator as it is; when that makes the accumulator
negative, the outer iteration makes no `Update` call and passes to `Draw` an
interpolation greater than 1. -/
theorem negative_delta_unclamped (s : LoopState) (t : ℚ) (fuel : Nat)
    (hu : 0 < s.client.mUpdateFrequency) (hlt : t < s.systemTime)
    (hneg : s.accumulatedTime + (t - s.systemTime) < 0) :
    ∃ s' x, outerIteration fuel s t = some s' ∧
      s'.frameTime = t - s.systemTime ∧
      s'.accumulatedTime = s.accumulatedTime + (t - s.systemTime) ∧
      s'.accumulatedTime < 0 ∧
      updateCalls (callsSince s.client s') = [] ∧
      drawInterpolations (callsSince s.client s') = [x] ∧ 1 < x := by
  have hclamp : clampFrameTime (t - s.systemTime) = t - s.systemTime := by
    rw [clampFrameTime_eq_min, min_eq_left]
    linarith
  have hb : (beginFrame s t).accumulatedTime < 0 := by
    rw [beginFrame_accumulatedTime, hclamp]
    exact hneg
  have h0 : stepsOwed (beginFrame s t) = 0 :=
    stepsOwed_eq_zero (beginFrame s t) (by simpa using hu) (lt_trans hb (by simpa using hu))
  have hacc : (frameResult s t).accumulatedTime = s.accumulatedTime + (t - s.systemTime) := by
    rw [frameResult_accumulatedTime, h0, hclamp]
    simp
  refine ⟨frameResult s t, 1 - (frameResult s t).accumulatedTime / s.client.mUpdateFrequency,
    outerIteration_eq fuel s t hu (by omega), ?_, hacc, by rw [hacc]; exact hneg, ?_, ?_, ?_⟩
  · rw [frameResult_frameTime, hclamp]
  · rw [← List.length_eq_zero, updateCalls_length_frameResult, h0]
  · rw [callsSince_frameResult s.client s _ (le_refl _), callsSince_self, List.nil_append,
      drawInterpolations_frameCalls, ← frameResult_accumulatedTime]
  · have h1 : (frameResult s t).accumulatedTime / s.client.mUpdateFrequency < 0 :=
      div_neg_of_neg_of_pos (by rw [hacc]; exact hneg) hu
    linarith

theorem negative_delta_unclamped_witness :
    (0 : ℚ) < (loopEntry GameClient.new 1).client.mUpdateFrequency ∧
    (99 / 100 : ℚ) < (loopEntry GameClient.new 1).systemTime ∧
    (loopEntry GameClient.new 1).accumulatedTime +
      (99 / 100 - (loopEntry GameClient.new 1).systemTime) < 0 ∧
    ∃ s' x, outerIteration 0 (loopEntry GameClient.new 1) (99 / 100) = some s' ∧
      s'.frameTime = 99 / 100 - (loopEntry GameClient.new 1).systemTime ∧
      s'.accumulatedTime = (loopEntry GameClient.new 1).accumulatedTime +
        (99 / 100 - (loopEntry GameClient.new 1).systemTime) ∧
      s'.accumulatedTime < 0 ∧
      updateCalls (callsSince (loopEntry GameClient.new 1).client s') = [] ∧
      drawInterpolations (callsSince (loopEntry GameClient.new 1).client s') = [x] ∧ 1 < x :=
  ⟨by decide!, by decide!, by decide!,
    negative_delta_unclamped (loopEntry GameClient.new 1) (99 / 100) 0 (by decide!)
      (by decide!) (by decide!)⟩

/-- C29, the code at the failing input: `OnUpdate` never changes `t_base`,
which stays 0, so every call with `currentTime ≥ 1/4` generates a wave. Called
at the simulation times `6/25`, `13/50` and `7/25` (steps of `1/50`) on a new
scene, it calls `GenerateRandomWave` at `13/50` and again at `7/25`: two
consecutive waves `1/50` apart, less than a quarter second. -/
theorem wave_every_update :
    (∀ getKeyState s currentTime deltaTime,
      (OnUpdate getKeyState s currentTime deltaTime).t_base = s.t_base) ∧
    (List.foldl (fun s t => OnUpdate (fun _ => 0) s t (1 / 50)) SceneState.new
      [6 / 25, 13 / 50, 7 / 25]).waves = [13 / 50, 7 / 25] ∧
    gaps [13 / 50, 7 / 25] = [1 / 50] ∧ ¬ ((1 / 4 : ℚ) ≤ 1 / 50) := by
  refine ⟨?_, by decide!, by decide!, by decide!⟩
  intro getKeyState s currentTime deltaTime
  unfold OnUpdate UpdateInput GenerateRandomWave
  dsimp only
  split <;> split <;> split <;> split <;> rfl

/-- C30: the three key queries of `UpdateInput` all have the argument 0, since
`49 & 0x8000 = 50 & 0x8000 = 51 & 0x8000 = 0`, so the three conditions are
equal; `UpdateInput` leaves the scene as it is when `GetKeyState(0)` is 0 and
sets `mLightType` to 2 otherwise. A light type in `{0, 1, 2}` stays there, and
from a new scene every sequence of `UpdateInput` calls leaves it at 0 or 2. -/
theorem update_input_light_type (getKeyState : Nat → Int) (s : SceneState) :
    keyQueryArgument 49 = 0 ∧ keyQueryArgument 50 = 0 ∧ keyQueryArgument 51 = 0 ∧
    (getKeyState (keyQueryArgument 49) ≠ 0 ↔ getKeyState (keyQueryArgument 50) ≠ 0) ∧
    (getKeyState (keyQueryArgument 50) ≠ 0 ↔ getKeyState (keyQueryArgument 51) ≠ 0) ∧
    (getKeyState 0 = 0 → UpdateInput getKeyState s = s) ∧
    (getKeyState 0 ≠ 0 → UpdateInput getKeyState s = { s with mLightType := 2 }) ∧
    ((UpdateInput getKeyState s).mLightType = s.mLightType ∨
      (UpdateInput getKeyState s).mLightType = 2) ∧
    (s.mLightType = 0 ∨ s.mLightType = 1 ∨ s.mLightType = 2 →
      (UpdateInput getKeyState s).mLightType = 0 ∨
      (UpdateInput getKeyState s).mLightType = 1 ∨
      (UpdateInput getKeyState s).mLightType = 2) ∧
    ∀ keys : List (Nat → Int),
      (keys.foldl (fun x g => UpdateInput g x) SceneState.new).mLightType = 0 ∨
      (keys.foldl (fun x g => UpdateInput g x) SceneState.new).mLightType = 2 := by
  have h49 : keyQueryArgument 49 = 0 := by decide
  have h50 : keyQueryArgument 50 = 0 := by decide
  have h51 : keyQueryArgument 51 = 0 := by decide
  have hzero : ∀ (g : Nat → Int) (x : SceneState), g 0 = 0 → UpdateInput g x = x := by
    intro g x h
    simp [UpdateInput, h49, h50, h51, h]
  have hnz : ∀ (g : Nat → Int) (x : SceneState), g 0 ≠ 0 →
      UpdateInput g x = { x with mLightType := 2 } := by
    intro g x h
    simp [UpdateInput, h49, h50, h51, h]
  have hor : ∀ (g : Nat → Int) (x : SceneState),
      (UpdateInput g x).mLightType = x.mLightType ∨ (UpdateInput g x).mLightType = 2 := by
    intro g x
    by_cases h : g 0 = 0
    · left; rw [hzero g x h]
    · right; rw [hnz g x h]
  refine ⟨h49, h50, h51, by rw [h49, h50], by rw [h50, h51], hzero getKeyState s,
    hnz getKeyState s, hor getKeyState s, ?_, ?_⟩
  · intro h
    rcases hor getKeyState s with h1 | h1
    · rw [h1]; exact h
    · right; right; exact h1
  · intro keys
    have hinv : ∀ (ks : List (Nat → Int)) (x : SceneState),
        (x.mLightType = 0 ∨ x.mLightType = 2) →
        ((ks.foldl (fun x g => UpdateInput g x) x).mLightType = 0 ∨
          (ks.foldl (fun x g => UpdateInput g x) x).mLightType = 2) := by
      intro ks
      induction ks with
      | nil => intro x hx; exact hx
      | cons g gs ih =>
        intro x hx
        rw [List.foldl_cons]
        apply ih
        rcases hor g x with h1 | h1
        · rw [h1]; exact hx
        · right; exact h1
    exact hinv keys SceneState.new (Or.inl rfl)

/-- C1, refuted as stated: with the step that `SetUpdateFrequency(50)` stores,
the `double` next to `1/50`, a single frame of delta `4 * u` makes 3 `Update`
calls, where `⌊4 * u / u⌋ = 4`: the third subtraction leaves the `double` just
below `u`. -/
theorem update_count_counterexample :
    (runIterationsRounded 4 (loopEntry (clientWithStep (roundTimeT (1 / 50))) 0)
      (clockReadings 0 [4 * roundTimeT (1 / 50)])).map
        (fun s => ((updateCalls (callsSince (clientWithStep (roundTimeT (1 / 50))) s)).length :
          ℤ)) = some 3 ∧
    ⌊clampedTotal [4 * roundTimeT (1 / 50)] / roundTimeT (1 / 50)⌋ = 4 := by
  decide!

/-- C1, amended: for every update step `u > 0` and all frame deltas `d_i ≥ 0`
of a grid run, where no sum or difference of the loop rounds, the rounded loop
completes from the initial loop state, and after each frame `n` the number of
`Update` calls made so far is `⌊(Σ_{i ≤ n} min(d_i, 0.25)) / u⌋`. With the
step that `SetUpdateFrequency(50)` stores and a clock that reads `1/200`,
`2/200`, `3/200`, `4/200`, as rounded to `double`, there is no `Update` call
after the frames 1 to 3 and exactly the call `Update(0, u)` after frame 4,
which leaves the accumulator at 0. -/
theorem update_count_on_grid (c : GameClient) (start : ℚ) (ds : List ℚ) (k n : Nat)
    (hu : 0 < c.mUpdateFrequency) (hds : ∀ d ∈ ds, 0 ≤ d) (hg : GridRun k c ds) :
    (∃ fuel₀, ∀ fuel, fuel₀ ≤ fuel →
      ∃ s, runIterationsRounded fuel (loopEntry c start)
          (clockReadings start (ds.take n)) = some s ∧
        ((updateCalls (callsSince c s)).length : ℤ) =
          ⌊clampedTotal (ds.take n) / c.mUpdateFrequency⌋) ∧
    ((List.range 5).map fun n =>
      (runIterationsRounded 1 (loopEntry (clientWithStep (roundTimeT (1 / 50))) 0)
        ((List.range n).map fun (i : Nat) => roundTimeT (((i : ℚ) + 1) / 200))).map
          fun s => (updateCalls (callsSince (clientWithStep (roundTimeT (1 / 50))) s),
            s.accumulatedTime)) =
      [some ([], 0), some ([], roundTimeT (1 / 200)), some ([], roundTimeT (1 / 100)),
        some ([], roundTimeT (3 / 200)),
        some ([Event.Update 0 (roundTimeT (1 / 50))], 0)] := by
  refine ⟨⟨fuelNeeded (loopEntry c start) (clockReadings start (ds.take n)),
    fun fuel hf => ?_⟩, by decide!⟩
  obtain ⟨r, h1, h2, _⟩ := runIterationsRounded_of_gridRun c start (ds.take n) k hu
    (gridRun_take hg n) fuel hf
  refine ⟨r, h1, ?_⟩
  rw [erased_updateCalls c h2]
  exact updateCalls_length_framesResult c start (ds.take n) hu
    (fun d hd => hds d (List.mem_of_mem_take hd))

theorem update_count_on_grid_witness :
    (0 : ℚ) < GameClient.new.mUpdateFrequency ∧
    (∀ d ∈ ([1 / 128, 1 / 64, 1 / 2] : List ℚ), 0 ≤ d) ∧
    GridRun 29 GameClient.new [1 / 128, 1 / 64, 1 / 2] ∧
    ∃ fuel₀, ∀ fuel, fuel₀ ≤ fuel →
      ∃ s, runIterationsRounded fuel (loopEntry GameClient.new 0)
          (clockReadings 0 (List.take 3 [1 / 128, 1 / 64, 1 / 2])) = some s ∧
        ((updateCalls (callsSince GameClient.new s)).length : ℤ) =
          ⌊clampedTotal (List.take 3 [1 / 128, 1 / 64, 1 / 2]) /
            GameClient.new.mUpdateFrequency⌋ :=
  ⟨by decide!, by decide!, by decide!,
    (update_count_on_grid GameClient.new 0 [1 / 128, 1 / 64, 1 / 2] 29 3 (by decide!)
      (by decide!) (by decide!)).1⟩

/-- C2, refuted as stated: with the step that `SetUpdateFrequency(10)` stores,
the `double` next to `1/10`, two frames of delta `1/4` make four `Update`
calls, and the fourth receives the simulation time `((u + u) + u)` as rounded
by the additions, which is not `3 * u`. -/
theorem update_arguments_counterexample :
    (runIterationsRounded 3 (loopEntry (clientWithStep (roundTimeT (1 / 10))) 0)
      (clockReadings 0 [1 / 4, 1 / 4])).map
        (fun s => (updateCalls (callsSince (clientWithStep (roundTimeT (1 / 10))) s))[3]?) =
      some (some (Event.Update (1351079888211149 / 4503599627370496)
        (roundTimeT (1 / 10)))) ∧
    (1351079888211149 / 4503599627370496 : ℚ) ≠ 3 * roundTimeT (1 / 10) := by
  decide!

/-- C2, amended: for every update step `u > 0` and all frame deltas of a grid
run, where no sum or difference of the loop rounds, the rounded loop completes
and the simulation time is `N * u` after `N` `Update` calls in total; the
`(N+1)`-th `Update` call has the arguments `(N * u, u)`, the first one
`(0, u)`. -/
theorem update_arguments_on_grid (c : GameClient) (start : ℚ) (ds : List ℚ) (k : Nat)
    (hu : 0 < c.mUpdateFrequency) (hg : GridRun k c ds) :
    ∃ fuel₀, ∀ fuel, fuel₀ ≤ fuel →
      ∃ s, runIterationsRounded fuel (loopEntry c start) (clockReadings start ds) = some s ∧
        s.simulationTime = (updateCalls (callsSince c s)).length * c.mUpdateFrequency ∧
        (∀ (N : Nat) (h : N < (updateCalls (callsSince c s)).length),
          (updateCalls (callsSince c s))[N] =
            Event.Update (N * c.mUpdateFrequency) c.mUpdateFrequency) ∧
        ∀ h : 0 < (updateCalls (callsSince c s)).length,
          (updateCalls (callsSince c s))[0] = Event.Update 0 c.mUpdateFrequency := by
  refine ⟨fuelNeeded (loopEntry c start) (clockReadings start ds), fun fuel hf => ?_⟩
  obtain ⟨r, h1, h2, _⟩ := runIterationsRounded_of_gridRun c start ds k hu hg fuel hf
  refine ⟨r, h1, ?_⟩
  obtain ⟨_, _, n, hc, hsim⟩ := updateTrace_framesResult c start ds
  rw [erased_updateCalls c h2, erased_simulationTime h2]
  refine ⟨?_, ?_, ?_⟩
  · rw [hsim, hc, List.length_map, List.length_range]
  · intro N h
    simp only [hc, List.getElem_map, List.getElem_range]
  · intro h
    simp only [hc, List.getElem_map, List.getElem_range, Nat.cast_zero, zero_mul]

theorem update_arguments_on_grid_witness :
    (0 : ℚ) < GameClient.new.mUpdateFrequency ∧
    GridRun 29 GameClient.new [1 / 16, -1, 1 / 2] ∧
    ∃ fuel₀, ∀ fuel, fuel₀ ≤ fuel →
      ∃ s, runIterationsRounded fuel (loopEntry GameClient.new 0)
          (clockReadings 0 [1 / 16, -1, 1 / 2]) = some s ∧
        s.simulationTime =
          (updateCalls (callsSince GameClient.new s)).length * GameClient.new.mUpdateFrequency ∧
        (∀ (N : Nat) (h : N < (updateCalls (callsSince GameClient.new s)).length),
          (updateCalls (callsSince GameClient.new s))[N] =
            Event.Update (N * GameClient.new.mUpdateFrequency)
              GameClient.new.mUpdateFrequency) ∧
        ∀ h : 0 < (updateCalls (callsSince GameClient.new s)).length,
          (updateCalls (callsSince GameClient.new s))[0] =
            Event.Update 0 GameClient.new.mUpdateFrequency :=
  ⟨by decide!, by decide!,
    update_arguments_on_grid GameClient.new 0 [1 / 16, -1, 1 / 2] 29 (by decide!)
      (by decide!)⟩

/-- C23, refuted as stated: with the step that `SetUpdateFrequency(10)`
stores, after three frames of delta `1/4` the sum
`simulationTime + accumulatedTime` is not the total `3/4` of the frame
deltas. -/
theorem time_conservation_counterexample :
    (runIterationsRounded 3 (loopEntry (clientWithStep (roundTimeT (1 / 10))) 0)
      (clockReadings 0 [1 / 4, 1 / 4, 1 / 4])).map
        (fun s => decide (s.simulationTime + s.accumulatedTime =
          clampedTotal [1 / 4, 1 / 4, 1 / 4])) = some false := by
  decide!

/-- C23, amended: for every update step `u > 0` and all frame deltas, of any
sign, of a grid run, where no sum or difference of the loop rounds, the
rounded loop completes and at the end of every outer iteration
`simulationTime + accumulatedTime` is the sum of the frame deltas so far, each
clamped to `min(d, 0.25)`. -/
theorem time_conservation_on_grid (c : GameClient) (start : ℚ) (ds : List ℚ) (k n : Nat)
    (hu : 0 < c.mUpdateFrequency) (hg : GridRun k c ds) :
    ∃ fuel₀, ∀ fuel, fuel₀ ≤ fuel →
      ∃ s, runIterationsRounded fuel (loopEntry c start)
          (clockReadings start (ds.take n)) = some s ∧
        s.simulationTime + s.accumulatedTime = clampedTotal (ds.take n) := by
  refine ⟨fuelNeeded (loopEntry c start) (clockReadings start (ds.take n)), fun fuel hf => ?_⟩
  obtain ⟨r, h1, h2, _⟩ := runIterationsRounded_of_gridRun c start (ds.take n) k hu
    (gridRun_take hg n) fuel hf
  refine ⟨r, h1, ?_⟩
  have hcons : (framesResult (loopEntry c start)
        (clockReadings start (ds.take n))).simulationTime +
      (framesResult (loopEntry c start) (clockReadings start (ds.take n))).accumulatedTime =
      0 + 0 + clampedTotal (ds.take n) :=
    framesResult_conservation (loopEntry c start) (ds.take n)
  rw [erased_simulationTime h2, erased_accumulatedTime h2, hcons]
  ring

theorem time_conservation_on_grid_witness :
    (0 : ℚ) < GameClient.new.mUpdateFrequency ∧
    GridRun 29 GameClient.new [1 / 16, -1 / 128, 1 / 2] ∧
    ∃ fuel₀, ∀ fuel, fuel₀ ≤ fuel →
      ∃ s, runIterationsRounded fuel (loopEntry GameClient.new 0)
          (clockReadings 0 (List.take 2 [1 / 16, -1 / 128, 1 / 2])) = some s ∧
        s.simulationTime + s.accumulatedTime =
          clampedTotal (List.take 2 [1 / 16, -1 / 128, 1 / 2]) :=
  ⟨by decide!, by decide!,
    time_conservation_on_grid GameClient.new 0 [1 / 16, -1 / 128, 1 / 2] 29 2 (by decide!)
      (by decide!)⟩

/-- C5, amended: the clamp bounds the frame time, and with it the number of
steps of a frame only up to the time carried over. In every outer iteration of
the rounded loop the frame time is at most `0.25`. For every update step
`u > 0`, every loop state reached from loop entry by the non-negative frame
deltas of a grid run, where no sum or difference of the loop rounds, and the
next frame delta `d` of that run, the outer iteration completes, its frame
time is `min d 0.25`, and it makes at most `(a + 0.25) / u` `Update` calls,
where `a < u` is the accumulated time carried into the frame; so the number of
calls is below `0.25 / u + 1`. -/
theorem updates_per_frame_on_grid (c : GameClient) (start : ℚ) (ds : List ℚ) (d : ℚ)
    (k : Nat) (hu : 0 < c.mUpdateFrequency) (hds : ∀ x ∈ ds, 0 ≤ x)
    (hg : GridRun k c (ds ++ [d])) :
    (∃ fuel₀, ∀ fuel, fuel₀ ≤ fuel →
      ∃ s s', runIterationsRounded fuel (loopEntry c start) (clockReadings start ds) = some s ∧
        outerIterationRounded fuel s (s.systemTime + d) = some s' ∧
        s'.frameTime = min d (1 / 4) ∧
        s.accumulatedTime < c.mUpdateFrequency ∧
        ((updateCalls (callsSince s.client s')).length : ℚ) ≤
          (s.accumulatedTime + 1 / 4) / c.mUpdateFrequency ∧
        ((updateCalls (callsSince s.client s')).length : ℚ) <
          (1 / 4) / c.mUpdateFrequency + 1) ∧
    ∀ (fuel : Nat) (x x' : LoopState) (t : ℚ),
      outerIterationRounded fuel x t = some x' → x'.frameTime ≤ 1 / 4 := by
  refine ⟨?_, fun fuel x x' t h => outerIterationRounded_frameTime_le fuel x x' t h⟩
  have hb : 0 ≤ (framesResult (loopEntry c start) (clockReadings start ds)).accumulatedTime ∧
      (framesResult (loopEntry c start) (clockReadings start ds)).accumulatedTime <
        c.mUpdateFrequency :=
    framesResult_accumulatedTime_bounds (loopEntry c start) ds hu hds (le_refl _) hu
  have hus : (framesResult (loopEntry c start) (clockReadings start ds)).client.mUpdateFrequency
      = c.mUpdateFrequency := framesResult_updateFrequency (loopEntry c start) ds
  refine ⟨max (fuelNeeded (loopEntry c start) (clockReadings start ds))
    (stepsOwed (beginFrame (framesResult (loopEntry c start) (clockReadings start ds))
      ((framesResult (loopEntry c start) (clockReadings start ds)).systemTime + d))),
    fun fuel hf => ?_⟩
  rw [max_le_iff] at hf
  obtain ⟨s, hs1, hs2, hs3⟩ := gridFrame_after_run start hu hg fuel hf.1
  obtain ⟨s', ht1, ht2⟩ := outerIterationRounded_of_gridFrame k s _ _ hs2 hs3 fuel hf.2
  have hus' : 0 < (framesResult (loopEntry c start)
      (clockReadings start ds)).client.mUpdateFrequency := by rw [hus]; exact hu
  have hle := stepsOwed_beginFrame_le (framesResult (loopEntry c start) (clockReadings start ds))
    ((framesResult (loopEntry c start) (clockReadings start ds)).systemTime + d) hus' hb.1
  rw [hus] at hle
  have hcl : s.client.calls.length =
      (framesResult (loopEntry c start) (clockReadings start ds)).client.calls.length := by
    have := congrArg List.length (erased_calls hs2)
    simpa using this
  have hcount : (updateCalls (callsSince s.client s')).length =
      stepsOwed (beginFrame (framesResult (loopEntry c start) (clockReadings start ds))
        ((framesResult (loopEntry c start) (clockReadings start ds)).systemTime + d)) := by
    rw [erased_updateCalls s.client ht2, ← updateCalls_length_frameResult]
    unfold callsSince
    rw [hcl]
  refine ⟨s, s', hs1, ?_, ?_, ?_, ?_, ?_⟩
  · rw [erased_systemTime hs2]; exact ht1
  · rw [erased_frameTime ht2, frameResult_frameTime, add_sub_cancel_left, clampFrameTime_eq_min]
  · rw [erased_accumulatedTime hs2]; exact hb.2
  · rw [hcount, erased_accumulatedTime hs2, le_div_iff₀ hu]
    exact hle
  · rw [hcount, ← sub_lt_iff_lt_add, lt_div_iff₀ hu]
    linarith [hb.2]

theorem updates_per_frame_on_grid_witness :
    (0 : ℚ) < GameClient.new.mUpdateFrequency ∧
    (∀ x ∈ ([1 / 64] : List ℚ), 0 ≤ x) ∧
    GridRun 29 GameClient.new ([1 / 64] ++ [1]) ∧
    ∃ fuel₀, ∀ fuel, fuel₀ ≤ fuel →
      ∃ s s', runIterationsRounded fuel (loopEntry GameClient.new 0)
          (clockReadings 0 [1 / 64]) = some s ∧
        outerIterationRounded fuel s (s.systemTime + 1) = some s' ∧
        s'.frameTime = min 1 (1 / 4) ∧
        s.accumulatedTime < GameClient.new.mUpdateFrequency ∧
        ((updateCalls (callsSince s.client s')).length : ℚ) ≤
          (s.accumulatedTime + 1 / 4) / GameClient.new.mUpdateFrequency ∧
        ((updateCalls (callsSince s.client s')).length : ℚ) <
          (1 / 4) / GameClient.new.mUpdateFrequency + 1 :=
  ⟨by decide!, by decide!, by decide!,
    (updates_per_frame_on_grid GameClient.new 0 [1 / 64] 1 29 (by decide!) (by decide!)
      (by decide!)).1⟩

/-- C6, refuted as stated: with the step that `SetUpdateFrequency(20)` stores
and a clock that reads `1/20`, `2/20`, `3/20` and then `23/20`, as rounded to
`double`, the third frame ends with an accumulator in `[0, u)` and the fourth,
whose delta is clamped to `0.25`, makes 6 `Update` calls, where
`⌈0.25 / u⌉ = 5`. -/
theorem updates_per_frame_ceil_counterexample :
    ((runIterationsRounded 6 (loopEntry (clientWithStep (roundTimeT (1 / 20))) 0)
      [roundTimeT (1 / 20), roundTimeT (2 / 20), roundTimeT (3 / 20)]).bind fun s =>
        (outerIterationRounded 6 s (roundTimeT (23 / 20))).map fun s' =>
          (decide (0 ≤ s.accumulatedTime ∧ s.accumulatedTime < s.client.mUpdateFrequency),
            ((updateCalls (callsSince s.client s')).length : ℤ))) = some (true, 6) ∧
    ⌈(1 / 4 : ℚ) / roundTimeT (1 / 20)⌉ = 5 := by
  decide!

/-- C6, amended: for every grid frame, where no sum or difference of the
outer iteration rounds, from a loop state with `0 ≤ accumulatedTime < u`, with
any frame delta (in particular `10 * u`), the outer iteration of the rounded
loop completes and makes at most `⌈0.25 / u⌉` `Update` calls. -/
theorem updates_per_frame_ceil_on_grid (k : Nat) (s : LoopState) (t : ℚ)
    (h0 : 0 ≤ s.accumulatedTime) (h1 : s.accumulatedTime < s.client.mUpdateFrequency)
    (hg : GridFrame k s t) :
    ∃ fuel₀, ∀ fuel, fuel₀ ≤ fuel →
      ∃ s', outerIterationRounded fuel s t = some s' ∧
        ((updateCalls (callsSince s.client s')).length : ℤ) ≤
          ⌈(1 / 4) / s.client.mUpdateFrequency⌉ := by
  have hu : 0 < s.client.mUpdateFrequency := hg.2.2.1.1
  refine ⟨stepsOwed (beginFrame s t), fun fuel hf => ?_⟩
  obtain ⟨s', ht1, ht2⟩ := outerIterationRounded_of_gridFrame k s s t rfl hg fuel hf
  refine ⟨s', ht1, ?_⟩
  rw [erased_updateCalls s.client ht2, updateCalls_length_frameResult]
  have hle := stepsOwed_beginFrame_le s t hu h0
  have hlt : ((stepsOwed (beginFrame s t) : ℤ) - 1 : ℤ) <
      ⌈(1 / 4) / s.client.mUpdateFrequency⌉ := by
    rw [Int.lt_ceil, lt_div_iff₀ hu]
    push_cast
    linarith
  omega

theorem updates_per_frame_ceil_on_grid_witness :
    (0 : ℚ) ≤ (loopEntry GameClient.new 0).accumulatedTime ∧
    (loopEntry GameClient.new 0).accumulatedTime <
      (loopEntry GameClient.new 0).client.mUpdateFrequency ∧
    GridFrame 29 (loopEntry GameClient.new 0) (10 * GameClient.new.mUpdateFrequency) ∧
    ∃ fuel₀, ∀ fuel, fuel₀ ≤ fuel →
      ∃ s', outerIterationRounded fuel (loopEntry GameClient.new 0)
          (10 * GameClient.new.mUpdateFrequency) = some s' ∧
        ((updateCalls (callsSince (loopEntry GameClient.new 0).client s')).length : ℤ) ≤
          ⌈(1 / 4) / (loopEntry GameClient.new 0).client.mUpdateFrequency⌉ :=
  ⟨by decide!, by decide!, by decide!,
    updates_per_frame_ceil_on_grid 29 (loopEntry GameClient.new 0)
      (10 * GameClient.new.mUpdateFrequency) (by decide!) (by decide!) (by decide!)⟩

/-- C7, amended: for every update step `u > 0` of a grid run, where no sum or
difference of the loop rounds, a single frame of delta `10 * u` in the initial
state completes with the frame time `min (10 * u) 0.25`. When `u > 1/40` the
clamp cuts the frame to `0.25 < 10 * u` and the frame makes `⌊0.25 / u⌋`
`Update` calls, fewer than 10; when `u ≤ 1/40`, which includes the default
step, the clamp does not apply and the whole delta `10 * u` is accumulated. -/
theorem ten_step_frame_on_grid (c : GameClient) (start : ℚ) (k : Nat)
    (hu : 0 < c.mUpdateFrequency) (hg : GridRun k c [10 * c.mUpdateFrequency]) :
    ∃ fuel₀, ∀ fuel, fuel₀ ≤ fuel →
      ∃ s, runIterationsRounded fuel (loopEntry c start)
          (clockReadings start [10 * c.mUpdateFrequency]) = some s ∧
        s.frameTime = min (10 * c.mUpdateFrequency) (1 / 4) ∧
        (c.mUpdateFrequency ≤ 1 / 40 → s.frameTime = 10 * c.mUpdateFrequency) ∧
        (1 / 40 < c.mUpdateFrequency →
          s.frameTime = 1 / 4 ∧
          ((updateCalls (callsSince c s)).length : ℤ) = ⌊(1 / 4) / c.mUpdateFrequency⌋ ∧
          (updateCalls (callsSince c s)).length < 10) ∧
        GameClient.new.mUpdateFrequency ≤ 1 / 40 := by
  refine ⟨fuelNeeded (loopEntry c start) (clockReadings start [10 * c.mUpdateFrequency]),
    fun fuel hf => ?_⟩
  obtain ⟨r, h1, h2, _⟩ := runIterationsRounded_of_gridRun c start _ k hu hg fuel hf
  have hft : r.frameTime = min (10 * c.mUpdateFrequency) (1 / 4) := by
    have h : framesResult (loopEntry c start) (clockReadings start [10 * c.mUpdateFrequency]) =
        frameResult (loopEntry c start) ((loopEntry c start).systemTime +
          10 * c.mUpdateFrequency) := rfl
    rw [erased_frameTime h2, h, frameResult_frameTime, add_sub_cancel_left,
      clampFrameTime_eq_min]
  refine ⟨r, h1, hft, ?_, ?_, by decide!⟩
  · intro hle
    rw [hft]; exact min_eq_left (by linarith)
  · intro hlt
    have h := updateCalls_length_framesResult c start [10 * c.mUpdateFrequency] hu
      (by intro d hd; rw [List.mem_singleton] at hd; rw [hd]; linarith)
    have hm : min (10 * c.mUpdateFrequency) (1 / 4) = 1 / 4 :=
      min_eq_right (by linarith)
    simp only [clampedTotal, List.map_cons, List.map_nil, List.sum_cons, List.sum_nil,
      add_zero, hm] at h
    rw [erased_updateCalls c h2]
    refine ⟨by rw [hft, hm], h, ?_⟩
    have h2 : ⌊(1 / 4 : ℚ) / c.mUpdateFrequency⌋ < 10 := by
      rw [Int.floor_lt, div_lt_iff₀ hu]
      push_cast
      linarith
    rw [← h] at h2
    exact_mod_cast h2

theorem ten_step_frame_on_grid_witness :
    (0 : ℚ) < (clientWithStep (1 / 32)).mUpdateFrequency ∧
    GridRun 29 (clientWithStep (1 / 32)) [10 * (clientWithStep (1 / 32)).mUpdateFrequency] ∧
    ∃ fuel₀, ∀ fuel, fuel₀ ≤ fuel →
      ∃ s, runIterationsRounded fuel (loopEntry (clientWithStep (1 / 32)) 0)
          (clockReadings 0 [10 * (clientWithStep (1 / 32)).mUpdateFrequency]) = some s ∧
        s.frameTime = min (10 * (clientWithStep (1 / 32)).mUpdateFrequency) (1 / 4) ∧
        ((clientWithStep (1 / 32)).mUpdateFrequency ≤ 1 / 40 →
          s.frameTime = 10 * (clientWithStep (1 / 32)).mUpdateFrequency) ∧
        (1 / 40 < (clientWithStep (1 / 32)).mUpdateFrequency →
          s.frameTime = 1 / 4 ∧
          ((updateCalls (callsSince (clientWithStep (1 / 32)) s)).length : ℤ) =
            ⌊(1 / 4) / (clientWithStep (1 / 32)).mUpdateFrequency⌋ ∧
          (updateCalls (callsSince (clientWithStep (1 / 32)) s)).length < 10) ∧
        GameClient.new.mUpdateFrequency ≤ 1 / 40 :=
  ⟨by decide!, by decide!,
    ten_step_frame_on_grid (clientWithStep (1 / 32)) 0 29 (by decide!) (by decide!)⟩

/-- C20, refuted as stated: with the step that `SetUpdateFrequency(10)`
stores, three frames of delta `1/4` make 7 `Update` calls, and the third
`Draw` call receives the simulation time as rounded by the seven additions,
which is not `u * 7`. -/
theorem draw_arguments_counterexample :
    (runIterationsRounded 3 (loopEntry (clientWithStep (roundTimeT (1 / 10))) 0)
      (clockReadings 0 [1 / 4, 1 / 4, 1 / 4])).map
        (fun s => ((drawCalls (callsSince (clientWithStep (roundTimeT (1 / 10))) s))[2]?,
          (updateCalls (callsSince (clientWithStep (roundTimeT (1 / 10))) s)).length)) =
      some (some (Event.Draw (3152519739159347 / 4503599627370496)
        (1125899906842625 / 2251799813685248)), 7) ∧
    (3152519739159347 / 4503599627370496 : ℚ) ≠ roundTimeT (1 / 10) * 7 := by
  decide!

/-- C20, amended: for every update step `u > 0` and all frame deltas of a grid
run, where no sum or difference of the loop rounds, every outer iteration
completes and makes one `Draw` call, whose simulation time is `u` times the
number of `Update` calls made so far in the run, this iteration's included,
and whose interpolation is `1 - accumulatedTime / u` for the accumulator left
by this iteration's stepping loop, with the quotient and the difference each
rounded to `double`. -/
theorem draw_arguments_on_grid (c : GameClient) (start : ℚ) (ds : List ℚ) (d : ℚ) (k : Nat)
    (hu : 0 < c.mUpdateFrequency) (hg : GridRun k c (ds ++ [d])) :
    ∃ fuel₀, ∀ fuel, fuel₀ ≤ fuel →
      ∃ s e, runIterationsRounded fuel (loopEntry c start) (clockReadings start ds) = some s ∧
        stepLoopRounded fuel (beginFrameRounded s (s.systemTime + d)) = some e ∧
        outerIterationRounded fuel s (s.systemTime + d) = some (endFrameRounded e) ∧
        drawCalls (callsSince s.client (endFrameRounded e)) =
          [Event.Draw
            (c.mUpdateFrequency * (updateCalls (callsSince c (endFrameRounded e))).length)
            (roundTimeT (1 - roundTimeT (e.accumulatedTime / c.mUpdateFrequency)))] := by
  have hus : (framesResult (loopEntry c start) (clockReadings start ds)).client.mUpdateFrequency
      = c.mUpdateFrequency := framesResult_updateFrequency (loopEntry c start) ds
  have hus' : 0 < (framesResult (loopEntry c start)
      (clockReadings start ds)).client.mUpdateFrequency := by rw [hus]; exact hu
  refine ⟨max (fuelNeeded (loopEntry c start) (clockReadings start ds))
    (stepsOwed (beginFrame (framesResult (loopEntry c start) (clockReadings start ds))
      ((framesResult (loopEntry c start) (clockReadings start ds)).systemTime + d))),
    fun fuel hf => ?_⟩
  rw [max_le_iff] at hf
  obtain ⟨s, hs1, hs2, hs3⟩ := gridFrame_after_run start hu hg fuel hf.1
  obtain ⟨r, ht1, ht2⟩ := outerIterationRounded_of_gridFrame k s _ _ hs2 hs3 fuel hf.2
  rw [← erased_systemTime hs2] at ht1 ht2
  obtain ⟨e, he1, he2, he3, _⟩ := outerIterationRounded_draw fuel s r _ ht1
  have htr := updateTrace_frameResult c _
    ((framesResult (loopEntry c start) (clockReadings start ds)).systemTime + d)
    (updateTrace_framesResult c start ds)
  obtain ⟨_, _, n, hc, hsim⟩ := htr
  rw [← erased_systemTime hs2] at hc hsim
  subst he2
  refine ⟨s, e, hs1, he1, ht1, ?_⟩
  have hsim' : e.simulationTime = n * c.mUpdateFrequency := by
    rw [← hsim, ← erased_simulationTime ht2]
    rfl
  have hue : e.client.mUpdateFrequency = c.mUpdateFrequency := by
    rw [stepLoopRounded_fields fuel _ e he1]
    show s.client.mUpdateFrequency = _
    rw [erased_updateFrequency hs2, hus]
  rw [he3, erased_updateCalls c ht2, hc, List.length_map, List.length_range, hsim']
  unfold interpolationRounded
  rw [hue, mul_comm]

theorem draw_arguments_on_grid_witness :
    (0 : ℚ) < GameClient.new.mUpdateFrequency ∧
    GridRun 29 GameClient.new ([1 / 128, 1 / 16] ++ [1]) ∧
    ∃ fuel₀, ∀ fuel, fuel₀ ≤ fuel →
      ∃ s e, runIterationsRounded fuel (loopEntry GameClient.new 0)
          (clockReadings 0 [1 / 128, 1 / 16]) = some s ∧
        stepLoopRounded fuel (beginFrameRounded s (s.systemTime + 1)) = some e ∧
        outerIterationRounded fuel s (s.systemTime + 1) = some (endFrameRounded e) ∧
        drawCalls (callsSince s.client (endFrameRounded e)) =
          [Event.Draw
            (GameClient.new.mUpdateFrequency *
              (updateCalls (callsSince GameClient.new (endFrameRounded e))).length)
            (roundTimeT (1 - roundTimeT
              (e.accumulatedTime / GameClient.new.mUpdateFrequency)))] :=
  ⟨by decide!, by decide!,
    draw_arguments_on_grid GameClient.new 0 [1 / 128, 1 / 16] 1 29 (by decide!) (by decide!)⟩

/-- C26, refuted as stated: with the step that `SetUpdateFrequency(50)` stores
and the accumulator `10^17` the difference `a - u` rounds to `a`, and the inner
loop of the rounded loop ends on no fuel; with the step that
`SetUpdateFrequency(20)` stores and the accumulator `0.3` it ends after 6
iterations, where `⌊a / u⌋ = 5`. -/
theorem inner_loop_counterexample :
    (¬ ∃ fuel r, stepLoopRounded fuel
      { loopEntry (clientWithStep (roundTimeT (1 / 50))) 0 with
        accumulatedTime := 10 ^ 17 } = some r) ∧
    (stepLoopRounded 6 { loopEntry (clientWithStep (roundTimeT (1 / 20))) 0 with
      accumulatedTime := roundTimeT (3 / 10) }).map
        (fun r => (updateCalls r.client.calls).length) = some 6 ∧
    ⌊roundTimeT (3 / 10) / roundTimeT (1 / 20)⌋ = 5 := by
  refine ⟨?_, by decide!, by decide!⟩
  have key : ∀ (fuel : Nat) (s : LoopState), s.accumulatedTime = 10 ^ 17 →
      s.client.mUpdateFrequency = roundTimeT (1 / 50) → stepLoopRounded fuel s = none := by
    intro fuel
    induction fuel with
    | zero =>
      intro s ha hu
      unfold stepLoopRounded
      rw [ha, hu, if_pos (by decide!)]
    | succ fuel ih =>
      intro s ha hu
      unfold stepLoopRounded
      rw [ha, hu, if_pos (by decide!)]
      apply ih
      · show roundTimeT (s.accumulatedTime - s.client.mUpdateFrequency) = 10 ^ 17
        rw [ha, hu]
        decide!
      · exact hu
  rintro ⟨fuel, r, h⟩
  rw [key fuel _ rfl rfl] at h
  cases h

/-- C26, amended: for a loop state on the grid, with a positive update step
`u` and an accumulator `a`, where no sum or difference rounds, the rounded
inner stepping loop terminates after exactly `n` iterations, on every fuel of
at least `n` and on none below, where `n = ⌊a / u⌋` when `a ≥ 0` and `n = 0`
when `a < u`; it makes `n` `Update` calls and leaves an accumulator below `u`.
In every state with `a < u` the loop makes no iteration. For a stored step
`u ≤ 0` and `a ≥ u` the loop ends on no fuel. -/
theorem inner_loop_on_grid (k : Nat) (s : LoopState) (hk : k ≤ 1074) (hg : GridState k s)
    (hb : timeBudget s * 2 ^ k < 2 ^ 53) :
    (∃ r n, (∀ fuel, n ≤ fuel → stepLoopRounded fuel s = some r) ∧
      (∀ fuel, fuel < n → stepLoopRounded fuel s = none) ∧
      (updateCalls (callsSince s.client r)).length = n ∧
      r.accumulatedTime < s.client.mUpdateFrequency ∧
      (0 ≤ s.accumulatedTime → (n : ℤ) = ⌊s.accumulatedTime / s.client.mUpdateFrequency⌋) ∧
      (s.accumulatedTime < s.client.mUpdateFrequency → n = 0)) ∧
    (∀ (x : LoopState) (fuel : Nat), x.accumulatedTime < x.client.mUpdateFrequency →
      stepLoopRounded fuel x = some x) ∧
    ∀ (x : LoopState) (fuel : Nat),
      roundTimeT x.client.mUpdateFrequency = x.client.mUpdateFrequency →
      x.client.mUpdateFrequency ≤ 0 → x.client.mUpdateFrequency ≤ x.accumulatedTime →
      stepLoopRounded fuel x = none := by
  have hu : 0 < s.client.mUpdateFrequency := hg.1
  refine ⟨?_, fun x fuel h => stepLoopRounded_of_lt fuel x h,
    fun x fuel h1 h2 h3 => stepLoopRounded_none_of_nonpos fuel x h1 h2 h3⟩
  obtain ⟨r, h1, h2, _⟩ := stepLoopRounded_agree k (timeBudget s) hk hb (stepsOwed s) s s rfl hg
    (le_refl _) _ (stepLoop_eq (stepsOwed s) s hu (le_refl _))
  refine ⟨r, stepsOwed s, fun fuel hf => stepLoopRounded_of_le _ fuel s r hf h1,
    fun fuel hf => stepLoopRounded_none_iff k (timeBudget s) hk hb fuel s s rfl hg (le_refl _)
      (stepLoop_none_of_lt fuel s hu hf), ?_, ?_, stepsOwed_eq_floor s hu,
    stepsOwed_eq_zero s hu⟩
  · rw [erased_updateCalls s.client h2]
    exact updateCalls_length_iterate _ s
  · rw [erased_accumulatedTime h2, iterate_accumulatedTime]
    have h3 : s.accumulatedTime / s.client.mUpdateFrequency <
        ⌊s.accumulatedTime / s.client.mUpdateFrequency⌋ + 1 := Int.lt_floor_add_one _
    have h4 : ((⌊s.accumulatedTime / s.client.mUpdateFrequency⌋ : ℤ) : ℚ) ≤
        ((stepsOwed s : ℕ) : ℚ) := by
      have := Int.self_le_toNat ⌊s.accumulatedTime / s.client.mUpdateFrequency⌋
      unfold stepsOwed
      exact_mod_cast this
    have h5 : s.accumulatedTime / s.client.mUpdateFrequency < ((stepsOwed s : ℕ) : ℚ) + 1 := by
      linarith
    rw [div_lt_iff₀ hu] at h5
    linarith

theorem inner_loop_on_grid_witness :
    (29 : Nat) ≤ 1074 ∧
    GridState 29 (beginFrameRounded (loopEntry GameClient.new 0) (1 / 16)) ∧
    timeBudget (beginFrameRounded (loopEntry GameClient.new 0) (1 / 16)) * 2 ^ 29 < 2 ^ 53 ∧
    ∃ r n, (∀ fuel, n ≤ fuel →
        stepLoopRounded fuel (beginFrameRounded (loopEntry GameClient.new 0) (1 / 16)) = some r) ∧
      (∀ fuel, fuel < n →
        stepLoopRounded fuel (beginFrameRounded (loopEntry GameClient.new 0) (1 / 16)) = none) ∧
      (updateCalls (callsSince (beginFrameRounded (loopEntry GameClient.new 0) (1 / 16)).client
        r)).length = n ∧
      r.accumulatedTime <
        (beginFrameRounded (loopEntry GameClient.new 0) (1 / 16)).client.mUpdateFrequency ∧
      (0 ≤ (beginFrameRounded (loopEntry GameClient.new 0) (1 / 16)).accumulatedTime →
        (n : ℤ) = ⌊(beginFrameRounded (loopEntry GameClient.new 0) (1 / 16)).accumulatedTime /
          (beginFrameRounded (loopEntry GameClient.new 0) (1 / 16)).client.mUpdateFrequency⌋) ∧
      ((beginFrameRounded (loopEntry GameClient.new 0) (1 / 16)).accumulatedTime <
        (beginFrameRounded (loopEntry GameClient.new 0) (1 / 16)).client.mUpdateFrequency → n = 0) :=
  ⟨by decide, by decide!, by decide!,
    (inner_loop_on_grid 29 (beginFrameRounded (loopEntry GameClient.new 0) (1 / 16)) (by decide)
      (by decide!) (by decide!)).1⟩

/-- C24, refuted as stated: with the step that `SetUpdateFrequency(50)` stores
a single frame of delta `4 * u` has the clamped total `4 * u`, an exact
multiple of `u`, and `Draw` receives the interpolation `3 / 2^53`, not 1: the
accumulator is not drained to 0. -/
theorem interpolation_one_counterexample :
    (runIterationsRounded 4 (loopEntry (clientWithStep (roundTimeT (1 / 50))) 0)
      (clockReadings 0 [4 * roundTimeT (1 / 50)])).map
        (fun s => (drawInterpolations (callsSince (clientWithStep (roundTimeT (1 / 50))) s),
          decide (s.accumulatedTime = 0))) = some ([3 / 2 ^ 53], false) ∧
    clampedTotal [4 * roundTimeT (1 / 50)] = (4 : ℕ) * roundTimeT (1 / 50) ∧
    (3 / 2 ^ 53 : ℚ) ≠ 1 := by
  decide!

/-- C24, amended: for every update step `u > 0` and all frame deltas
`d_i ≥ 0` of a grid run, where no sum or difference of the loop rounds, the
interpolation passed to `Draw` in an outer iteration of the rounded loop is
positive (so never 0) and at most 1, and it is 1 exactly when the accumulator
is 0 after the stepping loop, which is exactly when the clamped total of the
frame deltas so far is a multiple of `u`. -/
theorem interpolation_one_on_grid (c : GameClient) (start : ℚ) (ds : List ℚ) (d : ℚ)
    (k : Nat) (hu : 0 < c.mUpdateFrequency) (hds : ∀ x ∈ ds, 0 ≤ x) (hd : 0 ≤ d)
    (hg : GridRun k c (ds ++ [d])) :
    ∃ fuel₀, ∀ fuel, fuel₀ ≤ fuel →
      ∃ s s' x, runIterationsRounded fuel (loopEntry c start) (clockReadings start ds) =
          some s ∧
        outerIterationRounded fuel s (s.systemTime + d) = some s' ∧
        drawInterpolations (callsSince s.client s') = [x] ∧
        0 < x ∧ x ≤ 1 ∧ x ≠ 0 ∧ (x = 1 ↔ s'.accumulatedTime = 0) ∧
        (x = 1 ↔ ∃ m : ℕ, clampedTotal (ds ++ [d]) = m * c.mUpdateFrequency) := by
  have hb : 0 ≤ (framesResult (loopEntry c start) (clockReadings start ds)).accumulatedTime ∧
      (framesResult (loopEntry c start) (clockReadings start ds)).accumulatedTime <
        c.mUpdateFrequency :=
    framesResult_accumulatedTime_bounds (loopEntry c start) ds hu hds (le_refl _) hu
  have hus : (framesResult (loopEntry c start) (clockReadings start ds)).client.mUpdateFrequency
      = c.mUpdateFrequency := framesResult_updateFrequency (loopEntry c start) ds
  have hus' : 0 < (framesResult (loopEntry c start)
      (clockReadings start ds)).client.mUpdateFrequency := by rw [hus]; exact hu
  have hzero := accumulatedTime_eq_zero_iff c start ds d hu hds hd
  have hba : 0 ≤ (beginFrame (framesResult (loopEntry c start) (clockReadings start ds))
      ((framesResult (loopEntry c start) (clockReadings start ds)).systemTime +
        d)).accumulatedTime := by
    have := clampFrameTime_nonneg d hd
    simp only [beginFrame_accumulatedTime, add_sub_cancel_left]
    linarith [hb.1]
  have hlt := frameResult_accumulatedTime_lt
    (framesResult (loopEntry c start) (clockReadings start ds))
    ((framesResult (loopEntry c start) (clockReadings start ds)).systemTime + d) hus'
  have hge := frameResult_accumulatedTime_nonneg
    (framesResult (loopEntry c start) (clockReadings start ds))
    ((framesResult (loopEntry c start) (clockReadings start ds)).systemTime + d) hus' hba
  refine ⟨max (fuelNeeded (loopEntry c start) (clockReadings start ds))
    (stepsOwed (beginFrame (framesResult (loopEntry c start) (clockReadings start ds))
      ((framesResult (loopEntry c start) (clockReadings start ds)).systemTime + d))),
    fun fuel hf => ?_⟩
  rw [max_le_iff] at hf
  obtain ⟨s, hs1, hs2, hs3⟩ := gridFrame_after_run start hu hg fuel hf.1
  obtain ⟨r, ht1, ht2⟩ := outerIterationRounded_of_gridFrame k s _ _ hs2 hs3 fuel hf.2
  have hgr := gridState_frameResult k _ _ hs3
  rw [← erased_systemTime hs2] at ht1
  obtain ⟨e, he1, he2, _, he4⟩ := outerIterationRounded_draw fuel s r _ ht1
  have hacc : e.accumulatedTime = (frameResult
      (framesResult (loopEntry c start) (clockReadings start ds))
      ((framesResult (loopEntry c start) (clockReadings start ds)).systemTime +
        d)).accumulatedTime := by
    rw [← erased_accumulatedTime ht2, he2]
    rfl
  have hue : e.client.mUpdateFrequency = c.mUpdateFrequency := by
    rw [stepLoopRounded_fields fuel _ e he1]
    show s.client.mUpdateFrequency = _
    rw [erased_updateFrequency hs2, hus]
  have hbu : c.mUpdateFrequency * 2 ^ k < 2 ^ 53 := by
    obtain ⟨_, _, _, h4, _, _, h7⟩ := hg
    refine lt_of_le_of_lt (mul_le_mul_of_nonneg_right ?_ (by positivity)) h7
    linarith [sum_abs_nonneg (ds ++ [d])]
  obtain ⟨hx1, hx2, hx3⟩ := interpolationRounded_on_grid k e (by rw [hue]; exact hu)
    (by rw [hue]; exact hg.2.2.1) (by rw [hacc]; exact hgr.2.2.2.2.2.2)
    (by rw [hacc]; exact hge) (by rw [hacc, hue, ← hus]; exact hlt)
    (by rw [hue]; exact hbu)
  have hr : r.accumulatedTime = e.accumulatedTime := by rw [he2]; rfl
  refine ⟨s, r, interpolationRounded e, hs1, ht1, he4, hx1, hx2, hx1.ne', ?_, ?_⟩
  · rw [hx3, hr]
  · rw [hx3, hacc]
    exact hzero

theorem interpolation_one_on_grid_witness :
    (0 : ℚ) < GameClient.new.mUpdateFrequency ∧
    (∀ x ∈ ([1 / 128] : List ℚ), 0 ≤ x) ∧ (0 : ℚ) ≤ 1 / 32 ∧
    GridRun 29 GameClient.new ([1 / 128] ++ [1 / 32]) ∧
    ∃ fuel₀, ∀ fuel, fuel₀ ≤ fuel →
      ∃ s s' x, runIterationsRounded fuel (loopEntry GameClient.new 0)
          (clockReadings 0 [1 / 128]) = some s ∧
        outerIterationRounded fuel s (s.systemTime + 1 / 32) = some s' ∧
        drawInterpolations (callsSince s.client s') = [x] ∧
        0 < x ∧ x ≤ 1 ∧ x ≠ 0 ∧ (x = 1 ↔ s'.accumulatedTime = 0) ∧
        (x = 1 ↔ ∃ m : ℕ, clampedTotal ([1 / 128] ++ [1 / 32]) =
          m * GameClient.new.mUpdateFrequency) :=
  ⟨by decide!, by decide!, by decide!, by decide!,
    interpolation_one_on_grid GameClient.new 0 [1 / 128] (1 / 32) 29 (by decide!)
      (by decide!) (by decide!) (by decide!)⟩

end Hailstorm
